import Mathlib

/-!
# Verification of the synthpops contact-network construction core

Shallow embedding of the algorithms in `synthpops/workplaces.py`,
`synthpops/contact_networks.py` and the generation pipeline of
`synthpops/pop.py`.  The process-wide numpy pseudorandom generator is
modelled by an explicit generator state (`Rng`) threaded through every
sampling call; random draws are deterministic functions of that state.
Weighted draws follow the cumulative-sum scheme: a uniform variate scaled
by the total weight selects the index of the cumulative bin it lands in,
so an index with zero weight is never selected while the total is positive.
-/

namespace SynthPops

/-- Explicit pseudorandom-generator state standing in for numpy's global
Mersenne-Twister state (a linear congruential step; the claims are
independent of the concrete update function, they only use that draws are
functions of the state). -/
structure Rng where
  state : Nat
deriving DecidableEq, Repr

/-- One raw generator step: next raw value together with the next state. -/
def rngStep (g : Rng) : Nat × Rng :=
  let s := (g.state * 1103515245 + 12345) % 2147483648
  (s, ⟨s⟩)

/-- `np.random.seed(seed)`: the state a fixed seed initializes. -/
def seedRng (seed : Nat) : Rng := ⟨seed % 2147483648⟩

/-- A uniform draw from `{0, …, n-1}` (for `n = 0` it returns the raw value). -/
def randNat (g : Rng) (n : Nat) : Nat × Rng :=
  let (r, g') := rngStep g
  (r % n, g')

/-- A uniform rational draw from `[0, 1)` with 2^31 equidistant values,
standing in for `np.random.random()`. -/
def randRat (g : Rng) : Rat × Rng :=
  let (r, g') := rngStep g
  ((r : Rat) / 2147483648, g')

/-- The index of the cumulative bin a draw `r` lands in: the least `i`
with `r < w₀ + ⋯ + wᵢ` (and the length when `r` lies past the total). -/
def pickWeighted : List Rat → Rat → Nat
  | [], _ => 0
  | w :: ws, r => if r < w then 0 else pickWeighted ws (r - w) + 1

theorem pickWeighted_lt_length (ws : List Rat) (r : Rat)
    (h0 : 0 ≤ r) (h1 : r < ws.sum) : pickWeighted ws r < ws.length := by
  induction ws generalizing r with
  | nil => simp at h1; exact absurd h1 (not_lt.mpr h0)
  | cons w ws ih =>
    simp only [pickWeighted]
    by_cases hr : r < w
    · simp [hr]
    · simp only [hr, if_false, List.length_cons, Nat.add_lt_add_iff_right]
      apply ih
      · exact sub_nonneg.mpr (not_lt.mp hr)
      · have := h1
        simp only [List.sum_cons] at this
        linarith

theorem pickWeighted_pos (ws : List Rat) (r : Rat)
    (hn : ∀ w ∈ ws, 0 ≤ w) (h0 : 0 ≤ r) (h1 : r < ws.sum) :
    0 < ws.getD (pickWeighted ws r) 0 := by
  induction ws generalizing r with
  | nil => simp at h1; exact absurd h1 (not_lt.mpr h0)
  | cons w ws ih =>
    simp only [pickWeighted]
    by_cases hr : r < w
    · simpa [hr] using lt_of_le_of_lt h0 hr
    · simp only [hr, if_false]
      have hsum : r - w < ws.sum := by
        simp only [List.sum_cons] at h1; linarith
      have := ih (r - w) (fun x hx => hn x (List.mem_cons_of_mem _ hx))
        (sub_nonneg.mpr (not_lt.mp hr)) hsum
      simpa using this

/-- Modelled from the spec: `sampling.fast_choice` draws an index weighted
by the given nonnegative weights (the cumulative bin a uniform draw scaled
by the total lands in); with zero total weight it returns index 0 without
consuming a draw. -/
def fastChoice (ws : List Rat) (g : Rng) : Nat × Rng :=
  if ws.sum ≤ 0 then (0, g)
  else (pickWeighted ws ((randRat g).1 * ws.sum), (randRat g).2)

theorem randRat_mem_Ico (g : Rng) : 0 ≤ (randRat g).1 ∧ (randRat g).1 < 1 := by
  unfold randRat rngStep
  constructor
  · positivity
  · rw [div_lt_one (by norm_num)]
    have h := Nat.mod_lt ((g.state * 1103515245 + 12345)) (y := 2147483648) (by norm_num)
    exact_mod_cast h

theorem fastChoice_pos (ws : List Rat) (g : Rng)
    (hn : ∀ w ∈ ws, 0 ≤ w) (hs : 0 < ws.sum) :
    0 < ws.getD (fastChoice ws g).1 0 := by
  unfold fastChoice
  simp only [not_le.mpr hs, if_false]
  obtain ⟨hr0, hr1⟩ := randRat_mem_Ico g
  exact pickWeighted_pos ws _ hn (by positivity)
    (by calc (randRat g).1 * ws.sum < 1 * ws.sum := by
              exact mul_lt_mul_of_pos_right hr1 hs
            _ = ws.sum := one_mul _)

theorem fastChoice_lt_length (ws : List Rat) (g : Rng)
    (hn : ∀ w ∈ ws, 0 ≤ w) (hs : 0 < ws.sum) :
    (fastChoice ws g).1 < ws.length := by
  unfold fastChoice
  simp only [not_le.mpr hs, if_false]
  obtain ⟨hr0, hr1⟩ := randRat_mem_Ico g
  exact pickWeighted_lt_length ws _ (by positivity)
    (by calc (randRat g).1 * ws.sum < 1 * ws.sum := mul_lt_mul_of_pos_right hr1 hs
            _ = ws.sum := one_mul _)

/-- The weighted index draw inside `np.random.choice(keys, p=probs)`:
fails (numpy raises) when the probability mass is not positive. -/
def idxWeighted (ps : List Rat) (g : Rng) : Option (Nat × Rng) :=
  if ps.sum ≤ 0 then none
  else some (pickWeighted ps ((randRat g).1 * ps.sum), (randRat g).2)

/-- `np.random.choice(keys, p=probs)`: a key drawn by the probabilities. -/
def npChoiceWeighted (keys : List Nat) (ps : List Rat) (g : Rng) :
    Option (Nat × Rng) :=
  match idxWeighted ps g with
  | none => none
  | some (i, g') => some (keys.getD i 0, g')

/-- `np.random.choice(l)`: a uniform element of `l` (numpy raises on an
empty list). -/
def uniformChoice (l : List Nat) (g : Rng) : Option (Nat × Rng) :=
  if l.isEmpty then none
  else some (l.getD (randNat g l.length).1 0, (randNat g l.length).2)

/-- Fuel-indexed Fisher–Yates-style shuffle: repeatedly draw a position,
move that element to the front, recurse on the rest. -/
def shuffleGo : Nat → List Int → Rng → List Int × Rng
  | 0, l, g => (l, g)
  | n + 1, l, g =>
    if l.isEmpty then (l, g)
    else
      let (i, g') := randNat g l.length
      let x := l.getD i 0
      let (tail, g'') := shuffleGo n (l.eraseIdx i) g'
      (x :: tail, g'')

/-- `np.random.shuffle`: a random permutation of the list. -/
def shuffleList (l : List Int) (g : Rng) : List Int × Rng :=
  shuffleGo l.length l g

theorem getD_cons_eraseIdx_perm (l : List Int) (i : Nat) (h : i < l.length) :
    (l.getD i 0 :: l.eraseIdx i).Perm l := by
  induction l generalizing i with
  | nil => simp at h
  | cons x xs ih =>
    cases i with
    | zero => simp
    | succ j =>
      simp only [List.getD_cons_succ, List.eraseIdx_cons_succ]
      have hj : j < xs.length := by simpa using h
      exact List.Perm.trans (List.Perm.swap _ _ _) (List.Perm.cons x (ih j hj))

theorem shuffleGo_perm (n : Nat) (l : List Int) (g : Rng) :
    ((shuffleGo n l g).1).Perm l := by
  induction n generalizing l g with
  | zero => simp [shuffleGo]
  | succ n ih =>
    unfold shuffleGo
    by_cases hl : l.isEmpty
    · simp [hl]
    · simp only [hl, if_false]
      have hlen : 0 < l.length := by
        cases l with
        | nil => simp at hl
        | cons a as => simp
      have hi : (randNat g l.length).1 < l.length := by
        unfold randNat rngStep
        exact Nat.mod_lt _ hlen
      refine List.Perm.trans (List.Perm.cons _ (ih _ _)) ?_
      exact getD_cons_eraseIdx_perm l _ hi

theorem shuffleList_perm (l : List Int) (g : Rng) :
    ((shuffleList l g).1).Perm l := shuffleGo_perm _ _ _

/-- Sampling without replacement (`np.random.choice(l, size=k,
replace=False)`): draw a position, take it, recurse without it. -/
def sampleNoReplace : Nat → List Nat → Rng → List Nat × Rng
  | 0, _, g => ([], g)
  | k + 1, l, g =>
    if l.isEmpty then ([], g)
    else
      let (i, g') := randNat g l.length
      let x := l.getD i 0
      let (rest, g'') := sampleNoReplace k (l.eraseIdx i) g'
      (x :: rest, g'')

/-- Modelled from the spec: `base.norm_dic` renormalizes a table of
nonnegative weights to a probability distribution; a zero-total table is
mapped to all zeros. -/
def normDic (ws : List Rat) : List Rat :=
  if ws.sum ≤ 0 then ws.map (fun _ => 0) else ws.map (fun w => w / ws.sum)

theorem sum_map_div (ws : List Rat) (s : Rat) :
    (ws.map (fun w => w / s)).sum = ws.sum / s := by
  induction ws with
  | nil => simp
  | cons w t ih => simp [ih, add_div]

theorem normDic_sum_eq_zero_iff (ws : List Rat) (hn : ∀ w ∈ ws, 0 ≤ w) :
    (normDic ws).sum = 0 ↔ ws.sum = 0 := by
  unfold normDic
  by_cases h : ws.sum ≤ 0
  · have h0 : ws.sum = 0 := le_antisymm h (List.sum_nonneg hn)
    have hz : (ws.map (fun _ => (0 : Rat))).sum = 0 :=
      List.sum_eq_zero (fun x hx => by
        rcases List.mem_map.mp hx with ⟨a, _, rfl⟩; rfl)
    rw [if_pos h, hz]
    simp [h0]
  · push_neg at h
    rw [if_neg (not_le.mpr h), sum_map_div, div_self (ne_of_gt h)]
    constructor
    · intro h1; exact absurd h1 one_ne_zero
    · intro h0; exact absurd h0 (ne_of_gt h)

/-!
## `workplaces.py`: generate_workplace_sizes

Bracket keys are positions: `distr` lists the (unnormalized) weight of each
sorted size bracket, `brackets` the concrete sizes each bracket covers.
The target headcount is the total of `workers_by_age_to_assign_count`,
here a per-age list `counts`.  The `while nworkers > 0` loop is embedded
with fuel (`none` models a Python run that never finishes drawing).
-/

/-- The `while nworkers > 0` draw loop of `generate_workplace_sizes`:
returns the drawn sizes in draw order together with the final (possibly
negative) remaining headcount. -/
def sizesLoop (brackets : List (List Nat)) (probs : List Rat)
    (fuel : Nat) (n : Int) (g : Rng) : Option (List Int × Int × Rng) :=
  if n ≤ 0 then some ([], n, g)
  else
    match fuel with
    | 0 => none
    | fuel + 1 =>
      match idxWeighted probs g with
      | none => none
      | some (bi, g1) =>
        match uniformChoice (brackets.getD bi []) g1 with
        | none => none
        | some (size, g2) =>
          match sizesLoop brackets probs fuel (n - size) g2 with
          | none => none
          | some (l, nf, g3) => some ((size : Int) :: l, nf, g3)

/-- `workplaces.generate_workplace_sizes`: draw bracketed sizes until the
headcount is covered, correct the last drawn size on overshoot, shuffle. -/
def generate_workplace_sizes (distr : List Rat) (brackets : List (List Nat))
    (counts : List Nat) (g : Rng) : Option (List Int × Rng) :=
  let nworkers : Int := (counts.sum : Int)
  let probs := normDic distr
  match sizesLoop brackets probs (counts.sum + 1) nworkers g with
  | none => none
  | some (raw, nf, g1) =>
    let corrected :=
      if nf < 0 then raw.dropLast ++ [raw.getLast?.getD 0 + nf] else raw
    some (shuffleList corrected g1)

/-!
## `workplaces.py`: assign_rest_of_workers

Ages index both the per-age uid pools and the per-age assign counts
(`sorted_worker_age_keys` is the index range of `counts`).  The uid→age
dictionary `potential_worker_uids` is maintained by the source in lockstep
with the per-age pools (every pop removes the uid from both), so its size
is the total pool size and is embedded as such.  `age_brackets` maps a
bracket id to its list of ages and `ageToBracket` is `age_by_brackets_dic`.
The contact matrix `W` is a list of rows; a worker-exhausted bracket's
column is zeroed in place.  Python runs that raise (empty pool lookups) or
never terminate (the bracket re-draw loop with no candidates) are `none`.
-/

/-- Generation state of the workplace layer: per-age uid pools, per-age
remaining assign counts, the mutable contact matrix and the generator. -/
structure AState where
  pools  : List (List Nat)
  counts : List Nat
  W      : List (List Rat)
  g      : Rng
deriving DecidableEq, Repr

/-- `M[:, b] = 0`: zero a column of the contact matrix. -/
def zeroColumn (M : List (List Rat)) (b : Nat) : List (List Rat) :=
  M.map (fun row => row.set b 0)

/-- The pre-loop pass: zero the column of every bracket with no workers
left to assign (the column index is clamped to the matrix width). -/
def initZeroEmptyBrackets (ageBrackets : List (List Nat)) (counts : List Nat)
    (M : List (List Rat)) : List (List Rat) :=
  (List.range ageBrackets.length).foldl
    (fun M b =>
      let wl := ((ageBrackets.getD b []).map (fun a => counts.getD a 0)).sum
      if wl = 0 then zeroColumn M (min b ((M.getD 0 []).length - 1)) else M)
    M

/-- Pop the head uid of age `a`'s pool and decrement that age's assign
count (`pool[a][0]`, `pool[a].remove(uid)`, `count[a] -= 1`). -/
def popAge (pools : List (List Nat)) (counts : List Nat) (a : Nat) :
    Option (Nat × List (List Nat) × List Nat) :=
  match (pools.getD a []).head? with
  | none => none
  | some uid =>
    some (uid, pools.set a (pools.getD a []).tail,
          counts.set a (counts.getD a 0 - 1))

/-- The bracket re-draw loop: while the drawn bracket has no assignable
worker with a non-empty pool, zero it in the working copy of the row
distribution and draw a bracket again. -/
def whileFallback (ageBrackets : List (List Nat)) (pools : List (List Nat))
    (counts : List Nat) :
    Nat → List Rat → Nat → Rng → Option (Nat × Rng)
  | 0, _, _, _ => none
  | fuel + 1, lbp, bi, g =>
    let wlb := ((ageBrackets.getD bi []).filter
      (fun a => !(pools.getD a []).isEmpty)).map (fun a => counts.getD a 0)
    if wlb.sum ≠ 0 then some (bi, g)
    else
      let lbp' := lbp.set bi 0
      whileFallback ageBrackets pools counts fuel lbp'
        (fastChoice lbp' g).1 (fastChoice lbp' g).2

/-- One iteration of the member loop `for i in range(1, size)`: draw a
bracket from the anchor's row distribution, fall back over brackets while
the drawn one has no available worker, draw an age within the bracket by
remaining count, pop that age's pool — all of it only when the row
distribution has positive mass — then zero the bracket's column if it just
emptied and refresh the row distribution from the matrix. -/
def slotStep (ageBrackets : List (List Nat)) (bindex : Nat)
    (bProb : List Rat) (st : AState) :
    Option (Option (Nat × Nat) × List Rat × AState) :=
  let afterAssign :
      Option (Option (Nat × Nat) × Nat × List (List Nat) × List Nat × Rng) :=
    if bProb.sum ≠ 0 then
      match whileFallback ageBrackets st.pools st.counts
          (bProb.length + 2) bProb (fastChoice bProb st.g).1
          (fastChoice bProb st.g).2 with
      | none => none
      | some (bi, g2) =>
        let bracketAges := ageBrackets.getD bi []
        let aProb := bracketAges.map (fun a => ((st.counts.getD a 0 : Nat) : Rat))
        let ai := bracketAges.getD (fastChoice aProb g2).1 0
        match popAge st.pools st.counts ai with
        | none => none
        | some (uid, pools', counts') =>
          some (some (ai, uid), bi, pools', counts', (fastChoice aProb g2).2)
    else
      some (none, (fastChoice bProb st.g).1, st.pools, st.counts,
        (fastChoice bProb st.g).2)
  match afterAssign with
  | none => none
  | some (added, bi, pools', counts', g') =>
    let wlb2 := ((ageBrackets.getD bi []).map (fun a => counts'.getD a 0)).sum
    if wlb2 = 0 then
      let W' := zeroColumn st.W bi
      let row := W'.getD bindex []
      let bProb' := if 0 < row.sum then row.map (fun w => w / row.sum) else row
      some (added, bProb', ⟨pools', counts', W', g'⟩)
    else
      some (added, bProb, ⟨pools', counts', st.W, g'⟩)

/-- The member loop `for i in range(1, size)` (`k` remaining iterations):
collects the ages and uids it actually assigned. -/
def innerLoop (ageBrackets : List (List Nat)) (bindex : Nat) :
    Nat → List Rat → AState → Option (List Nat × List Nat × List Rat × AState)
  | 0, bp, st => some ([], [], bp, st)
  | k + 1, bp, st =>
    match slotStep ageBrackets bindex bp st with
    | none => none
    | some (added, bp', st') =>
      match innerLoop ageBrackets bindex k bp' st' with
      | none => none
      | some (ags, uds, bp'', st'') =>
        match added with
        | none => some (ags, uds, bp'', st'')
        | some (a, u) => some (a :: ags, u :: uds, bp'', st'')

/-- The drain branch (`for ai in workers_by_age_to_assign_count`): for each
age in order, place that age's whole remaining assign count from the front
of its pool and zero the count. -/
def drainGo (ages : List Nat) (pools : List (List Nat)) (counts : List Nat) :
    Option (List Nat × List Nat × List (List Nat) × List Nat) :=
  match ages with
  | [] => some ([], [], pools, counts)
  | a :: rest =>
    let k := counts.getD a 0
    let pl := pools.getD a []
    if k ≤ pl.length then
      match drainGo rest (pools.set a (pl.drop k)) (counts.set a 0) with
      | none => none
      | some (ags, uds, p', c') =>
        some (List.replicate k a ++ ags, pl.take k ++ uds, p', c')
    else none

/-- The two size clamps of `assign_rest_of_workers` (lines 182–186): cut
the requested size to the remaining pool minus one, then to the remaining
assign count plus one. -/
def clampSize (size P wlc : Int) : Int :=
  let size1 := if size > P - 1 then P - 1 else size
  if size1 > wlc then wlc + 1 else size1

/-- Build one workplace (the body of `for n, size in
enumerate(workplace_sizes)` after the two break tests): pick the anchor by
count-weighted age choice, set up the anchor's row distribution, clamp the
requested size against the remaining pool and remaining counts, then
either drain everyone left (last-workplace branch) or run the member
loop.  Returns the workplace's member ages and uids and the new state. -/
def groupStep (ageBrackets : List (List Nat)) (ageToBracket : Nat → Nat)
    (size : Int) (st : AState) :
    Option (List Nat × List Nat × AState) :=
  let aProb := (List.range st.counts.length).map
    (fun a => ((st.counts.getD a 0 : Nat) : Rat))
  match npChoiceWeighted (List.range st.counts.length) aProb st.g with
  | none => none
  | some (aindex, g1) =>
    match popAge st.pools st.counts aindex with
    | none => none
    | some (uid, pools1, counts1) =>
      let bindex := min (ageToBracket aindex) (st.W.length - 1)
      let row := st.W.getD bindex []
      let bProb := if 0 < row.sum then row.map (fun w => w / row.sum) else row
      let size2 := clampSize size (pools1.flatten.length : Int) (counts1.sum : Int)
      if (pools1.flatten.length : Int) ≤ size2 ∨ (counts1.sum : Int) ≤ size2 then
        match drainGo (List.range counts1.length) pools1 counts1 with
        | none => none
        | some (ags, uds, pools2, counts2) =>
          some (aindex :: ags, uid :: uds, ⟨pools2, counts2, st.W, g1⟩)
      else
        match innerLoop ageBrackets bindex (size2 - 1).toNat bProb
            ⟨pools1, counts1, st.W, g1⟩ with
        | none => none
        | some (ags, uds, _, st') =>
          some (aindex :: ags, uid :: uds, st')

/-- The workplace loop with its two break tests (normalized counts all
zero, or all pools empty). -/
def assignLoop (ageBrackets : List (List Nat)) (ageToBracket : Nat → Nat) :
    List Int → AState → Option (List (List Nat) × List (List Nat) × AState)
  | [], st => some ([], [], st)
  | size :: rest, st =>
    if (normDic (st.counts.map (fun c => (c : Rat)))).sum = 0 then
      some ([], [], st)
    else if st.pools.flatten.isEmpty then
      some ([], [], st)
    else
      match groupStep ageBrackets ageToBracket size st with
      | none => none
      | some (ags, uds, st') =>
        match assignLoop ageBrackets ageToBracket rest st' with
        | none => none
        | some (was, wus, st'') => some (ags :: was, uds :: wus, st'')

/-- `workplaces.assign_rest_of_workers`: zero the columns of brackets with
no workers, then fill the requested workplaces.  Returns the workplaces'
member ages, member uids, and the final state (remaining pools, remaining
counts, mutated matrix, generator). -/
def assign_rest_of_workers (ageBrackets : List (List Nat))
    (ageToBracket : Nat → Nat) (sizes : List Int) (pools : List (List Nat))
    (counts : List Nat) (W : List (List Rat)) (g : Rng) :
    Option (List (List Nat) × List (List Nat) × AState) :=
  let W0 := initZeroEmptyBrackets ageBrackets counts W
  assignLoop ageBrackets ageToBracket sizes ⟨pools, counts, W0, g⟩

/-!
## `contact_networks.py`: the popdict and its contact layers

A person's per-layer contact sets are modelled as ordered duplicate-free
lists (`List.insert` is set `add`); a layer key that the Python dict does
not hold is `none`.  The popdict is an association list in insertion
order.  Purely descriptive person fields never read by the algorithms
(`loc`, `sc_type`, `sc_mixing_type`, `wpindcode`) are omitted.
-/

/-- The contact layers. -/
inductive Layer
  | H | S | W | C | LTCF
deriving DecidableEq, Repr

/-- The per-layer contact sets of one person (a missing dict key is
`none`). -/
structure Contacts where
  H : Option (List Nat)
  S : Option (List Nat)
  W : Option (List Nat)
  C : Option (List Nat)
  LTCF : Option (List Nat)
deriving DecidableEq, Repr

def Contacts.get (c : Contacts) : Layer → Option (List Nat)
  | Layer.H => c.H
  | Layer.S => c.S
  | Layer.W => c.W
  | Layer.C => c.C
  | Layer.LTCF => c.LTCF

def Contacts.put (c : Contacts) : Layer → Option (List Nat) → Contacts
  | Layer.H, v => { c with H := v }
  | Layer.S, v => { c with S := v }
  | Layer.W, v => { c with W := v }
  | Layer.C, v => { c with C := v }
  | Layer.LTCF, v => { c with LTCF := v }

/-- One person record of the popdict. -/
structure Person where
  age : Nat
  sex : Nat
  hhid : Option Nat
  scid : Option Nat
  sc_student : Option Nat
  sc_teacher : Option Nat
  sc_staff : Option Nat
  wpid : Option Nat
  snfid : Option Nat
  snf_res : Option Nat
  snf_staff : Option Nat
  contacts : Contacts
deriving DecidableEq, Repr

abbrev Popdict := List (Nat × Person)

def pdGet : Popdict → Nat → Option Person
  | [], _ => none
  | e :: t, u => if e.1 = u then some e.2 else pdGet t u

/-- Update the record stored under a key (`popdict[u] = …` on an existing
key; absent keys are untouched). -/
def pdModify (pd : Popdict) (u : Nat) (f : Person → Person) : Popdict :=
  pd.map (fun e => if e.1 = u then (e.1, f e.2) else e)

/-- `popdict[u]['contacts'][k] = set(s)`. -/
def putContacts (pd : Popdict) (k : Layer) (u : Nat) (s : List Nat) : Popdict :=
  pdModify pd u (fun p => { p with contacts := p.contacts.put k (some s) })

/-- `popdict[u]['contacts'][k].add v` (the layer key is present at every
use site, established by initialization or by the `setdefault` pass; on an
absent key the record is left unchanged where Python would raise). -/
def addContact (pd : Popdict) (k : Layer) (u v : Nat) : Popdict :=
  pdModify pd u (fun p =>
    match p.contacts.get k with
    | none => p
    | some s => { p with contacts := p.contacts.put k (some (s.insert v)) })

/-- The contact list of `u` in layer `k` (empty for an absent key). -/
def cGet (pd : Popdict) (k : Layer) (u : Nat) : List Nat :=
  match pdGet pd u with
  | none => []
  | some p => (p.contacts.get k).getD []

/-- Merge a symmetric edge list into a layer (the source's
`add_contacts_from_edgelist` pattern, also the final merge of
`create_reduced_contacts_with_group_types`). -/
def addEdgelist (pd : Popdict) (k : Layer) (es : List (Nat × Nat)) : Popdict :=
  es.foldl (fun pd e => addContact (addContact pd k e.1 e.2) k e.2 e.1) pd

/-!
## Graphs over node indices

Simple undirected graphs (networkx) are edge lists over node indices with
no duplicate pair in either orientation.
-/

abbrev Graph := List (Nat × Nat)

def hasEdge (G : Graph) (i j : Nat) : Bool :=
  G.any (fun e => (e.1 = i && e.2 = j) || (e.1 = j && e.2 = i))

def addEdge (G : Graph) (i j : Nat) : Graph :=
  if hasEdge G i j then G else G ++ [(i, j)]

def removeEdge (G : Graph) (i j : Nat) : Graph :=
  G.filter (fun e => !((e.1 = i && e.2 = j) || (e.1 = j && e.2 = i)))

def neighbors (G : Graph) (i : Nat) : List Nat :=
  G.filterMap (fun e =>
    if e.1 = i then some e.2 else if e.2 = i then some e.1 else none)

/-- `nx.complete_graph n`: all pairs `(i, j)` with `i < j < n`. -/
def completeEdgesN (n : Nat) : Graph :=
  (List.range n).flatMap (fun i =>
    (List.range n).filterMap (fun j => if i < j then some (i, j) else none))

/-- Modelled from the spec: `nx.stochastic_block_model sizes p` joins each
pair of distinct nodes independently with the probability its two blocks'
entry of `p` gives. -/
def sbmGraph (n1 n2 : Nat) (p : List (List Rat)) (g : Rng) : Graph × Rng :=
  (List.range (n1 + n2)).foldl
    (fun acc i =>
      (List.range (n1 + n2)).foldl
        (fun acc j =>
          if i < j then
            if (randRat acc.2).1 < (p.getD (if i < n1 then 0 else 1) []).getD
                (if j < n1 then 0 else 1) 0
            then (acc.1 ++ [(i, j)], (randRat acc.2).2)
            else (acc.1, (randRat acc.2).2)
          else acc)
        acc)
    ([], g)

/-!
## `contact_networks.create_reduced_contacts_with_group_types`

Result of a call that mutates the popdict in place and may raise:
`raised` carries the popdict as it stands when the exception propagates,
`stuck` models the Python runs that fail in ways outside the two
documented raises (a random choice over an empty candidate list).
The `force_cross_edges` parameter is never read by the source body and is
omitted.
-/

inductive CRResult
  | raised (msg : String) (pd : Popdict)
  | ok (pd : Popdict) (g : Rng)
  | stuck
deriving DecidableEq, Repr

/-- The per-group-1-node edge-cut loop of the `len(group_2) < 2` branch. -/
def cutLoop (i : Nat) : Nat → List Nat → Graph → Rng → Option (Graph × Rng)
  | 0, _, G, g => some (G, g)
  | k + 1, gn, G, g =>
    match uniformChoice gn g with
    | none => none
    | some (j, g') => cutLoop i k (gn.erase j) (removeEdge G i j) g'

/-- One group-1 node of the `len(group_2) < 2` branch. -/
def trimGroup1Step (n1 : List Nat) (d : Nat)
    (acc : Option (Graph × Rng)) (i : Nat) : Option (Graph × Rng) :=
  match acc with
  | none => none
  | some (G, g) =>
    let gn := (neighbors G i).filter (fun j => n1.contains j)
    if d < gn.length then cutLoop i (gn.length - d) gn G g
    else some (G, g)

/-- The `len(group_2) < 2` branch: start from the complete graph, then cut
random within-group-1 edges of each group-1 node whose within-group-1
degree exceeds the average degree. -/
def trimGroup1 (n1 : List Nat) (d : Nat) (G : Graph) (g : Rng) :
    Option (Graph × Rng) :=
  n1.foldl (trimGroup1Step n1 d) (some (G, g))

/-- One group-1 node of the repair pass with no removable group-2 edges. -/
def repairNoRemovalsStep (n2 : List Nat)
    (acc : Option (Graph × Rng)) (i : Nat) : Option (Graph × Rng) :=
  match acc with
  | none => none
  | some (G, g) =>
    let g2n := (neighbors G i).filter (fun j => n2.contains j)
    if g2n.isEmpty then
      match uniformChoice n2 g with
      | none => none
      | some (j, g') => some (addEdge G i j, g')
    else some (G, g)

/-- SBM repair when no group-2 node has a removable intra-group-2 edge:
just force one cross edge for each cross-edge-less group-1 node. -/
def repairNoRemovals (n1 n2 : List Nat) (G : Graph) (g : Rng) :
    Option (Graph × Rng) :=
  n1.foldl (repairNoRemovalsStep n2) (some (G, g))

/-- One group-1 node of the general repair pass. -/
def repairWithRemovalsStep (n2 : List Nat)
    (acc : Option (Graph × Rng)) (i : Nat) : Option (Graph × Rng) :=
  match acc with
  | none => none
  | some (G, g) =>
    let g2n := (neighbors G i).filter (fun j => n2.contains j)
    if g2n.isEmpty then
      match uniformChoice n2 g with
      | none => none
      | some (j, g') =>
        let nbrs2 := (neighbors G j).filter (fun x => n2.contains x)
        let G1 := addEdge G i j
        if nbrs2.isEmpty then some (G1, g')
        else
          match uniformChoice nbrs2 g' with
          | none => none
          | some (cut, g'') => some (removeEdge G1 j cut, g'')
    else some (G, g)

/-- SBM repair in the general case: force a cross edge for each
cross-edge-less group-1 node and, when the chosen group-2 node has an
intra-group-2 edge, remove one such edge at random. -/
def repairWithRemovals (n1 n2 : List Nat) (G : Graph) (g : Rng) :
    Option (Graph × Rng) :=
  n1.foldl (repairWithRemovalsStep n2) (some (G, g))

/-- The graph-construction regimes of
`create_reduced_contacts_with_group_types` (after the two checks):
complete graph for a small combined group, degree-trimmed complete graph
for a lone group-2 member, otherwise a repaired stochastic-block-model
draw. -/
def crBuildGraph (group_1 group_2 : List Nat) (average_degree : Nat)
    (p_matrix : Option (List (List Rat))) (g : Rng) : Option (Graph × Rng) :=
  let n1 := List.range group_1.length
  let n2 := (List.range group_2.length).map (fun x => x + group_1.length)
  if group_1.length + group_2.length ≤ average_degree then
    some (completeEdgesN (group_1.length + group_2.length), g)
  else if group_2.length < 2 then
    trimGroup1 n1 average_degree
      (completeEdgesN (group_1.length + group_2.length)) g
  else
    let share : Rat :=
      (average_degree : Rat) / ((group_1.length + group_2.length : Nat) : Rat)
    let pm := p_matrix.getD [[share, share], [share, share]]
    let G0g := sbmGraph group_1.length group_2.length pm g
    let g2conn := n2.filter (fun i =>
      !((neighbors G0g.1 i).filter (fun j => n2.contains j)).isEmpty)
    if g2conn.isEmpty then repairNoRemovals n1 n2 G0g.1 G0g.2
    else repairWithRemovals n1 n2 G0g.1 G0g.2

/-- `setdefault` on one person: give them the setting's contact key. -/
def crSetdefaultPerson (setting : Layer) (p : Person) : Person :=
  if p.contacts.get setting = none then
    { p with contacts := p.contacts.put setting (some []) }
  else p

/-- The `setdefault` pass: give every person the setting's contact key. -/
def crSetdefault (pd : Popdict) (setting : Layer) : Popdict :=
  pd.map (fun e => (e.1, crSetdefaultPerson setting e.2))

/-- `contact_networks.create_reduced_contacts_with_group_types`. -/
def create_reduced_contacts_with_group_types (pd : Popdict)
    (group_1 group_2 : List Nat) (setting : Layer) (average_degree : Nat)
    (p_matrix : Option (List (List Rat))) (g : Rng) : CRResult :=
  if group_1.length = 0 ∨ group_2.length = 0 then
    CRResult.raised "This method requires that both groups are populated." pd
  else if average_degree < 2 then
    CRResult.raised "This method is likely to create disconnected graphs." pd
  else
    let group := group_1 ++ group_2
    let pd0 := crSetdefault pd setting
    match crBuildGraph group_1 group_2 average_degree p_matrix g with
    | none => CRResult.stuck
    | some (G, gf) =>
      CRResult.ok
        (addEdgelist pd0 setting
          (G.map (fun e => (group.getD e.1 0, group.getD e.2 0)))) gf

/-!
## `contact_networks.make_contacts_from_microstructure_objects`

`maxContacts` models the post-merge workplace contact cap: `none` when
`max_contacts is None` (no trimming), `some c` for the merged `'W'` value
(the caller's cap, or the default 20) when trimming is requested.
-/

/-- All distinct pairs of list positions, by element. -/
def cliquePairs : List Nat → List (Nat × Nat)
  | [] => []
  | x :: xs => xs.map (fun y => (x, y)) ++ cliquePairs xs

/-- Modelled from the spec: both school-layer branches delegate the edge
construction to the schools module (not under src); spec §4.4 builds the
uncapped school layer as a clique over the group's full membership. -/
def schoolEdgesModel (school : List Nat) : List (Nat × Nat) :=
  cliquePairs school

/-- `np.random.randint(2, size=n)`: the per-person sexes. -/
def drawSexes : Nat → Rng → List Nat × Rng
  | 0, g => ([], g)
  | n + 1, g =>
    let (s, g') := randNat g 2
    let (rest, g'') := drawSexes n g'
    (s :: rest, g'')

/-- A freshly initialized person record: every layer key of `layer_keys`
holds an empty contact set ('LTCF' only with facilities enabled). -/
def initPerson (age sexv : Nat) (useLtcf : Bool) : Person :=
  { age := age, sex := sexv, hhid := none, scid := none, sc_student := none,
    sc_teacher := none, sc_staff := none, wpid := none, snfid := none,
    snf_res := none, snf_staff := none,
    contacts := { H := some [], S := some [], W := some [], C := some [],
                  LTCF := if useLtcf then some [] else none } }

/-- The initialization loop over `age_by_uid_dic`. -/
def initPopdict (age_by_uid : List (Nat × Nat)) (sexes : List Nat)
    (useLtcf : Bool) : Popdict :=
  age_by_uid.enum.map (fun e =>
    (e.2.1, initPerson e.2.2 (sexes.getD e.1 0) useLtcf))

/-- The facilities phase: record resident/staff flags and facility ids,
then connect each facility either through the two-group reduction or as a
full clique over residents and staff. -/
def ltcfPhase (facilities facStaff : List (List Nat)) (twoGroup : Bool)
    (deg : Nat) (pd : Popdict) (g : Rng) : Option (Popdict × Rng) :=
  facilities.enum.foldl
    (fun acc e =>
      match acc with
      | none => none
      | some (pd, g) =>
        let nf := e.1
        let facility := e.2
        let staff := facStaff.getD nf []
        let pd1 := facility.foldl (fun pd u =>
          pdModify pd u (fun p => { p with snf_res := some 1, snfid := some nf })) pd
        let pd2 := staff.foldl (fun pd u =>
          pdModify pd u (fun p => { p with snf_staff := some 1, snfid := some nf })) pd1
        if twoGroup then
          match create_reduced_contacts_with_group_types pd2 facility staff
              Layer.LTCF deg none g with
          | CRResult.ok pd' g' => some (pd', g')
          | _ => none
        else
          let clique := fun (u : Nat) => ((facility ++ staff).dedup).erase u
          let pd3 := facility.foldl (fun pd u =>
            putContacts pd Layer.LTCF u (clique u)) pd2
          let pd4 := staff.foldl (fun pd u =>
            putContacts pd Layer.LTCF u (clique u)) pd3
          some (pd4, g))
    (some (pd, g))

/-- The household phase: each member's household contacts are all other
members, and the household id is recorded. -/
def householdPhase (homes : List (List Nat)) (pd : Popdict) : Popdict :=
  homes.enum.foldl
    (fun pd e =>
      e.2.foldl (fun pd u =>
        pdModify (putContacts pd Layer.H u ((e.2.dedup).erase u)) u
          (fun p => { p with hhid := some e.1 })) pd)
    pd

/-- The non-teaching staff of school `ns` (`None` and `[]` both mean no
staff lists). -/
def schoolStaffOf (staffOpt : Option (List (List Nat))) (ns : Nat) : List Nat :=
  match staffOpt with
  | none => []
  | some l => if l.isEmpty then [] else l.getD ns []

/-- The school phase: merge the school group's edges into the 'S' layer
and record school ids and roles. -/
def schoolPhase (schools teachers : List (List Nat))
    (staffOpt : Option (List (List Nat))) (pd : Popdict) : Popdict :=
  schools.enum.foldl
    (fun pd e =>
      let ns := e.1
      let students := e.2
      let tch := teachers.getD ns []
      let stf := schoolStaffOf staffOpt ns
      let school := students ++ tch ++ stf
      let pd1 := addEdgelist pd Layer.S (schoolEdgesModel school)
      let pd2 := students.foldl (fun pd u =>
        pdModify pd u (fun p => { p with scid := some ns, sc_student := some 1 })) pd1
      let pd3 := tch.foldl (fun pd u =>
        pdModify pd u (fun p => { p with scid := some ns, sc_teacher := some 1 })) pd2
      stf.foldl (fun pd u =>
        pdModify pd u (fun p => { p with scid := some ns, sc_staff := some 1 })) pd3)
    pd

/-- The untrimmed workplace phase: clique over each workplace. -/
def workplaceCliquePhase (workplaces : List (List Nat)) (pd : Popdict) :
    Popdict :=
  workplaces.enum.foldl
    (fun pd e =>
      e.2.foldl (fun pd u =>
        pdModify (putContacts pd Layer.W u ((e.2.dedup).erase u)) u
          (fun p => { p with wpid := some e.1 })) pd)
    pd

/-- The trimmed workplace phase: each person keeps at most
`cap / 2` sampled co-members as one-sided outgoing contacts. -/
def workplaceTrimPhase (workplaces : List (List Nat)) (cap : Nat)
    (pd : Popdict) (g : Rng) : Popdict × Rng :=
  let maxW := cap / 2
  workplaces.enum.foldl
    (fun acc e =>
      e.2.foldl
        (fun acc u =>
          let uids := (e.2.dedup).erase u
          let drawn := if maxW < uids.length then sampleNoReplace maxW uids acc.2
            else (uids, acc.2)
          (pdModify (putContacts acc.1 Layer.W u drawn.1) u
            (fun p => { p with wpid := some e.1 }), drawn.2))
        acc)
    (pd, g)

/-- The symmetric-repair pass: for every person in dict order, add the
reverse edge of each of their current outgoing workplace contacts. -/
def pairingPass (pd : Popdict) : Popdict :=
  (pd.map Prod.fst).foldl
    (fun pd u =>
      (cGet pd Layer.W u).foldl (fun pd c => addContact pd Layer.W c u) pd)
    pd

/-- The household, school and workplace phases after the LTCF phase. -/
def assembleRest (homes schools teachers : List (List Nat))
    (staffOpt : Option (List (List Nat))) (workplaces : List (List Nat))
    (maxContacts : Option Nat) (pd1 : Popdict) (g2 : Rng) : Popdict × Rng :=
  let pd2 := householdPhase homes pd1
  let pd3 := schoolPhase schools teachers staffOpt pd2
  match maxContacts with
  | some cap =>
    let trimmed := workplaceTrimPhase workplaces cap pd3 g2
    (pairingPass trimmed.1, trimmed.2)
  | none => (workplaceCliquePhase workplaces pd3, g2)

/-- `contact_networks.make_contacts_from_microstructure_objects` (the
school-type dispatch is inside the modelled school edge builder). -/
def make_contacts_from_microstructure_objects
    (age_by_uid : List (Nat × Nat)) (homes : List (List Nat))
    (schools teachers : List (List Nat)) (staffOpt : Option (List (List Nat)))
    (workplaces : List (List Nat)) (facilitiesOpt : Option (List (List Nat)))
    (facStaff : List (List Nat)) (twoGroup : Bool) (ltcfDeg : Nat)
    (maxContacts : Option Nat) (g : Rng) : Option (Popdict × Rng) :=
  let useLtcf := facilitiesOpt.isSome
  let drawn := drawSexes age_by_uid.length g
  let pd0 := initPopdict age_by_uid drawn.1 useLtcf
  let afterLtcf : Option (Popdict × Rng) :=
    match facilitiesOpt with
    | none => some (pd0, drawn.2)
    | some facilities => ltcfPhase facilities facStaff twoGroup ltcfDeg pd0 drawn.2
  match afterLtcf with
  | none => none
  | some pr =>
    some (assembleRest homes schools teachers staffOpt workplaces maxContacts
      pr.1 pr.2)

/-!
## `pop.Pop.generate`: the seeded generation pipeline

`Pop.__init__` with `rand_seed` set seeds the process-wide generator once
(`spsamp.set_seed`), and `generate` then runs the workplace stages in a
fixed order: `generate_workplace_sizes`, `assign_rest_of_workers`,
`make_contacts_from_microstructure_objects`.  A run of that seeded
pipeline is the big-step relation `PipelineRun`; the size-drawing
`while` loop is relational (`SizesLoopRun`), the rest of a run is fixed by
the embedded stage functions on the threaded generator state.
-/

/-- The inputs of the workplace generation pipeline that are fixed before
the seeded stages run. -/
structure PipelineInputs where
  distr : List Rat
  sizeBrackets : List (List Nat)
  ageBrackets : List (List Nat)
  ageToBracket : Nat → Nat
  pools : List (List Nat)
  counts : List Nat
  W : List (List Rat)
  age_by_uid : List (Nat × Nat)
  homes : List (List Nat)
  schools : List (List Nat)
  teachers : List (List Nat)
  staffOpt : Option (List (List Nat))
  facilitiesOpt : Option (List (List Nat))
  facStaff : List (List Nat)
  twoGroup : Bool
  ltcfDeg : Nat
  maxContacts : Option Nat

/-- A run of the `while nworkers > 0` draw loop of
`generate_workplace_sizes`. -/
inductive SizesLoopRun (brackets : List (List Nat)) (probs : List Rat) :
    Int → Rng → List Int × Int × Rng → Prop
  | exit : ∀ n g, n ≤ 0 → SizesLoopRun brackets probs n g ([], n, g)
  | draw : ∀ n g bi g1 size g2 l nf g3,
      0 < n →
      idxWeighted probs g = some (bi, g1) →
      uniformChoice (brackets.getD bi []) g1 = some (size, g2) →
      SizesLoopRun brackets probs (n - size) g2 (l, nf, g3) →
      SizesLoopRun brackets probs n g ((size : Int) :: l, nf, g3)

/-- A run of `generate_workplace_sizes`: the draw loop followed by the
overshoot correction of the last drawn size and the shuffle. -/
inductive GenSizesRun (distr : List Rat) (brackets : List (List Nat))
    (counts : List Nat) : Rng → List Int × Rng → Prop
  | mk : ∀ g raw nf g1 corrected out g2,
      SizesLoopRun brackets (normDic distr) (counts.sum : Int) g (raw, nf, g1) →
      corrected = (if nf < 0 then raw.dropLast ++ [raw.getLast?.getD 0 + nf]
                   else raw) →
      shuffleList corrected g1 = (out, g2) →
      GenSizesRun distr brackets counts g (out, g2)

/-- A run of the seeded pipeline: seed the generator, draw workplace
sizes, assign the workers, assemble the contacts.  The observed output is
the workplace group memberships together with the finished popdict. -/
inductive PipelineRun (I : PipelineInputs) (seed : Nat) :
    List (List Nat) × Popdict → Prop
  | mk : ∀ sizes g1 wAges wUids st pd g3,
      GenSizesRun I.distr I.sizeBrackets I.counts (seedRng seed) (sizes, g1) →
      assign_rest_of_workers I.ageBrackets I.ageToBracket sizes I.pools
        I.counts I.W g1 = some (wAges, wUids, st) →
      make_contacts_from_microstructure_objects I.age_by_uid I.homes
        I.schools I.teachers I.staffOpt wUids I.facilitiesOpt I.facStaff
        I.twoGroup I.ltcfDeg I.maxContacts st.g = some (pd, g3) →
      PipelineRun I seed (wUids, pd)

theorem sizesLoopRun_det (brackets : List (List Nat)) (probs : List Rat)
    (n : Int) (g : Rng) (o₁ o₂ : List Int × Int × Rng)
    (h₁ : SizesLoopRun brackets probs n g o₁)
    (h₂ : SizesLoopRun brackets probs n g o₂) : o₁ = o₂ := by
  induction h₁ generalizing o₂ with
  | exit n g hn =>
    cases h₂ with
    | exit => rfl
    | draw _ _ _ _ _ _ _ _ _ hpos => exact absurd hpos (not_lt.mpr hn)
  | draw n g bi g1 size g2 l nf g3 hpos hidx hun _ ih =>
    cases h₂ with
    | exit _ _ hn => exact absurd hpos (not_lt.mpr hn)
    | draw _ _ bi' g1' size' g2' l' nf' g3' hpos' hidx' hun' htail' =>
      rw [hidx] at hidx'
      injection hidx' with h; injection h with hbi hg1
      subst hbi; subst hg1
      rw [hun] at hun'
      injection hun' with h; injection h with hsz hg2
      subst hsz; subst hg2
      have := ih _ htail'
      injection this with h1 h2
      injection h2 with h2 h3
      subst h1; subst h2; subst h3
      rfl

theorem genSizesRun_det (distr : List Rat) (brackets : List (List Nat))
    (counts : List Nat) (g : Rng) (o₁ o₂ : List Int × Rng)
    (h₁ : GenSizesRun distr brackets counts g o₁)
    (h₂ : GenSizesRun distr brackets counts g o₂) : o₁ = o₂ := by
  cases h₁ with
  | mk raw nf g1 corrected out g2 hloop hcorr hshuf =>
    cases h₂ with
    | mk raw' nf' g1' corrected' out' g2' hloop' hcorr' hshuf' =>
      have := sizesLoopRun_det _ _ _ _ _ _ hloop hloop'
      injection this with h1 h2
      injection h2 with h2 h3
      subst h1; subst h2; subst h3
      subst hcorr; subst hcorr'
      rw [hshuf] at hshuf'
      exact hshuf'

/-- C1: For every fixed random seed and identical inputs, two runs of the
population generation (the seeded pipeline invoking
`generate_workplace_sizes`, `assign_rest_of_workers` and
`make_contacts_from_microstructure_objects`) produce identical group
memberships and identical per-person contact sets. -/
theorem pipeline_deterministic (I : PipelineInputs) (seed : Nat)
    (o₁ o₂ : List (List Nat) × Popdict)
    (h₁ : PipelineRun I seed o₁) (h₂ : PipelineRun I seed o₂) : o₁ = o₂ := by
  cases h₁ with
  | mk sizes g1 wAges wUids st pd g3 hgen hassign hmake =>
    cases h₂ with
    | mk sizes' g1' wAges' wUids' st' pd' g3' hgen' hassign' hmake' =>
      have hsz := genSizesRun_det _ _ _ _ _ _ hgen hgen'
      injection hsz with hsz hg1
      subst hsz; subst hg1
      rw [hassign] at hassign'
      injection hassign' with h; injection h with h1 h2
      injection h2 with h2 h3
      subst h1; subst h2; subst h3
      rw [hmake] at hmake'
      injection hmake' with h; injection h with h4 h5
      subst h4
      rfl

/-!
## The size sampler's headcount guarantee (C3)
-/

theorem getD_mem_of_lt {α : Type} (l : List α) (i : Nat) (d : α)
    (h : i < l.length) : l.getD i d ∈ l := by
  rw [List.getD_eq_getElem _ _ h]
  exact List.getElem_mem _

theorem sizesLoop_exit (brackets : List (List Nat)) (probs : List Rat)
    (fuel : Nat) (n : Int) (g : Rng) (h : n ≤ 0) :
    sizesLoop brackets probs fuel n g = some ([], n, g) := by
  rw [sizesLoop.eq_def, if_pos h]

theorem randNat_lt (g : Rng) (n : Nat) (h : 0 < n) : (randNat g n).1 < n := by
  unfold randNat rngStep
  exact Nat.mod_lt _ h

theorem idxWeighted_spec (ps : List Rat) (g : Rng) (hp : 0 < ps.sum) :
    ∃ i g', idxWeighted ps g = some (i, g') ∧ i < ps.length := by
  unfold idxWeighted
  rw [if_neg (not_le.mpr hp)]
  refine ⟨_, _, rfl, ?_⟩
  obtain ⟨hr0, hr1⟩ := randRat_mem_Ico g
  exact pickWeighted_lt_length ps _ (by positivity)
    (by calc (randRat g).1 * ps.sum < 1 * ps.sum :=
              mul_lt_mul_of_pos_right hr1 hp
            _ = ps.sum := one_mul _)

theorem uniformChoice_mem (l : List Nat) (g : Rng) (h : l ≠ []) :
    ∃ x g', uniformChoice l g = some (x, g') ∧ x ∈ l := by
  unfold uniformChoice
  rw [if_neg (fun hb => h (List.isEmpty_iff.mp hb))]
  exact ⟨_, _, rfl,
    getD_mem_of_lt _ _ _ (randNat_lt g l.length (List.length_pos.mpr h))⟩

theorem sizesLoop_spec (brackets : List (List Nat)) (probs : List Rat)
    (hp : 0 < probs.sum)
    (hlen : probs.length = brackets.length)
    (hne : ∀ b ∈ brackets, b ≠ [])
    (hpos : ∀ b ∈ brackets, ∀ s ∈ b, 1 ≤ s) :
    ∀ (fuel : Nat) (n : Int) (g : Rng), 0 ≤ n → n ≤ (fuel : Int) →
    ∃ l nf g', sizesLoop brackets probs fuel n g = some (l, nf, g') ∧
      nf ≤ 0 ∧ l.sum = n - nf ∧ (n = 0 → l = []) ∧ (nf < 0 → l ≠ []) := by
  intro fuel
  induction fuel with
  | zero =>
    intro n g h0 h1
    have hn : n = 0 := le_antisymm (by exact_mod_cast h1) h0
    subst hn
    exact ⟨[], 0, g, sizesLoop_exit _ _ _ _ _ (le_refl 0), le_refl _,
      by simp, fun _ => rfl, by simp⟩
  | succ fuel ih =>
    intro n g h0 h1
    by_cases hn : n ≤ 0
    · have hn0 : n = 0 := le_antisymm hn h0
      subst hn0
      exact ⟨[], 0, g, sizesLoop_exit _ _ _ _ _ (le_refl 0), le_refl _,
        by simp, fun _ => rfl, by simp⟩
    · push_neg at hn
      obtain ⟨bi, g1, hidx, hbi0⟩ := idxWeighted_spec probs g hp
      have hbi : bi < brackets.length := hlen ▸ hbi0
      have hmem : brackets.getD bi [] ∈ brackets := getD_mem_of_lt _ _ _ hbi
      obtain ⟨size, g2, hun, hsmem⟩ :=
        uniformChoice_mem (brackets.getD bi []) g1 (hne _ hmem)
      have hs1 : 1 ≤ size := hpos _ hmem _ hsmem
      by_cases hrest : n - (size : Int) ≤ 0
      · refine ⟨[(size : Int)], n - size, g2, ?_, hrest, by simp, ?_, ?_⟩
        · rw [sizesLoop.eq_def]
          simp only [if_neg (not_le.mpr hn), hidx, hun,
            sizesLoop_exit brackets probs fuel _ g2 hrest]
        · intro h; exact absurd h (ne_of_gt hn)
        · intro _; simp
      · push_neg at hrest
        obtain ⟨l, nf, g', hloop, hnf, hsum, _, hne'⟩ :=
          ih (n - size) g2 (le_of_lt hrest) (by push_cast at h1 ⊢; omega)
        refine ⟨(size : Int) :: l, nf, g', ?_, hnf, ?_, ?_, ?_⟩
        · rw [sizesLoop.eq_def]
          simp only [if_neg (not_le.mpr hn), hidx, hun, hloop]
        · rw [List.sum_cons, hsum]; ring
        · intro h; exact absurd h (ne_of_gt hn)
        · intro _; simp

theorem normDic_sum_of_pos (ws : List Rat) (h : 0 < ws.sum) :
    (normDic ws).sum = 1 := by
  unfold normDic
  rw [if_neg (not_le.mpr h), sum_map_div, div_self (ne_of_gt h)]

theorem normDic_length (ws : List Rat) : (normDic ws).length = ws.length := by
  unfold normDic
  split <;> simp

theorem sum_dropLast_add_getLast (l : List Int) (h : l ≠ []) :
    l.dropLast.sum + l.getLast?.getD 0 = l.sum := by
  conv_rhs => rw [← List.dropLast_append_getLast h]
  rw [List.sum_append, List.getLast?_eq_getLast _ h]
  simp

/-- C3: for every target headcount `N ≥ 0` (the total of
`workers_by_age_to_assign_count`), `generate_workplace_sizes` returns a
list of workplace sizes whose sum is exactly `N`; on overshoot only the
last appended size is corrected (the earlier drawn sizes are untouched);
and `N = 0` yields the empty list. -/
theorem generate_workplace_sizes_spec
    (distr : List Rat) (brackets : List (List Nat)) (counts : List Nat)
    (g : Rng)
    (hlen : distr.length = brackets.length)
    (hd0 : 0 < distr.sum)
    (hne : ∀ b ∈ brackets, b ≠ [])
    (hpos : ∀ b ∈ brackets, ∀ s ∈ b, 1 ≤ s) :
    ∃ out g' raw nf graw,
      generate_workplace_sizes distr brackets counts g = some (out, g') ∧
      out.sum = (counts.sum : Int) ∧
      (counts.sum = 0 → out = []) ∧
      sizesLoop brackets (normDic distr) (counts.sum + 1) (counts.sum : Int) g
        = some (raw, nf, graw) ∧
      (let corrected :=
        if nf < 0 then raw.dropLast ++ [raw.getLast?.getD 0 + nf] else raw
       corrected.dropLast = raw.dropLast ∧
       corrected.sum = (counts.sum : Int) ∧ out.Perm corrected) := by
  obtain ⟨raw, nf, graw, hloop, hnf, hsum, hzero, hnonempty⟩ :=
    sizesLoop_spec brackets (normDic distr)
      (by rw [normDic_sum_of_pos _ hd0]; norm_num)
      (by rw [normDic_length, hlen]) hne hpos
      (counts.sum + 1) (counts.sum : Int) g (by positivity)
      (by push_cast; omega)
  have hcs : (if nf < 0 then raw.dropLast ++ [raw.getLast?.getD 0 + nf]
      else raw).sum = (counts.sum : Int) := by
    by_cases h : nf < 0
    · rw [if_pos h, List.sum_append, List.sum_cons, List.sum_nil]
      have := sum_dropLast_add_getLast raw (hnonempty h)
      omega
    · rw [if_neg h]
      have h0 : nf = 0 := le_antisymm hnf (not_lt.mp h)
      omega
  have hdrop : (if nf < 0 then raw.dropLast ++ [raw.getLast?.getD 0 + nf]
      else raw).dropLast = raw.dropLast := by
    by_cases h : nf < 0
    · rw [if_pos h, List.dropLast_concat]
    · rw [if_neg h]
  refine ⟨(shuffleList (if nf < 0 then
      raw.dropLast ++ [raw.getLast?.getD 0 + nf] else raw) graw).1,
    (shuffleList (if nf < 0 then
      raw.dropLast ++ [raw.getLast?.getD 0 + nf] else raw) graw).2,
    raw, nf, graw, ?_, ?_, ?_, hloop, hdrop, hcs, ?_⟩
  · unfold generate_workplace_sizes
    simp only [hloop]
  · rw [List.Perm.sum_eq (shuffleList_perm _ _), hcs]
  · intro h0
    have hc0 : ((counts.sum : Nat) : Int) = 0 := by exact_mod_cast h0
    have hz : raw = [] := hzero hc0
    subst hz
    rw [List.sum_nil] at hsum
    have hnf0 : nf = 0 := by omega
    subst hnf0
    rw [if_neg (lt_irrefl 0)]
    rfl
  · exact shuffleList_perm _ _

/-!
## Popdict access lemmas
-/

theorem pdGet_cons (e : Nat × Person) (t : Popdict) (u : Nat) :
    pdGet (e :: t) u = if e.1 = u then some e.2 else pdGet t u := rfl

theorem pdGet_modify_self (pd : Popdict) (u : Nat) (f : Person → Person) :
    pdGet (pdModify pd u f) u = (pdGet pd u).map f := by
  unfold pdModify
  induction pd with
  | nil => rfl
  | cons e t ih =>
    rw [List.map_cons]
    by_cases h : e.1 = u
    · simp [pdGet_cons, h]
    · simp [pdGet_cons, h, ih]

theorem pdGet_modify_other (pd : Popdict) (u x : Nat) (f : Person → Person)
    (h : x ≠ u) : pdGet (pdModify pd u f) x = pdGet pd x := by
  unfold pdModify
  induction pd with
  | nil => rfl
  | cons e t ih =>
    rw [List.map_cons]
    by_cases he : e.1 = u
    · have hne : ¬ e.1 = x := fun hx => h (hx ▸ he)
      have hux : ¬ u = x := fun hh => h hh.symm
      simp [pdGet_cons, he, hne, hux, ih]
    · by_cases hx : e.1 = x
      · simp [pdGet_cons, he, hx, h]
      · simp [pdGet_cons, he, hx, h, ih]

theorem cGet_of_pdGet_some (pd : Popdict) (k : Layer) (u : Nat) (p : Person)
    (h : pdGet pd u = some p) : cGet pd k u = (p.contacts.get k).getD [] := by
  unfold cGet
  rw [h]

theorem cGet_of_pdGet_none (pd : Popdict) (k : Layer) (u : Nat)
    (h : pdGet pd u = none) : cGet pd k u = [] := by
  unfold cGet
  rw [h]

/-- The layer key is present for `u` in `pd`. -/
def HasLayer (pd : Popdict) (k : Layer) (u : Nat) : Prop :=
  ∃ p, pdGet pd u = some p ∧ p.contacts.get k ≠ none

theorem contacts_get_put_self (c : Contacts) (k : Layer) (v : Option (List Nat)) :
    (c.put k v).get k = v := by
  cases k <;> rfl

theorem contacts_get_put_other (c : Contacts) (k k' : Layer)
    (v : Option (List Nat)) (h : k' ≠ k) : (c.put k v).get k' = c.get k' := by
  cases k <;> cases k' <;> first | rfl | exact absurd rfl h

theorem pdGet_addContact_of_none (pd : Popdict) (k : Layer) (a b x : Nat)
    (p : Person) (hp : pdGet pd x = some p) (hx : x = a)
    (hgk : p.contacts.get k = none) : pdGet (addContact pd k a b) x = some p := by
  subst hx
  unfold addContact
  rw [pdGet_modify_self, hp]
  simp [hgk]

theorem pdGet_addContact_of_some (pd : Popdict) (k : Layer) (a b x : Nat)
    (p : Person) (s : List Nat) (hp : pdGet pd x = some p) (hx : x = a)
    (hgk : p.contacts.get k = some s) :
    pdGet (addContact pd k a b) x =
      some { p with contacts := p.contacts.put k (some (s.insert b)) } := by
  subst hx
  unfold addContact
  rw [pdGet_modify_self, hp]
  simp [hgk]

theorem addContact_hasLayer (pd : Popdict) (k : Layer) (a b x : Nat)
    (h : HasLayer pd k x) : HasLayer (addContact pd k a b) k x := by
  obtain ⟨p, hp, hk⟩ := h
  by_cases hx : x = a
  · cases hgk : p.contacts.get k with
    | none => exact absurd hgk hk
    | some s =>
      refine ⟨_, pdGet_addContact_of_some pd k a b x p s hp hx hgk, ?_⟩
      simp [contacts_get_put_self]
  · refine ⟨p, ?_, hk⟩
    unfold addContact
    rw [pdGet_modify_other _ _ _ _ hx]
    exact hp

theorem cGet_addContact_self (pd : Popdict) (k : Layer) (a b : Nat)
    (h : HasLayer pd k a) : b ∈ cGet (addContact pd k a b) k a := by
  obtain ⟨p, hp, hk⟩ := h
  cases hgk : p.contacts.get k with
  | none => exact absurd hgk hk
  | some s =>
    rw [cGet_of_pdGet_some _ _ _ _ (pdGet_addContact_of_some pd k a b a p s hp rfl hgk)]
    simp [contacts_get_put_self, List.mem_insert_iff]

theorem cGet_addContact_mono (pd : Popdict) (k : Layer) (a b x w : Nat)
    (h : w ∈ cGet pd k x) : w ∈ cGet (addContact pd k a b) k x := by
  by_cases hx : x = a
  · cases hp : pdGet pd x with
    | none => rw [cGet_of_pdGet_none _ _ _ hp] at h; simp at h
    | some p =>
      rw [cGet_of_pdGet_some _ _ _ _ hp] at h
      cases hgk : p.contacts.get k with
      | none =>
        rw [hgk] at h
        simp at h
      | some s =>
        rw [hgk] at h
        simp only [Option.getD_some] at h
        rw [cGet_of_pdGet_some _ _ _ _
          (pdGet_addContact_of_some pd k a b x p s hp hx hgk)]
        simp [contacts_get_put_self, List.mem_insert_iff, h]
  · unfold addContact cGet
    rw [pdGet_modify_other _ _ _ _ hx]
    exact h

theorem addEdgelist_mono (pd : Popdict) (k : Layer) (es : List (Nat × Nat))
    (x w : Nat) (h : w ∈ cGet pd k x) : w ∈ cGet (addEdgelist pd k es) k x := by
  induction es generalizing pd with
  | nil => exact h
  | cons e t ih =>
    exact ih _ (cGet_addContact_mono _ _ _ _ _ _ (cGet_addContact_mono _ _ _ _ _ _ h))

theorem addEdgelist_hasLayer (pd : Popdict) (k : Layer) (es : List (Nat × Nat))
    (x : Nat) (h : HasLayer pd k x) : HasLayer (addEdgelist pd k es) k x := by
  induction es generalizing pd with
  | nil => exact h
  | cons e t ih =>
    exact ih _ (addContact_hasLayer _ _ _ _ _ (addContact_hasLayer _ _ _ _ _ h))

theorem addEdgelist_cons (pd : Popdict) (k : Layer) (e : Nat × Nat)
    (t : List (Nat × Nat)) :
    addEdgelist pd k (e :: t) =
      addEdgelist (addContact (addContact pd k e.1 e.2) k e.2 e.1) k t := rfl

theorem addEdgelist_adds (pd : Popdict) (k : Layer) (es : List (Nat × Nat))
    (a b : Nat) (hab : (a, b) ∈ es) (ha : HasLayer pd k a) (hb : HasLayer pd k b) :
    b ∈ cGet (addEdgelist pd k es) k a ∧ a ∈ cGet (addEdgelist pd k es) k b := by
  induction es generalizing pd with
  | nil => simp at hab
  | cons e t ih =>
    rcases List.mem_cons.mp hab with he | ht
    · subst he
      rw [addEdgelist_cons]
      constructor
      · exact addEdgelist_mono _ _ _ _ _
          (cGet_addContact_mono _ _ _ _ _ _ (cGet_addContact_self _ _ _ _ ha))
      · exact addEdgelist_mono _ _ _ _ _
          (cGet_addContact_self _ _ _ _ (addContact_hasLayer _ _ _ _ _ hb))
    · rw [addEdgelist_cons]
      exact ih _ ht
        (addContact_hasLayer _ _ _ _ _ (addContact_hasLayer _ _ _ _ _ ha))
        (addContact_hasLayer _ _ _ _ _ (addContact_hasLayer _ _ _ _ _ hb))

/-!
## `create_reduced_contacts_with_group_types` never fails internally
-/

theorem foldl_option_some {α β : Type} (f : Option β → α → Option β)
    (hf : ∀ b a, ∃ b', f (some b) a = some b') :
    ∀ (l : List α) (b : β), ∃ b', l.foldl f (some b) = some b' := by
  intro l
  induction l with
  | nil => intro b; exact ⟨b, rfl⟩
  | cons a t ih =>
    intro b
    obtain ⟨b', hb⟩ := hf b a
    rw [List.foldl_cons, hb]
    exact ih b'

theorem cutLoop_some (i : Nat) :
    ∀ (k : Nat) (gn : List Nat) (G : Graph) (g : Rng), k ≤ gn.length →
    ∃ r, cutLoop i k gn G g = some r := by
  intro k
  induction k with
  | zero => intro gn G g _; exact ⟨(G, g), rfl⟩
  | succ k ih =>
    intro gn G g hk
    have hne : gn ≠ [] := by
      intro h; subst h; simp at hk
    obtain ⟨j, g', hun, hj⟩ := uniformChoice_mem gn g hne
    have hlen : k ≤ (gn.erase j).length := by
      rw [List.length_erase_of_mem hj]
      omega
    obtain ⟨r, hr⟩ := ih (gn.erase j) (removeEdge G i j) g' hlen
    refine ⟨r, ?_⟩
    simp only [cutLoop, hun, hr]

theorem trimGroup1Step_some (n1 : List Nat) (d : Nat) (b : Graph × Rng)
    (i : Nat) : ∃ b', trimGroup1Step n1 d (some b) i = some b' := by
  obtain ⟨G, g⟩ := b
  unfold trimGroup1Step
  by_cases h : d < ((neighbors G i).filter (fun j => n1.contains j)).length
  · simp only [if_pos h]
    exact cutLoop_some i _ _ G g (by omega)
  · exact ⟨(G, g), by simp only [if_neg h]⟩

theorem repairNoRemovalsStep_some (n2 : List Nat) (hn2 : n2 ≠ [])
    (b : Graph × Rng) (i : Nat) :
    ∃ b', repairNoRemovalsStep n2 (some b) i = some b' := by
  obtain ⟨G, g⟩ := b
  unfold repairNoRemovalsStep
  by_cases h : ((neighbors G i).filter (fun j => n2.contains j)).isEmpty
  · obtain ⟨j, g', hun, _⟩ := uniformChoice_mem n2 g hn2
    exact ⟨(addEdge G i j, g'), by simp only [if_pos h, hun]⟩
  · exact ⟨(G, g), by simp only [if_neg h]⟩

theorem repairWithRemovalsStep_some (n2 : List Nat) (hn2 : n2 ≠ [])
    (b : Graph × Rng) (i : Nat) :
    ∃ b', repairWithRemovalsStep n2 (some b) i = some b' := by
  obtain ⟨G, g⟩ := b
  unfold repairWithRemovalsStep
  by_cases h : ((neighbors G i).filter (fun j => n2.contains j)).isEmpty
  · obtain ⟨j, g', hun, _⟩ := uniformChoice_mem n2 g hn2
    by_cases h2 : ((neighbors G j).filter (fun x => n2.contains x)).isEmpty
    · exact ⟨(addEdge G i j, g'), by simp only [if_pos h, hun, if_pos h2]⟩
    · have hne2 : (neighbors G j).filter (fun x => n2.contains x) ≠ [] :=
        fun hh => h2 (by rw [hh]; rfl)
      obtain ⟨cut, g'', hun2, _⟩ :=
        uniformChoice_mem ((neighbors G j).filter (fun x => n2.contains x)) g' hne2
      exact ⟨(removeEdge (addEdge G i j) j cut, g''),
        by simp only [if_pos h, hun, if_neg h2, hun2]⟩
  · exact ⟨(G, g), by simp only [if_neg h]⟩

theorem crBuildGraph_some (g1 g2 : List Nat) (d : Nat)
    (pm : Option (List (List Rat))) (g : Rng) (hg2 : g2 ≠ []) :
    ∃ r, crBuildGraph g1 g2 d pm g = some r := by
  have hn2ne : (List.range g2.length).map (fun x => x + g1.length) ≠ [] := by
    intro h
    rw [List.map_eq_nil_iff, List.range_eq_nil] at h
    exact (List.length_pos.mpr hg2).ne' h
  unfold crBuildGraph
  by_cases h1 : g1.length + g2.length ≤ d
  · exact ⟨_, by rw [if_pos h1]⟩
  · rw [if_neg h1]
    by_cases h2 : g2.length < 2
    · rw [if_pos h2]
      exact foldl_option_some _ (trimGroup1Step_some _ _) _ _
    · rw [if_neg h2]
      by_cases h3 : (((List.range g2.length).map (fun x => x + g1.length)).filter
          (fun i => !((neighbors (sbmGraph g1.length g2.length
            ((pm.getD [[(d : Rat) / ((g1.length + g2.length : Nat) : Rat),
              (d : Rat) / ((g1.length + g2.length : Nat) : Rat)],
              [(d : Rat) / ((g1.length + g2.length : Nat) : Rat),
              (d : Rat) / ((g1.length + g2.length : Nat) : Rat)]])) g).1 i).filter
            (fun j => ((List.range g2.length).map
              (fun x => x + g1.length)).contains j)).isEmpty)).isEmpty
      · simp only [if_pos h3]
        exact foldl_option_some _ (repairNoRemovalsStep_some _ hn2ne) _ _
      · simp only [if_neg h3]
        exact foldl_option_some _ (repairWithRemovalsStep_some _ hn2ne) _ _

/-- C4: on a popdict that holds every member of both groups,
`create_reduced_contacts_with_group_types` raises exactly when an input
group is empty or the requested average degree is below 2, it raises
before modifying any contact set (the popdict it raises with is the one
passed in), and under no other condition does the call fail.  The
members-present hypothesis is load-bearing: on a popdict missing a group
member the program instead raises `KeyError` at the edge merge
(`popdict[id_i]['contacts'][setting].add`), possibly after earlier edges
already modified contact sets, so such inputs are out of this claim's
scope. -/
theorem create_reduced_error_characterization (pd : Popdict)
    (g1 g2 : List Nat) (setting : Layer) (d : Nat)
    (pm : Option (List (List Rat))) (g : Rng)
    (hkeys : ∀ u ∈ g1 ++ g2, ∃ p, pdGet pd u = some p) :
    ((∃ msg pdE, create_reduced_contacts_with_group_types pd g1 g2 setting d pm g
        = CRResult.raised msg pdE) ↔ (g1 = [] ∨ g2 = [] ∨ d < 2)) ∧
    (∀ msg pdE, create_reduced_contacts_with_group_types pd g1 g2 setting d pm g
        = CRResult.raised msg pdE → pdE = pd) ∧
    ((g1 = [] ∨ g2 = [] ∨ d < 2) ∨
      ∃ pdO gO, create_reduced_contacts_with_group_types pd g1 g2 setting d pm g
        = CRResult.ok pdO gO) := by
  by_cases hA : g1.length = 0 ∨ g2.length = 0
  · have hA' : g1 = [] ∨ g2 = [] := by
      rcases hA with h | h
      · exact Or.inl (List.length_eq_zero.mp h)
      · exact Or.inr (List.length_eq_zero.mp h)
    have heq : create_reduced_contacts_with_group_types pd g1 g2 setting d pm g
        = CRResult.raised "This method requires that both groups are populated." pd := by
      unfold create_reduced_contacts_with_group_types
      rw [if_pos hA]
    refine ⟨⟨fun _ => ?_, fun _ => ⟨_, _, heq⟩⟩, fun msg pdE h => ?_, Or.inl ?_⟩
    · rcases hA' with h | h
      · exact Or.inl h
      · exact Or.inr (Or.inl h)
    · rw [heq] at h
      injection h with _ h2
      exact h2.symm
    · rcases hA' with h | h
      · exact Or.inl h
      · exact Or.inr (Or.inl h)
  · by_cases hB : d < 2
    · have heq : create_reduced_contacts_with_group_types pd g1 g2 setting d pm g
          = CRResult.raised "This method is likely to create disconnected graphs." pd := by
        unfold create_reduced_contacts_with_group_types
        rw [if_neg hA, if_pos hB]
      refine ⟨⟨fun _ => Or.inr (Or.inr hB), fun _ => ⟨_, _, heq⟩⟩,
        fun msg pdE h => ?_, Or.inl (Or.inr (Or.inr hB))⟩
      rw [heq] at h
      injection h with _ h2
      exact h2.symm
    · push_neg at hA
      have hg2ne : g2 ≠ [] := fun h => hA.2 (by rw [h]; rfl)
      obtain ⟨r, hr⟩ := crBuildGraph_some g1 g2 d pm g hg2ne
      have heq : create_reduced_contacts_with_group_types pd g1 g2 setting d pm g
          = CRResult.ok (addEdgelist (crSetdefault pd setting) setting
            (r.1.map (fun e => ((g1 ++ g2).getD e.1 0, (g1 ++ g2).getD e.2 0)))) r.2 := by
        unfold create_reduced_contacts_with_group_types
        rw [if_neg (by push_neg; exact hA), if_neg hB]
        simp only [hr]
      refine ⟨⟨fun h => ?_, fun h => ?_⟩, fun msg pdE h => ?_, Or.inr ⟨_, _, heq⟩⟩
      · obtain ⟨msg, pdE, hcontra⟩ := h
        rw [heq] at hcontra
        exact absurd hcontra (by intro hh; injection hh)
      · rcases h with h | h | h
        · exact absurd (congrArg List.length h) (by simpa using hA.1)
        · exact absurd (congrArg List.length h) (by simpa using hA.2)
        · exact absurd h hB
      · rw [heq] at h
        injection h

/-!
## The complete-graph regime (C5)
-/

theorem completeEdgesN_mem (n i j : Nat) (hij : i < j) (hj : j < n) :
    (i, j) ∈ completeEdgesN n := by
  unfold completeEdgesN
  rw [List.mem_flatMap]
  refine ⟨i, List.mem_range.mpr (lt_trans hij hj), ?_⟩
  rw [List.mem_filterMap]
  exact ⟨j, List.mem_range.mpr hj, by rw [if_pos hij]⟩

theorem pdGet_mapPersons (pd : Popdict) (f : Person → Person) (u : Nat) :
    pdGet (pd.map (fun e => (e.1, f e.2))) u = (pdGet pd u).map f := by
  induction pd with
  | nil => rfl
  | cons e t ih =>
    rw [List.map_cons]
    by_cases he : e.1 = u
    · simp [pdGet_cons, he]
    · simp [pdGet_cons, he, ih]

theorem crSetdefaultPerson_get (setting : Layer) (p : Person) :
    (crSetdefaultPerson setting p).contacts.get setting ≠ none := by
  unfold crSetdefaultPerson
  by_cases hk : p.contacts.get setting = none
  · rw [if_pos hk]
    show (p.contacts.put setting (some [])).get setting ≠ none
    rw [contacts_get_put_self]
    simp
  · rw [if_neg hk]
    exact hk

theorem crSetdefault_hasLayer (pd : Popdict) (k : Layer) (u : Nat) :
    (∃ p, pdGet pd u = some p) → HasLayer (crSetdefault pd k) k u := by
  rintro ⟨p, hp⟩
  unfold crSetdefault
  refine ⟨crSetdefaultPerson k p, ?_, crSetdefaultPerson_get k p⟩
  rw [pdGet_mapPersons, hp]
  rfl

/-- C5: with non-empty groups, average degree `d ≥ 2`, and combined size
`n = |group1| + |group2| ≤ d`, `create_reduced_contacts_with_group_types`
emits the complete graph over the union: after the call every member's
contact set for the given setting contains every other member. -/
theorem create_reduced_complete_graph (pd : Popdict) (g1 g2 : List Nat)
    (setting : Layer) (d : Nat) (pm : Option (List (List Rat))) (g : Rng)
    (h1 : g1 ≠ []) (h2 : g2 ≠ []) (hd : 2 ≤ d)
    (hn : g1.length + g2.length ≤ d)
    (hkeys : ∀ u ∈ g1 ++ g2, ∃ p, pdGet pd u = some p) :
    ∃ pd' g', create_reduced_contacts_with_group_types pd g1 g2 setting d pm g
        = CRResult.ok pd' g' ∧
      ∀ u ∈ g1 ++ g2, ∀ v ∈ g1 ++ g2, v ≠ u → v ∈ cGet pd' setting u := by
  have hA : ¬ (g1.length = 0 ∨ g2.length = 0) := by
    push_neg
    exact ⟨(List.length_pos.mpr h1).ne', (List.length_pos.mpr h2).ne'⟩
  have hB : ¬ d < 2 := not_lt.mpr hd
  have hbuild : crBuildGraph g1 g2 d pm g
      = some (completeEdgesN (g1.length + g2.length), g) := by
    unfold crBuildGraph
    rw [if_pos hn]
  have heq : create_reduced_contacts_with_group_types pd g1 g2 setting d pm g
      = CRResult.ok (addEdgelist (crSetdefault pd setting) setting
        ((completeEdgesN (g1.length + g2.length)).map
          (fun e => ((g1 ++ g2).getD e.1 0, (g1 ++ g2).getD e.2 0)))) g := by
    unfold create_reduced_contacts_with_group_types
    rw [if_neg hA, if_neg hB]
    simp only [hbuild]
  refine ⟨_, _, heq, ?_⟩
  intro u hu v hv hvu
  obtain ⟨i, hi, hgi⟩ := List.mem_iff_getElem.mp hu
  obtain ⟨j, hj, hgj⟩ := List.mem_iff_getElem.mp hv
  have hgi' : (g1 ++ g2).getD i 0 = u := by
    rw [List.getD_eq_getElem _ _ hi, hgi]
  have hgj' : (g1 ++ g2).getD j 0 = v := by
    rw [List.getD_eq_getElem _ _ hj, hgj]
  have hij : i ≠ j := by
    intro h
    subst h
    exact hvu (hgj.symm.trans hgi)
  have hlu : HasLayer (crSetdefault pd setting) setting u :=
    crSetdefault_hasLayer pd setting u (hkeys u hu)
  have hlv : HasLayer (crSetdefault pd setting) setting v :=
    crSetdefault_hasLayer pd setting v (hkeys v hv)
  have hlen : (g1 ++ g2).length = g1.length + g2.length := List.length_append _ _
  rcases Nat.lt_or_ge i j with hlt | hge
  · have hedge : (i, j) ∈ completeEdgesN (g1.length + g2.length) :=
      completeEdgesN_mem _ _ _ hlt (hlen ▸ hj)
    have hmap : (u, v) ∈ (completeEdgesN (g1.length + g2.length)).map
        (fun e => ((g1 ++ g2).getD e.1 0, (g1 ++ g2).getD e.2 0)) := by
      rw [List.mem_map]
      refine ⟨(i, j), hedge, ?_⟩
      show ((g1 ++ g2).getD i 0, (g1 ++ g2).getD j 0) = (u, v)
      rw [hgi', hgj']
    exact (addEdgelist_adds _ _ _ _ _ hmap hlu hlv).1
  · have hlt : j < i := lt_of_le_of_ne hge (Ne.symm hij)
    have hedge : (j, i) ∈ completeEdgesN (g1.length + g2.length) :=
      completeEdgesN_mem _ _ _ hlt (hlen ▸ hi)
    have hmap : (v, u) ∈ (completeEdgesN (g1.length + g2.length)).map
        (fun e => ((g1 ++ g2).getD e.1 0, (g1 ++ g2).getD e.2 0)) := by
      rw [List.mem_map]
      refine ⟨(j, i), hedge, ?_⟩
      show ((g1 ++ g2).getD j 0, (g1 ++ g2).getD i 0) = (v, u)
      rw [hgi', hgj']
    exact (addEdgelist_adds _ _ _ _ _ hmap hlv hlu).2

/-!
## Self-membership and community-layer invariants (C9, C10)
-/

/-- No person's uid is a member of any of their own contact sets. -/
def NoSelf (pd : Popdict) : Prop :=
  ∀ u k, u ∉ cGet pd k u

/-- Every person's community-layer ('C') contact set is present and
empty. -/
def CommunityEmpty (pd : Popdict) : Prop :=
  ∀ u p, pdGet pd u = some p → p.contacts.get Layer.C = some []

theorem cGet_addContact_other_layer (pd : Popdict) (k k' : Layer)
    (a b x : Nat) (hk : k' ≠ k) :
    cGet (addContact pd k a b) k' x = cGet pd k' x := by
  by_cases hx : x = a
  · subst hx
    cases hp : pdGet pd x with
    | none =>
      unfold cGet addContact
      rw [pdGet_modify_self, hp]
      rfl
    | some p =>
      cases hgk : p.contacts.get k with
      | none =>
        rw [cGet_of_pdGet_some _ _ _ _
          (pdGet_addContact_of_none _ _ _ _ _ _ hp rfl hgk),
          cGet_of_pdGet_some _ _ _ _ hp]
      | some s =>
        rw [cGet_of_pdGet_some _ _ _ _
          (pdGet_addContact_of_some _ _ _ _ _ _ _ hp rfl hgk),
          cGet_of_pdGet_some _ _ _ _ hp]
        show ((p.contacts.put k (some (s.insert b))).get k').getD [] = _
        rw [contacts_get_put_other _ _ _ _ hk]
  · unfold cGet addContact
    rw [pdGet_modify_other _ _ _ _ hx]

theorem cGet_addContact_other_person (pd : Popdict) (k k' : Layer)
    (a b x : Nat) (hx : x ≠ a) :
    cGet (addContact pd k a b) k' x = cGet pd k' x := by
  unfold cGet addContact
  rw [pdGet_modify_other _ _ _ _ hx]

theorem cGet_addContact_same (pd : Popdict) (k : Layer) (a b w : Nat)
    (h : w ∈ cGet (addContact pd k a b) k a) : w ∈ cGet pd k a ∨ w = b := by
  cases hp : pdGet pd a with
  | none =>
    unfold cGet addContact at h
    rw [pdGet_modify_self, hp] at h
    simp at h
  | some p =>
    cases hgk : p.contacts.get k with
    | none =>
      rw [cGet_of_pdGet_some _ _ _ _
        (pdGet_addContact_of_none _ _ _ _ _ _ hp rfl hgk), hgk] at h
      simp at h
    | some s =>
      rw [cGet_of_pdGet_some _ _ _ _
        (pdGet_addContact_of_some _ _ _ _ _ _ _ hp rfl hgk)] at h
      have h' : w ∈ s.insert b := by
        have : ((p.contacts.put k (some (s.insert b))).get k).getD []
            = s.insert b := by rw [contacts_get_put_self]; rfl
        rw [show ({ p with contacts := p.contacts.put k (some (s.insert b)) }
          : Person).contacts = p.contacts.put k (some (s.insert b)) from rfl] at h
        rw [this] at h
        exact h
      rcases List.mem_insert_iff.mp h' with hb | hs
      · exact Or.inr hb
      · exact Or.inl (by rw [cGet_of_pdGet_some _ _ _ _ hp, hgk]; exact hs)

theorem noSelf_addContact (pd : Popdict) (k : Layer) (a b : Nat)
    (hab : a ≠ b) (h : NoSelf pd) : NoSelf (addContact pd k a b) := by
  intro u k'
  by_cases hk' : k' = k
  · subst hk'
    by_cases hu : u = a
    · subst hu
      intro hmem
      rcases cGet_addContact_same pd k' u b u hmem with h1 | h1
      · exact h u k' h1
      · exact hab (h1 ▸ rfl)
    · rw [cGet_addContact_other_person _ _ _ _ _ _ hu]
      exact h u k'
  · rw [cGet_addContact_other_layer _ _ _ _ _ _ hk']
    exact h u k'

theorem cGet_putContacts_other_person (pd : Popdict) (k k' : Layer)
    (a x : Nat) (s : List Nat) (hx : x ≠ a) :
    cGet (putContacts pd k a s) k' x = cGet pd k' x := by
  unfold cGet putContacts
  rw [pdGet_modify_other _ _ _ _ hx]

theorem cGet_putContacts_other_layer (pd : Popdict) (k k' : Layer)
    (a x : Nat) (s : List Nat) (hk : k' ≠ k) :
    cGet (putContacts pd k a s) k' x = cGet pd k' x := by
  by_cases hx : x = a
  · subst hx
    cases hp : pdGet pd x with
    | none =>
      unfold cGet putContacts
      rw [pdGet_modify_self, hp]
      rfl
    | some p =>
      unfold cGet putContacts
      rw [pdGet_modify_self, hp]
      show (((p.contacts.put k (some s)).get k').getD []) = _
      rw [contacts_get_put_other _ _ _ _ hk]
  · exact cGet_putContacts_other_person _ _ _ _ _ _ hx

theorem cGet_putContacts_same (pd : Popdict) (k : Layer) (a w : Nat)
    (s : List Nat) (h : w ∈ cGet (putContacts pd k a s) k a) : w ∈ s := by
  cases hp : pdGet pd a with
  | none =>
    unfold cGet putContacts at h
    rw [pdGet_modify_self, hp] at h
    simp at h
  | some p =>
    have hp2 : pdGet (putContacts pd k a s) a =
        some { p with contacts := p.contacts.put k (some s) } := by
      unfold putContacts
      rw [pdGet_modify_self, hp]
      rfl
    rw [cGet_of_pdGet_some _ _ _ _ hp2] at h
    have hred : (({ p with contacts := p.contacts.put k (some s) }
        : Person).contacts.get k).getD [] = s := by
      show ((p.contacts.put k (some s)).get k).getD [] = s
      rw [contacts_get_put_self]
      rfl
    rw [hred] at h
    exact h

theorem noSelf_putContacts (pd : Popdict) (k : Layer) (a : Nat)
    (s : List Nat) (hs : a ∉ s) (h : NoSelf pd) :
    NoSelf (putContacts pd k a s) := by
  intro u k'
  by_cases hk' : k' = k
  · subst hk'
    by_cases hu : u = a
    · subst hu
      intro hmem
      exact hs (cGet_putContacts_same _ _ _ _ _ hmem)
    · rw [cGet_putContacts_other_person _ _ _ _ _ _ hu]
      exact h u k'
  · rw [cGet_putContacts_other_layer _ _ _ _ _ _ hk']
    exact h u k'

/-- `pdModify` with a function that leaves the contacts untouched leaves
every contact set untouched. -/
theorem cGet_pdModify_flags (pd : Popdict) (u x : Nat) (k : Layer)
    (f : Person → Person) (hf : ∀ p, (f p).contacts = p.contacts) :
    cGet (pdModify pd u f) k x = cGet pd k x := by
  by_cases hx : x = u
  · subst hx
    unfold cGet
    rw [pdGet_modify_self]
    cases hp : pdGet pd x with
    | none => rfl
    | some p => simp [hf p]
  · unfold cGet
    rw [pdGet_modify_other _ _ _ _ hx]

theorem noSelf_pdModify_flags (pd : Popdict) (u : Nat) (f : Person → Person)
    (hf : ∀ p, (f p).contacts = p.contacts) (h : NoSelf pd) :
    NoSelf (pdModify pd u f) := by
  intro x k
  rw [cGet_pdModify_flags _ _ _ _ _ hf]
  exact h x k

/-!
## Every built graph joins distinct in-range node indices
-/

/-- All edges join two distinct node indices below `n`. -/
def GoodEdges (n : Nat) (G : Graph) : Prop :=
  ∀ e ∈ G, e.1 ≠ e.2 ∧ e.1 < n ∧ e.2 < n

theorem goodEdges_completeEdgesN (n : Nat) : GoodEdges n (completeEdgesN n) := by
  intro e he
  unfold completeEdgesN at he
  rw [List.mem_flatMap] at he
  obtain ⟨i, hi, he2⟩ := he
  rw [List.mem_filterMap] at he2
  obtain ⟨j, hj, hij⟩ := he2
  by_cases h : i < j
  · rw [if_pos h] at hij
    injection hij with hij
    subst hij
    exact ⟨Nat.ne_of_lt h, List.mem_range.mp hi, List.mem_range.mp hj⟩
  · rw [if_neg h] at hij
    exact absurd hij (by simp)

theorem goodEdges_removeEdge (n : Nat) (G : Graph) (i j : Nat)
    (h : GoodEdges n G) : GoodEdges n (removeEdge G i j) :=
  fun e he => h e (List.mem_filter.mp he).1

theorem goodEdges_addEdge (n : Nat) (G : Graph) (i j : Nat)
    (hij : i ≠ j) (hi : i < n) (hj : j < n) (h : GoodEdges n G) :
    GoodEdges n (addEdge G i j) := by
  intro e he
  unfold addEdge at he
  by_cases hh : hasEdge G i j
  · rw [if_pos hh] at he
    exact h e he
  · rw [if_neg hh] at he
    rcases List.mem_append.mp he with h1 | h1
    · exact h e h1
    · rcases List.mem_singleton.mp h1 with rfl
      exact ⟨hij, hi, hj⟩

theorem foldl_preserve {α β : Type} (P : β → Prop) :
    ∀ (l : List α) (f : β → α → β) (b : β),
    (∀ b a, a ∈ l → P b → P (f b a)) → P b → P (l.foldl f b) := by
  intro l
  induction l with
  | nil => intro f b _ hb; exact hb
  | cons a t ih =>
    intro f b hf hb
    rw [List.foldl_cons]
    exact ih f (f b a) (fun b' a' ha' => hf b' a' (List.mem_cons_of_mem _ ha'))
      (hf b a (List.mem_cons_self _ _) hb)

theorem foldl_option_none {α β : Type} (f : Option β → α → Option β)
    (hnone : ∀ a, f none a = none) :
    ∀ (l : List α), l.foldl f none = none := by
  intro l
  induction l with
  | nil => rfl
  | cons a t ih => rw [List.foldl_cons, hnone a]; exact ih

theorem foldl_option_preserve {α β : Type} (f : Option β → α → Option β)
    (P : β → Prop) (hnone : ∀ a, f none a = none) :
    ∀ (l : List α),
    (∀ b a b', a ∈ l → f (some b) a = some b' → P b → P b') →
    ∀ (b b' : β), l.foldl f (some b) = some b' → P b → P b' := by
  intro l
  induction l with
  | nil =>
    intro _ b b' h hp
    injection h with h
    exact h ▸ hp
  | cons a t ih =>
    intro hf b b' h hp
    rw [List.foldl_cons] at h
    cases hfa : f (some b) a with
    | none =>
      rw [hfa, foldl_option_none f hnone] at h
      exact absurd h (by simp)
    | some b1 =>
      rw [hfa] at h
      exact ih (fun b a b' ha => hf b a b' (List.mem_cons_of_mem _ ha)) b1 b' h
        (hf b a b1 (List.mem_cons_self _ _) hfa hp)

theorem uniformChoice_mem_of_eq (l : List Nat) (g : Rng) (p : Nat × Rng)
    (h : uniformChoice l g = some p) : p.1 ∈ l := by
  unfold uniformChoice at h
  by_cases he : l.isEmpty
  · rw [if_pos he] at h
    exact absurd h (by simp)
  · rw [if_neg he] at h
    injection h with h
    subst h
    have hne : l ≠ [] := fun hh => he (by rw [hh]; rfl)
    exact getD_mem_of_lt _ _ _ (randNat_lt g l.length (List.length_pos.mpr hne))

theorem cutLoop_good (n i : Nat) :
    ∀ (k : Nat) (gn : List Nat) (G : Graph) (g : Rng) (r : Graph × Rng),
    cutLoop i k gn G g = some r → GoodEdges n G → GoodEdges n r.1 := by
  intro k
  induction k with
  | zero =>
    intro gn G g r h hG
    injection h with h
    exact h ▸ hG
  | succ k ih =>
    intro gn G g r h hG
    unfold cutLoop at h
    cases hun : uniformChoice gn g with
    | none => rw [hun] at h; exact absurd h (by simp)
    | some jg =>
      rw [hun] at h
      exact ih _ _ _ _ h (goodEdges_removeEdge n G i jg.1 hG)

theorem trimGroup1_good (n : Nat) (n1 : List Nat) (d : Nat) (G : Graph)
    (g : Rng) (r : Graph × Rng) (h : trimGroup1 n1 d G g = some r)
    (hG : GoodEdges n G) : GoodEdges n r.1 := by
  refine foldl_option_preserve (trimGroup1Step n1 d) (fun b => GoodEdges n b.1)
    (fun a => rfl) n1 ?_ (G, g) r h hG
  intro b a b' _ hstep hb
  obtain ⟨Gb, gb⟩ := b
  unfold trimGroup1Step at hstep
  by_cases hc : d < ((neighbors Gb a).filter (fun j => n1.contains j)).length
  · simp only [if_pos hc] at hstep
    exact cutLoop_good n a _ _ _ _ _ hstep hb
  · simp only [if_neg hc] at hstep
    injection hstep with hstep
    exact hstep ▸ hb

theorem mem_n2_bounds (g1len g2len j : Nat)
    (hj : j ∈ (List.range g2len).map (fun x => x + g1len)) :
    g1len ≤ j ∧ j < g1len + g2len := by
  rw [List.mem_map] at hj
  obtain ⟨x, hx, hxe⟩ := hj
  rw [List.mem_range] at hx
  omega

theorem repairNoRemovals_good (g1len g2len : Nat) (G : Graph) (g : Rng)
    (r : Graph × Rng)
    (h : repairNoRemovals (List.range g1len)
      ((List.range g2len).map (fun x => x + g1len)) G g = some r)
    (hG : GoodEdges (g1len + g2len) G) : GoodEdges (g1len + g2len) r.1 := by
  refine foldl_option_preserve _ (fun b => GoodEdges (g1len + g2len) b.1)
    (fun a => rfl) _ ?_ (G, g) r h hG
  intro b a b' ha hstep hb
  have ha' : a < g1len := List.mem_range.mp ha
  obtain ⟨Gb, gb⟩ := b
  unfold repairNoRemovalsStep at hstep
  by_cases hc : ((neighbors Gb a).filter
      (fun j => ((List.range g2len).map (fun x => x + g1len)).contains j)).isEmpty
  · simp only [if_pos hc] at hstep
    cases hun : uniformChoice ((List.range g2len).map (fun x => x + g1len)) gb with
    | none => rw [hun] at hstep; exact absurd hstep (by simp)
    | some jg =>
      rw [hun] at hstep
      injection hstep with hstep
      subst hstep
      obtain ⟨hj1, hj2⟩ := mem_n2_bounds g1len g2len jg.1
        (uniformChoice_mem_of_eq _ _ _ hun)
      exact goodEdges_addEdge _ _ _ _ (by omega) (by omega) hj2 hb
  · simp only [if_neg hc] at hstep
    injection hstep with hstep
    exact hstep ▸ hb

theorem repairWithRemovals_good (g1len g2len : Nat) (G : Graph) (g : Rng)
    (r : Graph × Rng)
    (h : repairWithRemovals (List.range g1len)
      ((List.range g2len).map (fun x => x + g1len)) G g = some r)
    (hG : GoodEdges (g1len + g2len) G) : GoodEdges (g1len + g2len) r.1 := by
  refine foldl_option_preserve _ (fun b => GoodEdges (g1len + g2len) b.1)
    (fun a => rfl) _ ?_ (G, g) r h hG
  intro b a b' ha hstep hb
  have ha' : a < g1len := List.mem_range.mp ha
  obtain ⟨Gb, gb⟩ := b
  unfold repairWithRemovalsStep at hstep
  by_cases hc : ((neighbors Gb a).filter
      (fun j => ((List.range g2len).map (fun x => x + g1len)).contains j)).isEmpty
  · simp only [if_pos hc] at hstep
    cases hun : uniformChoice ((List.range g2len).map (fun x => x + g1len)) gb with
    | none => rw [hun] at hstep; exact absurd hstep (by simp)
    | some jg =>
      rw [hun] at hstep
      obtain ⟨hj1, hj2⟩ := mem_n2_bounds g1len g2len jg.1
        (uniformChoice_mem_of_eq _ _ _ hun)
      have hgb1 : GoodEdges (g1len + g2len) (addEdge Gb a jg.1) :=
        goodEdges_addEdge _ _ _ _ (by omega) (by omega) hj2 hb
      by_cases hc2 : ((neighbors Gb jg.1).filter
          (fun x => ((List.range g2len).map (fun x => x + g1len)).contains x)).isEmpty
      · simp only [if_pos hc2] at hstep
        injection hstep with hstep
        exact hstep ▸ hgb1
      · simp only [if_neg hc2] at hstep
        cases hun2 : uniformChoice ((neighbors Gb jg.1).filter
            (fun x => ((List.range g2len).map (fun x => x + g1len)).contains x)) jg.2 with
        | none => rw [hun2] at hstep; exact absurd hstep (by simp)
        | some cg =>
          rw [hun2] at hstep
          injection hstep with hstep
          exact hstep ▸ goodEdges_removeEdge _ _ _ _ hgb1
  · simp only [if_neg hc] at hstep
    injection hstep with hstep
    exact hstep ▸ hb

theorem sbmGraph_good (n1 n2 : Nat) (p : List (List Rat)) (g : Rng) :
    GoodEdges (n1 + n2) (sbmGraph n1 n2 p g).1 := by
  unfold sbmGraph
  refine foldl_preserve (fun acc : Graph × Rng => GoodEdges (n1 + n2) acc.1)
    _ _ _ ?_ (fun e he => absurd he (List.not_mem_nil e))
  intro b i hi hb
  refine foldl_preserve (fun acc : Graph × Rng => GoodEdges (n1 + n2) acc.1)
    _ _ _ ?_ hb
  intro b2 j hj hb2
  by_cases hij : i < j
  · rw [if_pos hij]
    by_cases hr : (randRat b2.2).1 < (p.getD (if i < n1 then 0 else 1) []).getD
        (if j < n1 then 0 else 1) 0
    · rw [if_pos hr]
      intro e he
      rcases List.mem_append.mp he with h1 | h1
      · exact hb2 e h1
      · rcases List.mem_singleton.mp h1 with rfl
        exact ⟨Nat.ne_of_lt hij, List.mem_range.mp hi, List.mem_range.mp hj⟩
    · rw [if_neg hr]
      exact hb2
  · rw [if_neg hij]
    exact hb2

theorem crBuildGraph_good (g1 g2 : List Nat) (d : Nat)
    (pm : Option (List (List Rat))) (g : Rng) (r : Graph × Rng)
    (h : crBuildGraph g1 g2 d pm g = some r) :
    GoodEdges (g1.length + g2.length) r.1 := by
  unfold crBuildGraph at h
  by_cases h1 : g1.length + g2.length ≤ d
  · rw [if_pos h1] at h
    injection h with h
    rw [← h]
    exact goodEdges_completeEdgesN _
  · rw [if_neg h1] at h
    by_cases h2 : g2.length < 2
    · rw [if_pos h2] at h
      exact trimGroup1_good _ _ _ _ _ _ h (goodEdges_completeEdgesN _)
    · rw [if_neg h2] at h
      by_cases h3 : (((List.range g2.length).map (fun x => x + g1.length)).filter
          (fun i => !((neighbors (sbmGraph g1.length g2.length
            ((pm.getD [[(d : Rat) / ((g1.length + g2.length : Nat) : Rat),
              (d : Rat) / ((g1.length + g2.length : Nat) : Rat)],
              [(d : Rat) / ((g1.length + g2.length : Nat) : Rat),
              (d : Rat) / ((g1.length + g2.length : Nat) : Rat)]])) g).1 i).filter
            (fun j => ((List.range g2.length).map
              (fun x => x + g1.length)).contains j)).isEmpty)).isEmpty
      · simp only [if_pos h3] at h
        exact repairNoRemovals_good _ _ _ _ _ h (sbmGraph_good _ _ _ _)
      · simp only [if_neg h3] at h
        exact repairWithRemovals_good _ _ _ _ _ h (sbmGraph_good _ _ _ _)

theorem noSelf_crSetdefault (pd : Popdict) (k0 : Layer) (h : NoSelf pd) :
    NoSelf (crSetdefault pd k0) := by
  intro u k
  unfold crSetdefault cGet
  rw [pdGet_mapPersons]
  cases hp : pdGet pd u with
  | none => simp
  | some p =>
    simp only [Option.map_some']
    unfold crSetdefaultPerson
    by_cases hc : p.contacts.get k0 = none
    · rw [if_pos hc]
      by_cases hk : k = k0
      · subst hk
        show u ∉ ((p.contacts.put k (some [])).get k).getD []
        rw [contacts_get_put_self]
        simp
      · show u ∉ ((p.contacts.put k0 (some [])).get k).getD []
        rw [contacts_get_put_other _ _ _ _ hk]
        have := h u k
        rw [cGet_of_pdGet_some _ _ _ _ hp] at this
        exact this
    · rw [if_neg hc]
      have := h u k
      rw [cGet_of_pdGet_some _ _ _ _ hp] at this
      exact this

theorem noSelf_addEdgelist (pd : Popdict) (k : Layer) (es : List (Nat × Nat))
    (hes : ∀ e ∈ es, e.1 ≠ e.2) (h : NoSelf pd) : NoSelf (addEdgelist pd k es) := by
  induction es generalizing pd with
  | nil => exact h
  | cons e t ih =>
    rw [addEdgelist_cons]
    exact ih _ (fun e' he' => hes e' (List.mem_cons_of_mem _ he'))
      (noSelf_addContact _ _ _ _ (hes e (List.mem_cons_self _ _)).symm
        (noSelf_addContact _ _ _ _ (hes e (List.mem_cons_self _ _)) h))

theorem noSelf_create_reduced (pd : Popdict) (g1 g2 : List Nat)
    (setting : Layer) (d : Nat) (pm : Option (List (List Rat))) (g : Rng)
    (pd' : Popdict) (g' : Rng) (hnd : (g1 ++ g2).Nodup) (h : NoSelf pd)
    (hok : create_reduced_contacts_with_group_types pd g1 g2 setting d pm g
      = CRResult.ok pd' g') : NoSelf pd' := by
  unfold create_reduced_contacts_with_group_types at hok
  by_cases hA : g1.length = 0 ∨ g2.length = 0
  · rw [if_pos hA] at hok
    exact CRResult.noConfusion hok
  · rw [if_neg hA] at hok
    by_cases hB : d < 2
    · rw [if_pos hB] at hok
      exact CRResult.noConfusion hok
    · rw [if_neg hB] at hok
      cases hbuild : crBuildGraph g1 g2 d pm g with
      | none =>
        simp only [hbuild] at hok
        exact CRResult.noConfusion hok
      | some r =>
        simp only [hbuild] at hok
        injection hok with h1 h2
        rw [← h1]
        have hGood := crBuildGraph_good g1 g2 d pm g r hbuild
        refine noSelf_addEdgelist _ _ _ ?_ (noSelf_crSetdefault pd setting h)
        intro e he
        rw [List.mem_map] at he
        obtain ⟨e0, he0, hee⟩ := he
        obtain ⟨hne, h1e, h2e⟩ := hGood e0 he0
        rw [← hee]
        have hlen : (g1 ++ g2).length = g1.length + g2.length :=
          List.length_append _ _
        show (g1 ++ g2).getD e0.1 0 ≠ (g1 ++ g2).getD e0.2 0
        rw [List.getD_eq_getElem _ _ (by omega), List.getD_eq_getElem _ _ (by omega)]
        intro hcontra
        exact hne ((List.Nodup.getElem_inj_iff hnd).mp hcontra)

/-!
## No self-contacts through the assembly phases
-/

theorem pdGet_mem (pd : Popdict) (u : Nat) (p : Person)
    (h : pdGet pd u = some p) : (u, p) ∈ pd := by
  induction pd with
  | nil => exact absurd h (by simp [pdGet])
  | cons e t ih =>
    rw [pdGet_cons] at h
    by_cases he : e.1 = u
    · rw [if_pos he] at h
      injection h with h
      subst h
      rw [← he]
      exact List.mem_cons_self _ _
    · rw [if_neg he] at h
      exact List.mem_cons_of_mem _ (ih h)

theorem initPerson_cGet_empty (age sx : Nat) (b : Bool) (k : Layer) :
    ((initPerson age sx b).contacts.get k).getD [] = [] := by
  cases k <;> cases b <;> rfl

theorem noSelf_initPopdict (age_by_uid : List (Nat × Nat)) (sexes : List Nat)
    (b : Bool) : NoSelf (initPopdict age_by_uid sexes b) := by
  intro u k
  cases hp : pdGet (initPopdict age_by_uid sexes b) u with
  | none => rw [cGet_of_pdGet_none _ _ _ hp]; simp
  | some p =>
    rw [cGet_of_pdGet_some _ _ _ _ hp]
    have hm := pdGet_mem _ _ _ hp
    unfold initPopdict at hm
    rw [List.mem_map] at hm
    obtain ⟨e, _, he⟩ := hm
    have hp2 : p = initPerson e.2.2 (sexes.getD e.1 0) b := by
      injection he with _ h2
      exact h2.symm
    rw [hp2, initPerson_cGet_empty]
    simp

theorem noSelf_foldl_flags {α : Type} (l : List α) (key : α → Nat)
    (f : α → Person → Person) (hf : ∀ a p, (f a p).contacts = p.contacts)
    (pd : Popdict) (h : NoSelf pd) :
    NoSelf (l.foldl (fun pd a => pdModify pd (key a) (f a)) pd) := by
  refine foldl_preserve NoSelf _ _ _ ?_ h
  intro pd a _ hp
  exact noSelf_pdModify_flags _ _ _ (hf a) hp

theorem noSelf_ltcfPhase (facilities facStaff : List (List Nat))
    (twoGroup : Bool) (deg : Nat) (pd : Popdict) (g : Rng)
    (pr : Popdict × Rng)
    (hfac : ∀ e ∈ facilities.enum, (e.2 ++ facStaff.getD e.1 []).Nodup)
    (h : ltcfPhase facilities facStaff twoGroup deg pd g = some pr)
    (hns : NoSelf pd) : NoSelf pr.1 := by
  unfold ltcfPhase at h
  refine foldl_option_preserve _ (fun pr : Popdict × Rng => NoSelf pr.1)
    (fun a => rfl) _ ?_ _ _ h hns
  intro b e b' he hstep hb
  obtain ⟨pdb, gb⟩ := b
  simp only [] at hstep
  have hns1 : NoSelf (e.2.foldl (fun pd u =>
      pdModify pd u (fun p => { p with snf_res := some 1, snfid := some e.1 }))
      pdb) := by
    refine foldl_preserve NoSelf _ _ _ ?_ hb
    intro pd u _ hp
    exact noSelf_pdModify_flags _ _ _ (fun p => rfl) hp
  have hns2 : NoSelf ((facStaff.getD e.1 []).foldl (fun pd u =>
      pdModify pd u (fun p => { p with snf_staff := some 1, snfid := some e.1 }))
      (e.2.foldl (fun pd u =>
        pdModify pd u (fun p => { p with snf_res := some 1, snfid := some e.1 }))
        pdb)) := by
    refine foldl_preserve NoSelf _ _ _ ?_ hns1
    intro pd u _ hp
    exact noSelf_pdModify_flags _ _ _ (fun p => rfl) hp
  cases twoGroup with
  | true =>
    simp only [if_pos] at hstep
    cases hcr : create_reduced_contacts_with_group_types
        ((facStaff.getD e.1 []).foldl (fun pd u =>
          pdModify pd u (fun p => { p with snf_staff := some 1, snfid := some e.1 }))
          (e.2.foldl (fun pd u =>
            pdModify pd u (fun p => { p with snf_res := some 1, snfid := some e.1 }))
            pdb)) e.2 (facStaff.getD e.1 []) Layer.LTCF deg none gb with
    | ok pd2 g2 =>
      rw [hcr] at hstep
      injection hstep with hstep
      rw [← hstep]
      exact noSelf_create_reduced _ _ _ _ _ _ _ _ _ (hfac e he) hns2 hcr
    | raised msg pd2 =>
      rw [hcr] at hstep
      exact absurd hstep (by simp)
    | stuck =>
      rw [hcr] at hstep
      exact absurd hstep (by simp)
  | false =>
    simp only [Bool.false_eq_true, if_false] at hstep
    injection hstep with hstep
    rw [← hstep]
    refine foldl_preserve NoSelf _ _ _ ?_ ?_
    · intro pd u _ hp
      refine noSelf_putContacts _ _ _ _ ?_ hp
      intro hm
      exact ((List.Nodup.mem_erase_iff (List.nodup_dedup _)).mp hm).1 rfl
    · refine foldl_preserve NoSelf _ _ _ ?_ hns2
      intro pd u _ hp
      refine noSelf_putContacts _ _ _ _ ?_ hp
      intro hm
      exact ((List.Nodup.mem_erase_iff (List.nodup_dedup _)).mp hm).1 rfl

theorem noSelf_householdPhase (homes : List (List Nat)) (pd : Popdict)
    (h : NoSelf pd) : NoSelf (householdPhase homes pd) := by
  unfold householdPhase
  refine foldl_preserve NoSelf _ _ _ ?_ h
  intro pd e _ hp
  refine foldl_preserve NoSelf _ _ _ ?_ hp
  intro pd u _ hp2
  refine noSelf_pdModify_flags _ _ _ (fun p => rfl) ?_
  refine noSelf_putContacts _ _ _ _ ?_ hp2
  intro hm
  exact ((List.Nodup.mem_erase_iff (List.nodup_dedup _)).mp hm).1 rfl

theorem cliquePairs_ne (l : List Nat) (hnd : l.Nodup) :
    ∀ e ∈ cliquePairs l, e.1 ≠ e.2 := by
  induction l with
  | nil => intro e he; simp [cliquePairs] at he
  | cons x xs ih =>
    intro e he
    unfold cliquePairs at he
    rcases List.mem_append.mp he with h1 | h1
    · rw [List.mem_map] at h1
      obtain ⟨y, hy, hye⟩ := h1
      intro hee
      rw [← hye] at hee
      have hxy : x = y := hee
      exact (List.nodup_cons.mp hnd).1 (hxy ▸ hy)
    · exact ih (List.nodup_cons.mp hnd).2 e h1

theorem noSelf_schoolPhase (schools teachers : List (List Nat))
    (staffOpt : Option (List (List Nat))) (pd : Popdict)
    (hsch : ∀ e ∈ schools.enum,
      (e.2 ++ teachers.getD e.1 [] ++ schoolStaffOf staffOpt e.1).Nodup)
    (h : NoSelf pd) : NoSelf (schoolPhase schools teachers staffOpt pd) := by
  unfold schoolPhase
  refine foldl_preserve NoSelf _ _ _ ?_ h
  intro pd e he hp
  refine foldl_preserve NoSelf _ _ _ ?_ ?_
  · intro pd u _ hp2
    exact noSelf_pdModify_flags _ _ _ (fun p => rfl) hp2
  refine foldl_preserve NoSelf _ _ _ ?_ ?_
  · intro pd u _ hp2
    exact noSelf_pdModify_flags _ _ _ (fun p => rfl) hp2
  refine foldl_preserve NoSelf _ _ _ ?_ ?_
  · intro pd u _ hp2
    exact noSelf_pdModify_flags _ _ _ (fun p => rfl) hp2
  exact noSelf_addEdgelist _ _ _ (cliquePairs_ne _ (hsch e he)) hp

theorem noSelf_workplaceCliquePhase (workplaces : List (List Nat))
    (pd : Popdict) (h : NoSelf pd) :
    NoSelf (workplaceCliquePhase workplaces pd) := by
  unfold workplaceCliquePhase
  refine foldl_preserve NoSelf _ _ _ ?_ h
  intro pd e _ hp
  refine foldl_preserve NoSelf _ _ _ ?_ hp
  intro pd u _ hp2
  refine noSelf_pdModify_flags _ _ _ (fun p => rfl) ?_
  refine noSelf_putContacts _ _ _ _ ?_ hp2
  intro hm
  exact ((List.Nodup.mem_erase_iff (List.nodup_dedup _)).mp hm).1 rfl

theorem sampleNoReplace_subset (k : Nat) :
    ∀ (l : List Nat) (g : Rng), (sampleNoReplace k l g).1 ⊆ l := by
  induction k with
  | zero => intro l g x hx; simp [sampleNoReplace] at hx
  | succ k ih =>
    intro l g x hx
    unfold sampleNoReplace at hx
    by_cases hl : l.isEmpty
    · rw [if_pos hl] at hx
      simp at hx
    · rw [if_neg hl] at hx
      simp only [List.mem_cons] at hx
      have hne : l ≠ [] := fun hh => hl (by rw [hh]; rfl)
      rcases hx with h1 | h1
      · rw [h1]
        exact getD_mem_of_lt _ _ _ (randNat_lt g l.length (List.length_pos.mpr hne))
      · exact (List.eraseIdx_subset _ _) (ih _ _ h1)

theorem noSelf_workplaceTrimPhase (workplaces : List (List Nat)) (cap : Nat)
    (pd : Popdict) (g : Rng) (h : NoSelf pd) :
    NoSelf (workplaceTrimPhase workplaces cap pd g).1 := by
  unfold workplaceTrimPhase
  refine foldl_preserve (fun pr : Popdict × Rng => NoSelf pr.1) _ _ _ ?_ h
  intro pr e _ hp
  refine foldl_preserve (fun pr : Popdict × Rng => NoSelf pr.1) _ _ _ ?_ hp
  intro pr u _ hp2
  simp only []
  refine noSelf_pdModify_flags _ _ _ (fun p => rfl) ?_
  refine noSelf_putContacts _ _ _ _ ?_ hp2
  intro hm
  have hsub : u ∈ (e.2.dedup).erase u := by
    by_cases hlen : cap / 2 < ((e.2.dedup).erase u).length
    · rw [if_pos hlen] at hm
      exact sampleNoReplace_subset _ _ _ hm
    · rw [if_neg hlen] at hm
      exact hm
  exact ((List.Nodup.mem_erase_iff (List.nodup_dedup _)).mp hsub).1 rfl

theorem noSelf_pairing_inner (u : Nat) :
    ∀ (cs : List Nat) (pd : Popdict), u ∉ cs → NoSelf pd →
    NoSelf (cs.foldl (fun pd c => addContact pd Layer.W c u) pd) := by
  intro cs
  induction cs with
  | nil => intro pd _ h; exact h
  | cons c t ih =>
    intro pd hu h
    rw [List.foldl_cons]
    exact ih _ (fun hm => hu (List.mem_cons_of_mem _ hm))
      (noSelf_addContact _ _ _ _ (fun hcu => hu (hcu ▸ List.mem_cons_self _ _)) h)

theorem noSelf_pairingPass (pd : Popdict) (h : NoSelf pd) :
    NoSelf (pairingPass pd) := by
  unfold pairingPass
  refine foldl_preserve NoSelf _ _ _ ?_ h
  intro pd u _ hp
  exact noSelf_pairing_inner u _ pd (hp u Layer.W) hp

theorem noSelf_assembleRest (homes schools teachers : List (List Nat))
    (staffOpt : Option (List (List Nat))) (workplaces : List (List Nat))
    (maxContacts : Option Nat) (pd1 : Popdict) (g2 : Rng)
    (hsch : ∀ e ∈ schools.enum,
      (e.2 ++ teachers.getD e.1 [] ++ schoolStaffOf staffOpt e.1).Nodup)
    (h : NoSelf pd1) :
    NoSelf (assembleRest homes schools teachers staffOpt workplaces
      maxContacts pd1 g2).1 := by
  unfold assembleRest
  have h3 : NoSelf (schoolPhase schools teachers staffOpt
      (householdPhase homes pd1)) :=
    noSelf_schoolPhase _ _ _ _ hsch (noSelf_householdPhase _ _ h)
  cases maxContacts with
  | some cap => exact noSelf_pairingPass _ (noSelf_workplaceTrimPhase _ _ _ _ h3)
  | none => exact noSelf_workplaceCliquePhase _ _ h3

/-- C9: no person's uid is ever a member of their own contact set — in any
layer of the popdict returned by
`make_contacts_from_microstructure_objects` (each uid appearing at most
once in each input membership list), and likewise after any call to
`create_reduced_contacts_with_group_types` with disjoint duplicate-free
groups on a popdict with no self-contacts. -/
theorem no_self_contacts
    (age_by_uid : List (Nat × Nat)) (homes : List (List Nat))
    (schools teachers : List (List Nat)) (staffOpt : Option (List (List Nat)))
    (workplaces : List (List Nat)) (facilitiesOpt : Option (List (List Nat)))
    (facStaff : List (List Nat)) (twoGroup : Bool) (ltcfDeg : Nat)
    (maxContacts : Option Nat) (g : Rng) (pd : Popdict) (gf : Rng)
    (pdc : Popdict) (cg1 cg2 : List Nat) (setting : Layer) (cd : Nat)
    (cpm : Option (List (List Rat))) (cg : Rng) (pdc' : Popdict) (cgf : Rng)
    (hsch : ∀ e ∈ schools.enum,
      (e.2 ++ teachers.getD e.1 [] ++ schoolStaffOf staffOpt e.1).Nodup)
    (hfac : ∀ e ∈ (facilitiesOpt.getD []).enum,
      (e.2 ++ facStaff.getD e.1 []).Nodup)
    (hmk : make_contacts_from_microstructure_objects age_by_uid homes schools
      teachers staffOpt workplaces facilitiesOpt facStaff twoGroup ltcfDeg
      maxContacts g = some (pd, gf))
    (hcnd : (cg1 ++ cg2).Nodup) (hcns : NoSelf pdc)
    (hcok : create_reduced_contacts_with_group_types pdc cg1 cg2 setting cd
      cpm cg = CRResult.ok pdc' cgf) :
    (∀ u k, u ∉ cGet pd k u) ∧ (∀ u k, u ∉ cGet pdc' k u) := by
  constructor
  · show NoSelf pd
    unfold make_contacts_from_microstructure_objects at hmk
    cases facilitiesOpt with
    | none =>
      simp only [] at hmk
      injection hmk with hmk
      have hpd : pd = (assembleRest homes schools teachers staffOpt workplaces
          maxContacts (initPopdict age_by_uid
            (drawSexes age_by_uid.length g).1 (none : Option (List (List Nat))).isSome)
          (drawSexes age_by_uid.length g).2).1 := by
        rw [hmk]
      rw [hpd]
      exact noSelf_assembleRest _ _ _ _ _ _ _ _ hsch
        (noSelf_initPopdict _ _ _)
    | some facilities =>
      simp only [] at hmk
      cases hltcf : ltcfPhase facilities facStaff twoGroup ltcfDeg
          (initPopdict age_by_uid (drawSexes age_by_uid.length g).1
            (some facilities : Option (List (List Nat))).isSome)
          (drawSexes age_by_uid.length g).2 with
      | none =>
        rw [hltcf] at hmk
        exact absurd hmk (by simp)
      | some pr =>
        rw [hltcf] at hmk
        injection hmk with hmk
        have hpd : pd = (assembleRest homes schools teachers staffOpt
            workplaces maxContacts pr.1 pr.2).1 := by
          rw [hmk]
        rw [hpd]
        refine noSelf_assembleRest _ _ _ _ _ _ _ _ hsch ?_
        exact noSelf_ltcfPhase _ _ _ _ _ _ _ (by simpa using hfac) hltcf
          (noSelf_initPopdict _ _ _)
  · exact noSelf_create_reduced _ _ _ _ _ _ _ _ _ hcnd hcns hcok

/-!
## The community layer stays present and empty (C10)
-/

theorem communityEmpty_pdModify (pd : Popdict) (u : Nat) (f : Person → Person)
    (hf : ∀ p, (f p).contacts.get Layer.C = p.contacts.get Layer.C)
    (h : CommunityEmpty pd) : CommunityEmpty (pdModify pd u f) := by
  intro x p hp
  by_cases hx : x = u
  · subst hx
    rw [pdGet_modify_self] at hp
    cases hq : pdGet pd x with
    | none => rw [hq] at hp; exact absurd hp (by simp)
    | some q =>
      rw [hq] at hp
      simp only [Option.map_some'] at hp
      injection hp with hp
      rw [← hp, hf q]
      exact h x q hq
  · rw [pdGet_modify_other _ _ _ _ hx] at hp
    exact h x p hp

theorem communityEmpty_addContact (pd : Popdict) (k : Layer) (a b : Nat)
    (hk : k ≠ Layer.C) (h : CommunityEmpty pd) :
    CommunityEmpty (addContact pd k a b) := by
  unfold addContact
  refine communityEmpty_pdModify _ _ _ ?_ h
  intro p
  cases hgk : p.contacts.get k with
  | none => simp only [hgk]
  | some s =>
    simp only [hgk]
    show (p.contacts.put k (some (s.insert b))).get Layer.C = _
    exact contacts_get_put_other _ _ _ _ (Ne.symm hk).symm.symm

theorem communityEmpty_putContacts (pd : Popdict) (k : Layer) (a : Nat)
    (s : List Nat) (hk : k ≠ Layer.C) (h : CommunityEmpty pd) :
    CommunityEmpty (putContacts pd k a s) := by
  unfold putContacts
  refine communityEmpty_pdModify _ _ _ ?_ h
  intro p
  show (p.contacts.put k (some s)).get Layer.C = _
  exact contacts_get_put_other _ _ _ _ (Ne.symm hk).symm.symm

theorem communityEmpty_addEdgelist (pd : Popdict) (k : Layer)
    (es : List (Nat × Nat)) (hk : k ≠ Layer.C) (h : CommunityEmpty pd) :
    CommunityEmpty (addEdgelist pd k es) := by
  induction es generalizing pd with
  | nil => exact h
  | cons e t ih =>
    rw [addEdgelist_cons]
    exact ih _ (communityEmpty_addContact _ _ _ _ hk
      (communityEmpty_addContact _ _ _ _ hk h))

theorem communityEmpty_initPopdict (age_by_uid : List (Nat × Nat))
    (sexes : List Nat) (b : Bool) :
    CommunityEmpty (initPopdict age_by_uid sexes b) := by
  intro u p hp
  have hm := pdGet_mem _ _ _ hp
  unfold initPopdict at hm
  rw [List.mem_map] at hm
  obtain ⟨e, _, he⟩ := hm
  have hp2 : p = initPerson e.2.2 (sexes.getD e.1 0) b := by
    injection he with _ h2
    exact h2.symm
  rw [hp2]
  rfl

theorem communityEmpty_crSetdefault (pd : Popdict) (setting : Layer)
    (hk : setting ≠ Layer.C) (h : CommunityEmpty pd) :
    CommunityEmpty (crSetdefault pd setting) := by
  intro u p hp
  unfold crSetdefault at hp
  rw [pdGet_mapPersons] at hp
  cases hq : pdGet pd u with
  | none => rw [hq] at hp; exact absurd hp (by simp)
  | some q =>
    rw [hq] at hp
    simp only [Option.map_some'] at hp
    injection hp with hp
    rw [← hp]
    unfold crSetdefaultPerson
    by_cases hc : q.contacts.get setting = none
    · rw [if_pos hc]
      show (q.contacts.put setting (some [])).get Layer.C = _
      rw [contacts_get_put_other _ _ _ _ (Ne.symm hk).symm.symm]
      exact h u q hq
    · rw [if_neg hc]
      exact h u q hq

theorem communityEmpty_create_reduced (pd : Popdict) (g1 g2 : List Nat)
    (setting : Layer) (d : Nat) (pm : Option (List (List Rat))) (g : Rng)
    (pd' : Popdict) (g' : Rng) (hk : setting ≠ Layer.C) (h : CommunityEmpty pd)
    (hok : create_reduced_contacts_with_group_types pd g1 g2 setting d pm g
      = CRResult.ok pd' g') : CommunityEmpty pd' := by
  unfold create_reduced_contacts_with_group_types at hok
  by_cases hA : g1.length = 0 ∨ g2.length = 0
  · rw [if_pos hA] at hok
    exact CRResult.noConfusion hok
  · rw [if_neg hA] at hok
    by_cases hB : d < 2
    · rw [if_pos hB] at hok
      exact CRResult.noConfusion hok
    · rw [if_neg hB] at hok
      cases hbuild : crBuildGraph g1 g2 d pm g with
      | none =>
        simp only [hbuild] at hok
        exact CRResult.noConfusion hok
      | some r =>
        simp only [hbuild] at hok
        injection hok with h1 h2
        rw [← h1]
        exact communityEmpty_addEdgelist _ _ _ hk
          (communityEmpty_crSetdefault _ _ hk h)

theorem communityEmpty_ltcfPhase (facilities facStaff : List (List Nat))
    (twoGroup : Bool) (deg : Nat) (pd : Popdict) (g : Rng)
    (pr : Popdict × Rng)
    (h : ltcfPhase facilities facStaff twoGroup deg pd g = some pr)
    (hce : CommunityEmpty pd) : CommunityEmpty pr.1 := by
  unfold ltcfPhase at h
  refine foldl_option_preserve _ (fun pr : Popdict × Rng => CommunityEmpty pr.1)
    (fun a => rfl) _ ?_ _ _ h hce
  intro b e b' _ hstep hb
  obtain ⟨pdb, gb⟩ := b
  simp only [] at hstep
  have hce2 : CommunityEmpty ((facStaff.getD e.1 []).foldl (fun pd u =>
      pdModify pd u (fun p => { p with snf_staff := some 1, snfid := some e.1 }))
      (e.2.foldl (fun pd u =>
        pdModify pd u (fun p => { p with snf_res := some 1, snfid := some e.1 }))
        pdb)) := by
    refine foldl_preserve CommunityEmpty _ _ _ ?_ ?_
    · intro pd u _ hp
      exact communityEmpty_pdModify _ _ _ (fun p => rfl) hp
    · refine foldl_preserve CommunityEmpty _ _ _ ?_ hb
      intro pd u _ hp
      exact communityEmpty_pdModify _ _ _ (fun p => rfl) hp
  cases twoGroup with
  | true =>
    simp only [if_pos] at hstep
    cases hcr : create_reduced_contacts_with_group_types
        ((facStaff.getD e.1 []).foldl (fun pd u =>
          pdModify pd u (fun p => { p with snf_staff := some 1, snfid := some e.1 }))
          (e.2.foldl (fun pd u =>
            pdModify pd u (fun p => { p with snf_res := some 1, snfid := some e.1 }))
            pdb)) e.2 (facStaff.getD e.1 []) Layer.LTCF deg none gb with
    | ok pd2 g2 =>
      rw [hcr] at hstep
      injection hstep with hstep
      rw [← hstep]
      exact communityEmpty_create_reduced _ _ _ _ _ _ _ _ _ (by simp) hce2 hcr
    | raised msg pd2 =>
      rw [hcr] at hstep
      exact absurd hstep (by simp)
    | stuck =>
      rw [hcr] at hstep
      exact absurd hstep (by simp)
  | false =>
    simp only [Bool.false_eq_true, if_false] at hstep
    injection hstep with hstep
    rw [← hstep]
    refine foldl_preserve CommunityEmpty _ _ _ ?_ ?_
    · intro pd u _ hp
      exact communityEmpty_putContacts _ _ _ _ (by simp) hp
    · refine foldl_preserve CommunityEmpty _ _ _ ?_ hce2
      intro pd u _ hp
      exact communityEmpty_putContacts _ _ _ _ (by simp) hp

theorem communityEmpty_assembleRest (homes schools teachers : List (List Nat))
    (staffOpt : Option (List (List Nat))) (workplaces : List (List Nat))
    (maxContacts : Option Nat) (pd1 : Popdict) (g2 : Rng)
    (h : CommunityEmpty pd1) :
    CommunityEmpty (assembleRest homes schools teachers staffOpt workplaces
      maxContacts pd1 g2).1 := by
  unfold assembleRest
  have h2 : CommunityEmpty (householdPhase homes pd1) := by
    unfold householdPhase
    refine foldl_preserve CommunityEmpty _ _ _ ?_ h
    intro pd e _ hp
    refine foldl_preserve CommunityEmpty _ _ _ ?_ hp
    intro pd u _ hp2
    exact communityEmpty_pdModify _ _ _ (fun p => rfl)
      (communityEmpty_putContacts _ _ _ _ (by simp) hp2)
  have h3 : CommunityEmpty (schoolPhase schools teachers staffOpt
      (householdPhase homes pd1)) := by
    unfold schoolPhase
    refine foldl_preserve CommunityEmpty _ _ _ ?_ h2
    intro pd e _ hp
    refine foldl_preserve CommunityEmpty _ _ _ ?_ ?_
    · intro pd u _ hp2
      exact communityEmpty_pdModify _ _ _ (fun p => rfl) hp2
    refine foldl_preserve CommunityEmpty _ _ _ ?_ ?_
    · intro pd u _ hp2
      exact communityEmpty_pdModify _ _ _ (fun p => rfl) hp2
    refine foldl_preserve CommunityEmpty _ _ _ ?_ ?_
    · intro pd u _ hp2
      exact communityEmpty_pdModify _ _ _ (fun p => rfl) hp2
    exact communityEmpty_addEdgelist _ _ _ (by simp) hp
  cases maxContacts with
  | some cap =>
    have h4 : CommunityEmpty (workplaceTrimPhase workplaces cap
        (schoolPhase schools teachers staffOpt (householdPhase homes pd1)) g2).1 := by
      unfold workplaceTrimPhase
      refine foldl_preserve (fun pr : Popdict × Rng => CommunityEmpty pr.1)
        _ _ _ ?_ h3
      intro pr e _ hp
      refine foldl_preserve (fun pr : Popdict × Rng => CommunityEmpty pr.1)
        _ _ _ ?_ hp
      intro pr u _ hp2
      simp only []
      exact communityEmpty_pdModify _ _ _ (fun p => rfl)
        (communityEmpty_putContacts _ _ _ _ (by simp) hp2)
    show CommunityEmpty (pairingPass _)
    unfold pairingPass
    refine foldl_preserve CommunityEmpty _ _ _ ?_ h4
    intro pd u _ hp
    refine foldl_preserve CommunityEmpty _ _ _ ?_ hp
    intro pd c _ hp2
    exact communityEmpty_addContact _ _ _ _ (by simp) hp2
  | none =>
    show CommunityEmpty (workplaceCliquePhase _ _)
    unfold workplaceCliquePhase
    refine foldl_preserve CommunityEmpty _ _ _ ?_ h3
    intro pd e _ hp
    refine foldl_preserve CommunityEmpty _ _ _ ?_ hp
    intro pd u _ hp2
    exact communityEmpty_pdModify _ _ _ (fun p => rfl)
      (communityEmpty_putContacts _ _ _ _ (by simp) hp2)

/-- C10: every person in the popdict returned by
`make_contacts_from_microstructure_objects` carries a community-layer
('C') contact set, and that set is always empty — it is initialized empty
and no phase of the assembly ever adds a community contact. -/
theorem community_layer_always_empty
    (age_by_uid : List (Nat × Nat)) (homes : List (List Nat))
    (schools teachers : List (List Nat)) (staffOpt : Option (List (List Nat)))
    (workplaces : List (List Nat)) (facilitiesOpt : Option (List (List Nat)))
    (facStaff : List (List Nat)) (twoGroup : Bool) (ltcfDeg : Nat)
    (maxContacts : Option Nat) (g : Rng) (pd : Popdict) (gf : Rng)
    (hmk : make_contacts_from_microstructure_objects age_by_uid homes schools
      teachers staffOpt workplaces facilitiesOpt facStaff twoGroup ltcfDeg
      maxContacts g = some (pd, gf)) :
    ∀ u p, pdGet pd u = some p → p.contacts.get Layer.C = some [] := by
  show CommunityEmpty pd
  unfold make_contacts_from_microstructure_objects at hmk
  cases facilitiesOpt with
  | none =>
    simp only [] at hmk
    injection hmk with hmk
    have hpd : pd = (assembleRest homes schools teachers staffOpt workplaces
        maxContacts (initPopdict age_by_uid
          (drawSexes age_by_uid.length g).1 (none : Option (List (List Nat))).isSome)
        (drawSexes age_by_uid.length g).2).1 := by
      rw [hmk]
    rw [hpd]
    exact communityEmpty_assembleRest _ _ _ _ _ _ _ _
      (communityEmpty_initPopdict _ _ _)
  | some facilities =>
    simp only [] at hmk
    cases hltcf : ltcfPhase facilities facStaff twoGroup ltcfDeg
        (initPopdict age_by_uid (drawSexes age_by_uid.length g).1
          (some facilities : Option (List (List Nat))).isSome)
        (drawSexes age_by_uid.length g).2 with
    | none =>
      rw [hltcf] at hmk
      exact absurd hmk (by simp)
    | some pr =>
      rw [hltcf] at hmk
      injection hmk with hmk
      have hpd : pd = (assembleRest homes schools teachers staffOpt
          workplaces maxContacts pr.1 pr.2).1 := by
        rw [hmk]
      rw [hpd]
      exact communityEmpty_assembleRest _ _ _ _ _ _ _ _
        (communityEmpty_ltcfPhase _ _ _ _ _ _ _ hltcf
          (communityEmpty_initPopdict _ _ _))

/-!
## The workplace layer before the workplace phase (towards C8)

A layer that no phase so far has touched still holds the empty set it was
initialized with, for every person.
-/

/-- Layer `k0`'s contact set is present and empty for every person. -/
def LayerAllEmpty (k0 : Layer) (pd : Popdict) : Prop :=
  ∀ u p, pdGet pd u = some p → p.contacts.get k0 = some []

theorem layerEmpty_pdModify (k0 : Layer) (pd : Popdict) (u : Nat)
    (f : Person → Person)
    (hf : ∀ p, (f p).contacts.get k0 = p.contacts.get k0)
    (h : LayerAllEmpty k0 pd) : LayerAllEmpty k0 (pdModify pd u f) := by
  intro x p hp
  by_cases hx : x = u
  · subst hx
    rw [pdGet_modify_self] at hp
    cases hq : pdGet pd x with
    | none => rw [hq] at hp; exact absurd hp (by simp)
    | some q =>
      rw [hq] at hp
      simp only [Option.map_some'] at hp
      injection hp with hp
      rw [← hp, hf q]
      exact h x q hq
  · rw [pdGet_modify_other _ _ _ _ hx] at hp
    exact h x p hp

theorem layerEmpty_addContact (k0 k : Layer) (pd : Popdict) (a b : Nat)
    (hk : k ≠ k0) (h : LayerAllEmpty k0 pd) :
    LayerAllEmpty k0 (addContact pd k a b) := by
  unfold addContact
  refine layerEmpty_pdModify _ _ _ _ ?_ h
  intro p
  cases hgk : p.contacts.get k with
  | none => simp only [hgk]
  | some s =>
    simp only [hgk]
    show (p.contacts.put k (some (s.insert b))).get k0 = _
    exact contacts_get_put_other _ _ _ _ (Ne.symm hk).symm.symm

theorem layerEmpty_putContacts (k0 k : Layer) (pd : Popdict) (a : Nat)
    (s : List Nat) (hk : k ≠ k0) (h : LayerAllEmpty k0 pd) :
    LayerAllEmpty k0 (putContacts pd k a s) := by
  unfold putContacts
  refine layerEmpty_pdModify _ _ _ _ ?_ h
  intro p
  show (p.contacts.put k (some s)).get k0 = _
  exact contacts_get_put_other _ _ _ _ (Ne.symm hk).symm.symm

theorem layerEmpty_addEdgelist (k0 k : Layer) (pd : Popdict)
    (es : List (Nat × Nat)) (hk : k ≠ k0) (h : LayerAllEmpty k0 pd) :
    LayerAllEmpty k0 (addEdgelist pd k es) := by
  induction es generalizing pd with
  | nil => exact h
  | cons e t ih =>
    rw [addEdgelist_cons]
    exact ih _ (layerEmpty_addContact _ _ _ _ _ hk
      (layerEmpty_addContact _ _ _ _ _ hk h))

theorem layerEmptyW_initPopdict (age_by_uid : List (Nat × Nat))
    (sexes : List Nat) (b : Bool) :
    LayerAllEmpty Layer.W (initPopdict age_by_uid sexes b) := by
  intro u p hp
  have hm := pdGet_mem _ _ _ hp
  unfold initPopdict at hm
  rw [List.mem_map] at hm
  obtain ⟨e, _, he⟩ := hm
  have hp2 : p = initPerson e.2.2 (sexes.getD e.1 0) b := by
    injection he with _ h2
    exact h2.symm
  rw [hp2]
  rfl

theorem layerEmpty_crSetdefault (k0 setting : Layer) (pd : Popdict)
    (hk : setting ≠ k0) (h : LayerAllEmpty k0 pd) :
    LayerAllEmpty k0 (crSetdefault pd setting) := by
  intro u p hp
  unfold crSetdefault at hp
  rw [pdGet_mapPersons] at hp
  cases hq : pdGet pd u with
  | none => rw [hq] at hp; exact absurd hp (by simp)
  | some q =>
    rw [hq] at hp
    simp only [Option.map_some'] at hp
    injection hp with hp
    rw [← hp]
    unfold crSetdefaultPerson
    by_cases hc : q.contacts.get setting = none
    · rw [if_pos hc]
      show (q.contacts.put setting (some [])).get k0 = _
      rw [contacts_get_put_other _ _ _ _ (Ne.symm hk).symm.symm]
      exact h u q hq
    · rw [if_neg hc]
      exact h u q hq

theorem layerEmpty_create_reduced (k0 : Layer) (pd : Popdict)
    (g1 g2 : List Nat) (setting : Layer) (d : Nat)
    (pm : Option (List (List Rat))) (g : Rng) (pd' : Popdict) (g' : Rng)
    (hk : setting ≠ k0) (h : LayerAllEmpty k0 pd)
    (hok : create_reduced_contacts_with_group_types pd g1 g2 setting d pm g
      = CRResult.ok pd' g') : LayerAllEmpty k0 pd' := by
  unfold create_reduced_contacts_with_group_types at hok
  by_cases hA : g1.length = 0 ∨ g2.length = 0
  · rw [if_pos hA] at hok
    exact CRResult.noConfusion hok
  · rw [if_neg hA] at hok
    by_cases hB : d < 2
    · rw [if_pos hB] at hok
      exact CRResult.noConfusion hok
    · rw [if_neg hB] at hok
      cases hbuild : crBuildGraph g1 g2 d pm g with
      | none =>
        simp only [hbuild] at hok
        exact CRResult.noConfusion hok
      | some r =>
        simp only [hbuild] at hok
        injection hok with h1 h2
        rw [← h1]
        exact layerEmpty_addEdgelist _ _ _ _ hk
          (layerEmpty_crSetdefault _ _ _ hk h)

theorem layerEmptyW_ltcfPhase (facilities facStaff : List (List Nat))
    (twoGroup : Bool) (deg : Nat) (pd : Popdict) (g : Rng)
    (pr : Popdict × Rng)
    (h : ltcfPhase facilities facStaff twoGroup deg pd g = some pr)
    (hce : LayerAllEmpty Layer.W pd) : LayerAllEmpty Layer.W pr.1 := by
  unfold ltcfPhase at h
  refine foldl_option_preserve _
    (fun pr : Popdict × Rng => LayerAllEmpty Layer.W pr.1)
    (fun a => rfl) _ ?_ _ _ h hce
  intro b e b' _ hstep hb
  obtain ⟨pdb, gb⟩ := b
  simp only [] at hstep
  have hce2 : LayerAllEmpty Layer.W ((facStaff.getD e.1 []).foldl (fun pd u =>
      pdModify pd u (fun p => { p with snf_staff := some 1, snfid := some e.1 }))
      (e.2.foldl (fun pd u =>
        pdModify pd u (fun p => { p with snf_res := some 1, snfid := some e.1 }))
        pdb)) := by
    refine foldl_preserve (LayerAllEmpty Layer.W) _ _ _ ?_ ?_
    · intro pd u _ hp
      exact layerEmpty_pdModify _ _ _ _ (fun p => rfl) hp
    · refine foldl_preserve (LayerAllEmpty Layer.W) _ _ _ ?_ hb
      intro pd u _ hp
      exact layerEmpty_pdModify _ _ _ _ (fun p => rfl) hp
  cases twoGroup with
  | true =>
    simp only [if_pos] at hstep
    cases hcr : create_reduced_contacts_with_group_types
        ((facStaff.getD e.1 []).foldl (fun pd u =>
          pdModify pd u (fun p => { p with snf_staff := some 1, snfid := some e.1 }))
          (e.2.foldl (fun pd u =>
            pdModify pd u (fun p => { p with snf_res := some 1, snfid := some e.1 }))
            pdb)) e.2 (facStaff.getD e.1 []) Layer.LTCF deg none gb with
    | ok pd2 g2 =>
      rw [hcr] at hstep
      injection hstep with hstep
      rw [← hstep]
      exact layerEmpty_create_reduced _ _ _ _ _ _ _ _ _ _ (by simp) hce2 hcr
    | raised msg pd2 =>
      rw [hcr] at hstep
      exact absurd hstep (by simp)
    | stuck =>
      rw [hcr] at hstep
      exact absurd hstep (by simp)
  | false =>
    simp only [Bool.false_eq_true, if_false] at hstep
    injection hstep with hstep
    rw [← hstep]
    refine foldl_preserve (LayerAllEmpty Layer.W) _ _ _ ?_ ?_
    · intro pd u _ hp
      exact layerEmpty_putContacts _ _ _ _ _ (by simp) hp
    · refine foldl_preserve (LayerAllEmpty Layer.W) _ _ _ ?_ hce2
      intro pd u _ hp
      exact layerEmpty_putContacts _ _ _ _ _ (by simp) hp

theorem layerEmptyW_household_school (homes schools teachers : List (List Nat))
    (staffOpt : Option (List (List Nat))) (pd : Popdict)
    (h : LayerAllEmpty Layer.W pd) :
    LayerAllEmpty Layer.W (schoolPhase schools teachers staffOpt
      (householdPhase homes pd)) := by
  have h2 : LayerAllEmpty Layer.W (householdPhase homes pd) := by
    unfold householdPhase
    refine foldl_preserve (LayerAllEmpty Layer.W) _ _ _ ?_ h
    intro pd e _ hp
    refine foldl_preserve (LayerAllEmpty Layer.W) _ _ _ ?_ hp
    intro pd u _ hp2
    exact layerEmpty_pdModify _ _ _ _ (fun p => rfl)
      (layerEmpty_putContacts _ _ _ _ _ (by simp) hp2)
  unfold schoolPhase
  refine foldl_preserve (LayerAllEmpty Layer.W) _ _ _ ?_ h2
  intro pd e _ hp
  refine foldl_preserve (LayerAllEmpty Layer.W) _ _ _ ?_ ?_
  · intro pd u _ hp2
    exact layerEmpty_pdModify _ _ _ _ (fun p => rfl) hp2
  refine foldl_preserve (LayerAllEmpty Layer.W) _ _ _ ?_ ?_
  · intro pd u _ hp2
    exact layerEmpty_pdModify _ _ _ _ (fun p => rfl) hp2
  refine foldl_preserve (LayerAllEmpty Layer.W) _ _ _ ?_ ?_
  · intro pd u _ hp2
    exact layerEmpty_pdModify _ _ _ _ (fun p => rfl) hp2
  exact layerEmpty_addEdgelist _ _ _ _ (by simp) hp

theorem cGet_of_layerEmpty (k0 : Layer) (pd : Popdict)
    (h : LayerAllEmpty k0 pd) (z : Nat) : cGet pd k0 z = [] := by
  cases hp : pdGet pd z with
  | none => exact cGet_of_pdGet_none _ _ _ hp
  | some p =>
    rw [cGet_of_pdGet_some _ _ _ _ hp, h z p hp]
    rfl

theorem pdGet_isSome_of_mem_keys (pd : Popdict) (u : Nat)
    (h : u ∈ pd.map Prod.fst) : ∃ p, pdGet pd u = some p := by
  induction pd with
  | nil => simp at h
  | cons e t ih =>
    rw [List.map_cons, List.mem_cons] at h
    by_cases he : e.1 = u
    · exact ⟨e.2, by rw [pdGet_cons, if_pos he]⟩
    · rcases h with h | h
      · exact absurd h.symm he
      · obtain ⟨p, hp⟩ := ih h
        exact ⟨p, by rw [pdGet_cons, if_neg he]; exact hp⟩

theorem hasLayer_of_layerEmpty (k0 : Layer) (pd : Popdict)
    (h : LayerAllEmpty k0 pd) (u : Nat) (hu : u ∈ pd.map Prod.fst) :
    HasLayer pd k0 u := by
  obtain ⟨p, hp⟩ := pdGet_isSome_of_mem_keys pd u hu
  exact ⟨p, hp, by rw [h u p hp]; simp⟩

/-!
## The trimmed workplace phase (C8)
-/

theorem pdModify_keys (pd : Popdict) (u : Nat) (f : Person → Person) :
    (pdModify pd u f).map Prod.fst = pd.map Prod.fst := by
  unfold pdModify
  rw [List.map_map]
  refine List.map_congr_left ?_
  intro e _
  by_cases h : e.1 = u <;> simp [h]

theorem putContacts_keys (pd : Popdict) (k : Layer) (a : Nat) (s : List Nat) :
    (putContacts pd k a s).map Prod.fst = pd.map Prod.fst := pdModify_keys _ _ _

theorem addContact_keys (pd : Popdict) (k : Layer) (a b : Nat) :
    (addContact pd k a b).map Prod.fst = pd.map Prod.fst := pdModify_keys _ _ _

theorem cGet_putContacts_self_eq (pd : Popdict) (k : Layer) (a : Nat)
    (s : List Nat) (p : Person) (hp : pdGet pd a = some p) :
    cGet (putContacts pd k a s) k a = s := by
  have hp2 : pdGet (putContacts pd k a s) a =
      some { p with contacts := p.contacts.put k (some s) } := by
    unfold putContacts
    rw [pdGet_modify_self, hp]
    rfl
  rw [cGet_of_pdGet_some _ _ _ _ hp2]
  show ((p.contacts.put k (some s)).get k).getD [] = s
  rw [contacts_get_put_self]
  rfl

theorem putContacts_hasLayer (pd : Popdict) (k : Layer) (a x : Nat)
    (s : List Nat) (h : HasLayer pd k x) : HasLayer (putContacts pd k a s) k x := by
  obtain ⟨p, hp, hk⟩ := h
  by_cases hx : x = a
  · subst hx
    refine ⟨{ p with contacts := p.contacts.put k (some s) }, ?_, ?_⟩
    · unfold putContacts
      rw [pdGet_modify_self, hp]
      rfl
    · show (p.contacts.put k (some s)).get k ≠ none
      rw [contacts_get_put_self]
      simp
  · refine ⟨p, ?_, hk⟩
    unfold putContacts
    rw [pdGet_modify_other _ _ _ _ hx]
    exact hp

theorem pdModify_flags_hasLayer (pd : Popdict) (u x : Nat) (k : Layer)
    (f : Person → Person) (hf : ∀ p, (f p).contacts = p.contacts)
    (h : HasLayer pd k x) : HasLayer (pdModify pd u f) k x := by
  obtain ⟨p, hp, hk⟩ := h
  by_cases hx : x = u
  · subst hx
    refine ⟨f p, ?_, ?_⟩
    · rw [pdGet_modify_self, hp]
      rfl
    · rw [hf p]
      exact hk
  · refine ⟨p, ?_, hk⟩
    rw [pdGet_modify_other _ _ _ _ hx]
    exact hp

theorem sampleNoReplace_length (k : Nat) :
    ∀ (l : List Nat) (g : Rng), (sampleNoReplace k l g).1.length ≤ k := by
  induction k with
  | zero => intro l g; simp [sampleNoReplace]
  | succ k ih =>
    intro l g
    unfold sampleNoReplace
    by_cases hl : l.isEmpty
    · rw [if_pos hl]
      simp
    · rw [if_neg hl]
      simpa using Nat.succ_le_succ (ih _ _)

theorem getD_not_mem_eraseIdx (l : List Nat) :
    ∀ (i : Nat), l.Nodup → i < l.length → l.getD i 0 ∉ l.eraseIdx i := by
  induction l with
  | nil => intro i _ h; simp at h
  | cons x xs ih =>
    intro i hnd hi
    cases i with
    | zero =>
      simp only [List.getD_cons_zero, List.eraseIdx_cons_zero]
      exact (List.nodup_cons.mp hnd).1
    | succ j =>
      simp only [List.getD_cons_succ, List.eraseIdx_cons_succ, List.mem_cons]
      push_neg
      constructor
      · intro he
        exact (List.nodup_cons.mp hnd).1
          (he ▸ getD_mem_of_lt xs j 0 (by simpa using hi))
      · exact ih j (List.nodup_cons.mp hnd).2 (by simpa using hi)

theorem sampleNoReplace_nodup (k : Nat) :
    ∀ (l : List Nat) (g : Rng), l.Nodup → (sampleNoReplace k l g).1.Nodup := by
  induction k with
  | zero => intro l g _; simp [sampleNoReplace]
  | succ k ih =>
    intro l g hnd
    unfold sampleNoReplace
    by_cases hl : l.isEmpty
    · rw [if_pos hl]
      simp
    · rw [if_neg hl]
      have hne : l ≠ [] := fun hh => hl (by rw [hh]; rfl)
      refine List.nodup_cons.mpr ⟨?_, ih _ _ (List.Nodup.eraseIdx _ hnd)⟩
      intro hm
      exact getD_not_mem_eraseIdx l _ hnd
        (randNat_lt g l.length (List.length_pos.mpr hne))
        (sampleNoReplace_subset _ _ _ hm)


/-- What the trimmed workplace phase guarantees about the one-sided
outgoing workplace contact sets. -/
theorem workplaceTrimPhase_spec (workplaces : List (List Nat)) (cap : Nat)
    (pd : Popdict) (g : Rng)
    (hW : LayerAllEmpty Layer.W pd)
    (hwp : ∀ wp ∈ workplaces, ∀ x ∈ wp, x ∈ pd.map Prod.fst) :
    (workplaceTrimPhase workplaces cap pd g).1.map Prod.fst = pd.map Prod.fst ∧
    (∀ u ∈ pd.map Prod.fst,
      HasLayer (workplaceTrimPhase workplaces cap pd g).1 Layer.W u) ∧
    (∀ z, (cGet (workplaceTrimPhase workplaces cap pd g).1 Layer.W z).length
      ≤ cap / 2) ∧
    (∀ z, (cGet (workplaceTrimPhase workplaces cap pd g).1 Layer.W z).Nodup) ∧
    (∀ z w, w ∈ cGet (workplaceTrimPhase workplaces cap pd g).1 Layer.W z →
      ∃ wp ∈ workplaces, z ∈ wp ∧ w ∈ wp ∧ w ≠ z) := by
  unfold workplaceTrimPhase
  refine foldl_preserve (fun pr : Popdict × Rng =>
    pr.1.map Prod.fst = pd.map Prod.fst ∧
    (∀ u ∈ pd.map Prod.fst, HasLayer pr.1 Layer.W u) ∧
    (∀ z, (cGet pr.1 Layer.W z).length ≤ cap / 2) ∧
    (∀ z, (cGet pr.1 Layer.W z).Nodup) ∧
    (∀ z w, w ∈ cGet pr.1 Layer.W z →
      ∃ wp ∈ workplaces, z ∈ wp ∧ w ∈ wp ∧ w ≠ z)) _ _ _ ?_ ?_
  · intro pr e he hp
    have hewp : e.2 ∈ workplaces := List.snd_mem_of_mem_enum he
    refine foldl_preserve (fun pr : Popdict × Rng =>
      pr.1.map Prod.fst = pd.map Prod.fst ∧
      (∀ u ∈ pd.map Prod.fst, HasLayer pr.1 Layer.W u) ∧
      (∀ z, (cGet pr.1 Layer.W z).length ≤ cap / 2) ∧
      (∀ z, (cGet pr.1 Layer.W z).Nodup) ∧
      (∀ z w, w ∈ cGet pr.1 Layer.W z →
        ∃ wp ∈ workplaces, z ∈ wp ∧ w ∈ wp ∧ w ≠ z)) _ _ _ ?_ hp
    intro pr2 u hu hp2
    obtain ⟨hk2, hh2, hl2, hnd2, hm2⟩ := hp2
    have huk : u ∈ pd.map Prod.fst := hwp _ hewp _ hu
    obtain ⟨p2, hp2get⟩ := pdGet_isSome_of_mem_keys pr2.1 u (by rw [hk2]; exact huk)
    have hdnodup : ((e.2.dedup).erase u).Nodup :=
      List.Nodup.erase _ (List.nodup_dedup _)
    have hdrawn_sub : (if cap / 2 < ((e.2.dedup).erase u).length
        then sampleNoReplace (cap / 2) ((e.2.dedup).erase u) pr2.2
        else ((e.2.dedup).erase u, pr2.2)).1 ⊆ (e.2.dedup).erase u := by
      by_cases hc : cap / 2 < ((e.2.dedup).erase u).length
      · rw [if_pos hc]
        exact sampleNoReplace_subset _ _ _
      · rw [if_neg hc]
        exact fun x hx => hx
    have hdrawn_len : (if cap / 2 < ((e.2.dedup).erase u).length
        then sampleNoReplace (cap / 2) ((e.2.dedup).erase u) pr2.2
        else ((e.2.dedup).erase u, pr2.2)).1.length ≤ cap / 2 := by
      by_cases hc : cap / 2 < ((e.2.dedup).erase u).length
      · rw [if_pos hc]
        exact sampleNoReplace_length _ _ _
      · rw [if_neg hc]
        exact le_of_not_lt hc
    have hdrawn_nd : (if cap / 2 < ((e.2.dedup).erase u).length
        then sampleNoReplace (cap / 2) ((e.2.dedup).erase u) pr2.2
        else ((e.2.dedup).erase u, pr2.2)).1.Nodup := by
      by_cases hc : cap / 2 < ((e.2.dedup).erase u).length
      · rw [if_pos hc]
        exact sampleNoReplace_nodup _ _ _ hdnodup
      · rw [if_neg hc]
        exact hdnodup
    simp only []
    constructor
    · rw [pdModify_keys, putContacts_keys]
      exact hk2
    refine ⟨?_, ?_, ?_, ?_⟩
    · intro x hx
      exact pdModify_flags_hasLayer _ _ _ _ _ (fun p => rfl)
        (putContacts_hasLayer _ _ _ _ _ (hh2 x hx))
    · intro z
      rw [cGet_pdModify_flags _ _ _ _
        (fun p => { p with wpid := some e.1 }) (fun p => rfl)]
      by_cases hz : z = u
      · subst hz
        rw [cGet_putContacts_self_eq _ _ _ _ _ hp2get]
        exact hdrawn_len
      · rw [cGet_putContacts_other_person _ _ _ _ _ _ hz]
        exact hl2 z
    · intro z
      rw [cGet_pdModify_flags _ _ _ _
        (fun p => { p with wpid := some e.1 }) (fun p => rfl)]
      by_cases hz : z = u
      · subst hz
        rw [cGet_putContacts_self_eq _ _ _ _ _ hp2get]
        exact hdrawn_nd
      · rw [cGet_putContacts_other_person _ _ _ _ _ _ hz]
        exact hnd2 z
    · intro z w hw
      rw [cGet_pdModify_flags _ _ _ _
        (fun p => { p with wpid := some e.1 }) (fun p => rfl)] at hw
      by_cases hz : z = u
      · subst hz
        rw [cGet_putContacts_self_eq _ _ _ _ _ hp2get] at hw
        have hwe := hdrawn_sub hw
        have hw2 := (List.Nodup.mem_erase_iff (List.nodup_dedup _)).mp hwe
        exact ⟨e.2, hewp, hu, List.mem_dedup.mp hw2.2, hw2.1⟩
      · rw [cGet_putContacts_other_person _ _ _ _ _ _ hz] at hw
        exact hm2 z w hw
  · refine ⟨rfl, ?_, ?_, ?_, ?_⟩
    · intro u hu
      exact hasLayer_of_layerEmpty _ _ hW u hu
    · intro z
      rw [cGet_of_layerEmpty _ _ hW]
      simp
    · intro z
      rw [cGet_of_layerEmpty _ _ hW]
      simp
    · intro z w hw
      rw [cGet_of_layerEmpty _ _ hW] at hw
      simp at hw

/-!
## The symmetric-repair pass adds exactly the reverse edges (C8)
-/

theorem cGet_addContact_self_iff (pd : Popdict) (k : Layer) (a b : Nat)
    (ha : HasLayer pd k a) (w : Nat) :
    w ∈ cGet (addContact pd k a b) k a ↔ (w ∈ cGet pd k a ∨ w = b) := by
  constructor
  · exact cGet_addContact_same pd k a b w
  · intro h
    rcases h with h | h
    · exact cGet_addContact_mono _ _ _ _ _ _ h
    · rw [h]
      exact cGet_addContact_self _ _ _ _ ha

theorem pairing_inner_keys (y : Nat) (cs : List Nat) :
    ∀ (pd : Popdict),
    (cs.foldl (fun pd c => addContact pd Layer.W c y) pd).map Prod.fst
      = pd.map Prod.fst := by
  induction cs with
  | nil => intro pd; rfl
  | cons c t ih =>
    intro pd
    rw [List.foldl_cons, ih, addContact_keys]

theorem pairing_inner_hasLayer (y : Nat) (cs : List Nat) (pd : Popdict)
    (u : Nat) (h : HasLayer pd Layer.W u) :
    HasLayer (cs.foldl (fun pd c => addContact pd Layer.W c y) pd) Layer.W u := by
  refine foldl_preserve (fun pd => HasLayer pd Layer.W u) _ _ _ ?_ h
  intro pd c _ hp
  exact addContact_hasLayer _ _ _ _ _ hp

theorem pairingStep_mem (y : Nat) :
    ∀ (cs : List Nat) (pd : Popdict), (∀ c ∈ cs, HasLayer pd Layer.W c) →
    ∀ x v, (v ∈ cGet (cs.foldl (fun pd c => addContact pd Layer.W c y) pd)
        Layer.W x ↔
      (v ∈ cGet pd Layer.W x ∨ (x ∈ cs ∧ v = y))) := by
  intro cs
  induction cs with
  | nil =>
    intro pd _ x v
    simp
  | cons c t ih =>
    intro pd hcs x v
    rw [List.foldl_cons]
    have hct : ∀ c' ∈ t, HasLayer (addContact pd Layer.W c y) Layer.W c' :=
      fun c' hc' =>
        addContact_hasLayer _ _ _ _ _ (hcs c' (List.mem_cons_of_mem _ hc'))
    rw [ih _ hct x v]
    by_cases hx : x = c
    · subst hx
      rw [cGet_addContact_self_iff _ _ _ _ (hcs x (List.mem_cons_self _ _)) v]
      constructor
      · rintro ((h | h) | ⟨hxt, rfl⟩)
        · exact Or.inl h
        · exact Or.inr ⟨List.mem_cons_self _ _, h⟩
        · exact Or.inr ⟨List.mem_cons_self _ _, rfl⟩
      · rintro (h | ⟨hmem, rfl⟩)
        · exact Or.inl (Or.inl h)
        · exact Or.inl (Or.inr rfl)
    · rw [cGet_addContact_other_person _ _ _ _ _ _ hx]
      constructor
      · rintro (h | ⟨hxt, rfl⟩)
        · exact Or.inl h
        · exact Or.inr ⟨List.mem_cons_of_mem _ hxt, rfl⟩
      · rintro (h | ⟨hmem, rfl⟩)
        · exact Or.inl h
        · rcases List.mem_cons.mp hmem with h1 | h1
          · exact absurd h1 hx
          · exact Or.inr ⟨h1, rfl⟩

theorem pairingFold_mem :
    ∀ (L : List Nat) (pd : Popdict),
    (∀ y ∈ L, y ∈ pd.map Prod.fst) →
    (∀ z w, w ∈ cGet pd Layer.W z → w ∈ pd.map Prod.fst) →
    (∀ u ∈ pd.map Prod.fst, HasLayer pd Layer.W u) →
    ∀ x v, (v ∈ cGet (L.foldl (fun pd y => (cGet pd Layer.W y).foldl
        (fun pd c => addContact pd Layer.W c y) pd) pd) Layer.W x ↔
      (v ∈ cGet pd Layer.W x ∨ (v ∈ L ∧ x ∈ cGet pd Layer.W v))) := by
  intro L
  induction L with
  | nil =>
    intro pd _ _ _ x v
    simp
  | cons y L ih =>
    intro pd hL hsub hkeysW x v
    rw [List.foldl_cons]
    have hstep : ∀ x v, v ∈ cGet ((cGet pd Layer.W y).foldl
        (fun pd c => addContact pd Layer.W c y) pd) Layer.W x ↔
        (v ∈ cGet pd Layer.W x ∨ (x ∈ cGet pd Layer.W y ∧ v = y)) := by
      intro x v
      exact pairingStep_mem y _ pd (fun c hc => hkeysW c (hsub _ _ hc)) x v
    have hkeys1 : ((cGet pd Layer.W y).foldl
        (fun pd c => addContact pd Layer.W c y) pd).map Prod.fst
        = pd.map Prod.fst := pairing_inner_keys _ _ _
    rw [ih _ ?_ ?_ ?_ x v]
    · rw [hstep x v]
      constructor
      · rintro ((h | ⟨hxy, rfl⟩) | ⟨hvL, hx1⟩)
        · exact Or.inl h
        · exact Or.inr ⟨List.mem_cons_self _ _, hxy⟩
        · rcases (hstep v x).mp hx1 with h2 | ⟨hvy, rfl⟩
          · exact Or.inr ⟨List.mem_cons_of_mem _ hvL, h2⟩
          · exact Or.inl hvy
      · rintro (h | ⟨hmem, hx2⟩)
        · exact Or.inl (Or.inl h)
        · rcases List.mem_cons.mp hmem with rfl | h1
          · exact Or.inl (Or.inr ⟨hx2, rfl⟩)
          · exact Or.inr ⟨h1, (hstep v x).mpr (Or.inl hx2)⟩
    · intro z hz
      rw [hkeys1]
      exact hL z (List.mem_cons_of_mem _ hz)
    · intro z w hw
      rw [hkeys1]
      rcases (hstep z w).mp hw with h | ⟨_, rfl⟩
      · exact hsub z w h
      · exact hL w (List.mem_cons_self _ _)
    · intro u hu
      rw [hkeys1] at hu
      exact pairing_inner_hasLayer _ _ _ _ (hkeysW u hu)

/-- The symmetric-repair pass puts `v` among `x`'s workplace contacts
exactly when the edge was sampled in either direction. -/
theorem pairingPass_mem (pd : Popdict)
    (hsub : ∀ z w, w ∈ cGet pd Layer.W z → w ∈ pd.map Prod.fst)
    (hkeysW : ∀ u ∈ pd.map Prod.fst, HasLayer pd Layer.W u) :
    ∀ x v, (v ∈ cGet (pairingPass pd) Layer.W x ↔
      (v ∈ cGet pd Layer.W x ∨
        (v ∈ pd.map Prod.fst ∧ x ∈ cGet pd Layer.W v))) := by
  intro x v
  unfold pairingPass
  exact pairingFold_mem _ pd (fun y hy => hy) hsub hkeysW x v

/-!
## The popdict key list is stable across the phases
-/

theorem crSetdefault_keys (pd : Popdict) (setting : Layer) :
    (crSetdefault pd setting).map Prod.fst = pd.map Prod.fst := by
  unfold crSetdefault
  rw [List.map_map]
  exact List.map_congr_left (fun e _ => rfl)

theorem addEdgelist_keys (pd : Popdict) (k : Layer) (es : List (Nat × Nat)) :
    (addEdgelist pd k es).map Prod.fst = pd.map Prod.fst := by
  induction es generalizing pd with
  | nil => rfl
  | cons e t ih =>
    rw [addEdgelist_cons, ih, addContact_keys, addContact_keys]

theorem create_reduced_keys (pd : Popdict) (g1 g2 : List Nat)
    (setting : Layer) (d : Nat) (pm : Option (List (List Rat))) (g : Rng)
    (pd' : Popdict) (g' : Rng)
    (hok : create_reduced_contacts_with_group_types pd g1 g2 setting d pm g
      = CRResult.ok pd' g') : pd'.map Prod.fst = pd.map Prod.fst := by
  unfold create_reduced_contacts_with_group_types at hok
  by_cases hA : g1.length = 0 ∨ g2.length = 0
  · rw [if_pos hA] at hok
    exact CRResult.noConfusion hok
  · rw [if_neg hA] at hok
    by_cases hB : d < 2
    · rw [if_pos hB] at hok
      exact CRResult.noConfusion hok
    · rw [if_neg hB] at hok
      cases hbuild : crBuildGraph g1 g2 d pm g with
      | none =>
        simp only [hbuild] at hok
        exact CRResult.noConfusion hok
      | some r =>
        simp only [hbuild] at hok
        injection hok with h1 h2
        rw [← h1, addEdgelist_keys, crSetdefault_keys]

theorem ltcfPhase_keys (facilities facStaff : List (List Nat))
    (twoGroup : Bool) (deg : Nat) (pd : Popdict) (g : Rng)
    (pr : Popdict × Rng)
    (h : ltcfPhase facilities facStaff twoGroup deg pd g = some pr) :
    pr.1.map Prod.fst = pd.map Prod.fst := by
  unfold ltcfPhase at h
  refine foldl_option_preserve _
    (fun pr : Popdict × Rng => pr.1.map Prod.fst = pd.map Prod.fst)
    (fun a => rfl) _ ?_ _ _ h rfl
  intro b e b' _ hstep hb
  obtain ⟨pdb, gb⟩ := b
  simp only [] at hstep
  have hk2 : ((facStaff.getD e.1 []).foldl (fun pd u =>
      pdModify pd u (fun p => { p with snf_staff := some 1, snfid := some e.1 }))
      (e.2.foldl (fun pd u =>
        pdModify pd u (fun p => { p with snf_res := some 1, snfid := some e.1 }))
        pdb)).map Prod.fst = pd.map Prod.fst := by
    rw [show ∀ (l : List Nat) (pdx : Popdict) (f : Nat → Person → Person),
        (l.foldl (fun pd u => pdModify pd u (f u)) pdx).map Prod.fst
          = pdx.map Prod.fst from ?_, show ∀ (l : List Nat) (pdx : Popdict)
            (f : Nat → Person → Person),
        (l.foldl (fun pd u => pdModify pd u (f u)) pdx).map Prod.fst
          = pdx.map Prod.fst from ?_, hb]
    all_goals
      intro l
      induction l with
      | nil => intro pdx f; rfl
      | cons a t ih => intro pdx f; rw [List.foldl_cons, ih, pdModify_keys]
  cases twoGroup with
  | true =>
    simp only [if_pos] at hstep
    cases hcr : create_reduced_contacts_with_group_types
        ((facStaff.getD e.1 []).foldl (fun pd u =>
          pdModify pd u (fun p => { p with snf_staff := some 1, snfid := some e.1 }))
          (e.2.foldl (fun pd u =>
            pdModify pd u (fun p => { p with snf_res := some 1, snfid := some e.1 }))
            pdb)) e.2 (facStaff.getD e.1 []) Layer.LTCF deg none gb with
    | ok pd2 g2 =>
      rw [hcr] at hstep
      injection hstep with hstep
      rw [← hstep]
      rw [create_reduced_keys _ _ _ _ _ _ _ _ _ hcr]
      exact hk2
    | raised msg pd2 =>
      rw [hcr] at hstep
      exact absurd hstep (by simp)
    | stuck =>
      rw [hcr] at hstep
      exact absurd hstep (by simp)
  | false =>
    simp only [Bool.false_eq_true, if_false] at hstep
    injection hstep with hstep
    rw [← hstep]
    rw [show ∀ (l : List Nat) (pdx : Popdict) (s : Nat → List Nat),
        (l.foldl (fun pd u => putContacts pd Layer.LTCF u (s u)) pdx).map Prod.fst
          = pdx.map Prod.fst from ?_, show ∀ (l : List Nat) (pdx : Popdict)
            (s : Nat → List Nat),
        (l.foldl (fun pd u => putContacts pd Layer.LTCF u (s u)) pdx).map Prod.fst
          = pdx.map Prod.fst from ?_, hk2]
    all_goals
      intro l
      induction l with
      | nil => intro pdx s; rfl
      | cons a t ih => intro pdx s; rw [List.foldl_cons, ih, putContacts_keys]

theorem householdPhase_keys (homes : List (List Nat)) (pd : Popdict) :
    (householdPhase homes pd).map Prod.fst = pd.map Prod.fst := by
  unfold householdPhase
  refine foldl_preserve (fun pdx : Popdict => pdx.map Prod.fst = pd.map Prod.fst)
    _ _ _ ?_ rfl
  intro pdx e _ hp
  refine foldl_preserve (fun pdx : Popdict => pdx.map Prod.fst = pd.map Prod.fst)
    _ _ _ ?_ hp
  intro pdy u _ hp2
  rw [pdModify_keys, putContacts_keys]
  exact hp2

theorem schoolPhase_keys (schools teachers : List (List Nat))
    (staffOpt : Option (List (List Nat))) (pd : Popdict) :
    (schoolPhase schools teachers staffOpt pd).map Prod.fst = pd.map Prod.fst := by
  unfold schoolPhase
  refine foldl_preserve (fun pdx : Popdict => pdx.map Prod.fst = pd.map Prod.fst)
    _ _ _ ?_ rfl
  intro pdx e _ hp
  refine foldl_preserve (fun pdx : Popdict => pdx.map Prod.fst = pd.map Prod.fst)
    _ _ _ ?_ ?_
  · intro pdy u _ hp2
    rw [pdModify_keys]
    exact hp2
  refine foldl_preserve (fun pdx : Popdict => pdx.map Prod.fst = pd.map Prod.fst)
    _ _ _ ?_ ?_
  · intro pdy u _ hp2
    rw [pdModify_keys]
    exact hp2
  refine foldl_preserve (fun pdx : Popdict => pdx.map Prod.fst = pd.map Prod.fst)
    _ _ _ ?_ ?_
  · intro pdy u _ hp2
    rw [pdModify_keys]
    exact hp2
  show (addEdgelist _ _ _).map Prod.fst = _
  rw [addEdgelist_keys]
  exact hp

theorem initPopdict_keys (age_by_uid : List (Nat × Nat)) (sexes : List Nat)
    (b : Bool) :
    (initPopdict age_by_uid sexes b).map Prod.fst = age_by_uid.map Prod.fst := by
  unfold initPopdict
  rw [List.map_map]
  have h1 : (Prod.fst ∘ fun e : Nat × (Nat × Nat) =>
      (e.2.1, initPerson e.2.2 (sexes.getD e.1 0) b)) = (Prod.fst ∘ Prod.snd) := rfl
  rw [h1, ← List.map_map, List.enum_map_snd]

theorem cGet_addContact_nodup (pd : Popdict) (k : Layer) (a b : Nat)
    (h : ∀ z, (cGet pd k z).Nodup) (z : Nat) :
    (cGet (addContact pd k a b) k z).Nodup := by
  by_cases hz : z = a
  · subst hz
    cases hp : pdGet pd z with
    | none =>
      unfold cGet addContact
      rw [pdGet_modify_self, hp]
      simp
    | some p =>
      cases hgk : p.contacts.get k with
      | none =>
        rw [cGet_of_pdGet_some _ _ _ _
          (pdGet_addContact_of_none _ _ _ _ _ _ hp rfl hgk), hgk]
        simp
      | some s =>
        rw [cGet_of_pdGet_some _ _ _ _
          (pdGet_addContact_of_some _ _ _ _ _ _ _ hp rfl hgk)]
        have hs : s.Nodup := by
          have := h z
          rw [cGet_of_pdGet_some _ _ _ _ hp, hgk] at this
          exact this
        show ((p.contacts.put k (some (s.insert b))).get k).getD [] |>.Nodup
        rw [contacts_get_put_self]
        exact List.Nodup.insert hs
  · rw [cGet_addContact_other_person _ _ _ _ _ _ hz]
    exact h z

theorem pairingPass_nodup (pd : Popdict) (h : ∀ z, (cGet pd Layer.W z).Nodup) :
    ∀ z, (cGet (pairingPass pd) Layer.W z).Nodup := by
  unfold pairingPass
  refine foldl_preserve (fun pd : Popdict => ∀ z, (cGet pd Layer.W z).Nodup)
    _ _ _ ?_ h
  intro pdx u _ hp
  refine foldl_preserve (fun pd : Popdict => ∀ z, (cGet pd Layer.W z).Nodup)
    _ _ _ ?_ hp
  intro pdy c _ hp2
  exact cGet_addContact_nodup _ _ _ _ hp2

/-- C8: with a workplace contact cap `c` configured,
`make_contacts_from_microstructure_objects` samples for each person at
most `⌊c/2⌋` co-members as one-sided outgoing workplace contacts, then the
repair pass adds exactly the reverse edge of every kept edge, so the final
workplace contact relation is symmetric; in particular with workplaces of
5 people and cap 4 no person's final workplace degree exceeds 4. -/
theorem workplace_cap_symmetric_repair
    (age_by_uid : List (Nat × Nat)) (homes : List (List Nat))
    (schools teachers : List (List Nat)) (staffOpt : Option (List (List Nat)))
    (workplaces : List (List Nat)) (facilitiesOpt : Option (List (List Nat)))
    (facStaff : List (List Nat)) (twoGroup : Bool) (ltcfDeg : Nat)
    (cap : Nat) (g : Rng) (pd : Popdict) (gf : Rng)
    (hwpk : ∀ wp ∈ workplaces, ∀ x ∈ wp, x ∈ age_by_uid.map Prod.fst)
    (hdisj : ∀ w1 ∈ workplaces, ∀ w2 ∈ workplaces,
      (∃ x, x ∈ w1 ∧ x ∈ w2) → w1 = w2)
    (hmk : make_contacts_from_microstructure_objects age_by_uid homes schools
      teachers staffOpt workplaces facilitiesOpt facStaff twoGroup ltcfDeg
      (some cap) g = some (pd, gf)) :
    (∃ pdW, pd = pairingPass pdW ∧
      (∀ z, (cGet pdW Layer.W z).length ≤ cap / 2) ∧
      (∀ x v, v ∈ cGet pd Layer.W x ↔
        (v ∈ cGet pdW Layer.W x ∨
          (v ∈ pdW.map Prod.fst ∧ x ∈ cGet pdW Layer.W v)))) ∧
    (∀ u v, v ∈ cGet pd Layer.W u ↔ u ∈ cGet pd Layer.W v) ∧
    (cap = 4 → (∀ wp ∈ workplaces, wp.length = 5) →
      ∀ u, (cGet pd Layer.W u).length ≤ 4) := by
  obtain ⟨pdBase, g2, hWBase, hkBase, hpd⟩ :
      ∃ pdBase g2, LayerAllEmpty Layer.W pdBase ∧
        pdBase.map Prod.fst = age_by_uid.map Prod.fst ∧
        pd = (assembleRest homes schools teachers staffOpt workplaces
          (some cap) pdBase g2).1 := by
    unfold make_contacts_from_microstructure_objects at hmk
    cases facilitiesOpt with
    | none =>
      simp only [] at hmk
      injection hmk with hmk
      refine ⟨initPopdict age_by_uid (drawSexes age_by_uid.length g).1
          (none : Option (List (List Nat))).isSome,
        (drawSexes age_by_uid.length g).2,
        layerEmptyW_initPopdict _ _ _, initPopdict_keys _ _ _, ?_⟩
      rw [hmk]
    | some facilities =>
      simp only [] at hmk
      cases hltcf : ltcfPhase facilities facStaff twoGroup ltcfDeg
          (initPopdict age_by_uid (drawSexes age_by_uid.length g).1
            (some facilities : Option (List (List Nat))).isSome)
          (drawSexes age_by_uid.length g).2 with
      | none =>
        rw [hltcf] at hmk
        exact absurd hmk (by simp)
      | some pr =>
        rw [hltcf] at hmk
        injection hmk with hmk
        refine ⟨pr.1, pr.2, layerEmptyW_ltcfPhase _ _ _ _ _ _ _ hltcf
            (layerEmptyW_initPopdict _ _ _), ?_, ?_⟩
        · rw [ltcfPhase_keys _ _ _ _ _ _ _ hltcf, initPopdict_keys]
        · rw [hmk]
  have hW3 : LayerAllEmpty Layer.W (schoolPhase schools teachers staffOpt
      (householdPhase homes pdBase)) :=
    layerEmptyW_household_school _ _ _ _ _ hWBase
  have hk3 : (schoolPhase schools teachers staffOpt
      (householdPhase homes pdBase)).map Prod.fst = age_by_uid.map Prod.fst := by
    rw [schoolPhase_keys, householdPhase_keys, hkBase]
  have hwp3 : ∀ wp ∈ workplaces, ∀ x ∈ wp,
      x ∈ (schoolPhase schools teachers staffOpt
        (householdPhase homes pdBase)).map Prod.fst := by
    intro wp hwp x hx
    rw [hk3]
    exact hwpk wp hwp x hx
  obtain ⟨hk4, hH4, hl4, hnd4, hm4⟩ :=
    workplaceTrimPhase_spec workplaces cap
      (schoolPhase schools teachers staffOpt (householdPhase homes pdBase))
      g2 hW3 hwp3
  have hpdW : pd = pairingPass (workplaceTrimPhase workplaces cap
      (schoolPhase schools teachers staffOpt (householdPhase homes pdBase))
      g2).1 := hpd
  have hends4 : ∀ z w, w ∈ cGet (workplaceTrimPhase workplaces cap
      (schoolPhase schools teachers staffOpt (householdPhase homes pdBase))
      g2).1 Layer.W z → w ∈ (workplaceTrimPhase workplaces cap
      (schoolPhase schools teachers staffOpt (householdPhase homes pdBase))
      g2).1.map Prod.fst ∧ z ∈ (workplaceTrimPhase workplaces cap
      (schoolPhase schools teachers staffOpt (householdPhase homes pdBase))
      g2).1.map Prod.fst := by
    intro z w hw
    obtain ⟨wp, hwpm, hzm, hwm, _⟩ := hm4 z w hw
    rw [hk4]
    exact ⟨hwp3 wp hwpm w hwm, hwp3 wp hwpm z hzm⟩
  have hsub4 : ∀ z w, w ∈ cGet (workplaceTrimPhase workplaces cap
      (schoolPhase schools teachers staffOpt (householdPhase homes pdBase))
      g2).1 Layer.W z → w ∈ (workplaceTrimPhase workplaces cap
      (schoolPhase schools teachers staffOpt (householdPhase homes pdBase))
      g2).1.map Prod.fst :=
    fun z w hw => (hends4 z w hw).1
  have hkeysW4 : ∀ u ∈ (workplaceTrimPhase workplaces cap
      (schoolPhase schools teachers staffOpt (householdPhase homes pdBase))
      g2).1.map Prod.fst, HasLayer (workplaceTrimPhase workplaces cap
      (schoolPhase schools teachers staffOpt (householdPhase homes pdBase))
      g2).1 Layer.W u := by
    intro u hu
    rw [hk4] at hu
    exact hH4 u hu
  have hform := pairingPass_mem _ hsub4 hkeysW4
  have hformPd : ∀ x v, v ∈ cGet pd Layer.W x ↔
      (v ∈ cGet (workplaceTrimPhase workplaces cap
        (schoolPhase schools teachers staffOpt (householdPhase homes pdBase))
        g2).1 Layer.W x ∨
       (v ∈ (workplaceTrimPhase workplaces cap
        (schoolPhase schools teachers staffOpt (householdPhase homes pdBase))
        g2).1.map Prod.fst ∧ x ∈ cGet (workplaceTrimPhase workplaces cap
        (schoolPhase schools teachers staffOpt (householdPhase homes pdBase))
        g2).1 Layer.W v)) := by
    intro x v
    rw [hpdW]
    exact hform x v
  refine ⟨⟨_, hpdW, hl4, hformPd⟩, ?_, ?_⟩
  · intro u v
    rw [hformPd u v, hformPd v u]
    constructor
    · rintro (h | ⟨hk, h⟩)
      · exact Or.inr ⟨(hends4 u v h).2, h⟩
      · exact Or.inl h
    · rintro (h | ⟨hk, h⟩)
      · exact Or.inr ⟨(hends4 v u h).2, h⟩
      · exact Or.inl h
  · intro hc4 h5 u
    have hall : ∀ v ∈ cGet pd Layer.W u,
        ∃ wp ∈ workplaces, u ∈ wp ∧ v ∈ wp ∧ v ≠ u := by
      intro v hv
      rcases (hformPd u v).mp hv with h | ⟨_, h⟩
      · exact hm4 u v h
      · obtain ⟨wp, hwpm, hvm, hum, hne⟩ := hm4 v u h
        exact ⟨wp, hwpm, hum, hvm, Ne.symm hne⟩
    have hndf : (cGet pd Layer.W u).Nodup := by
      rw [hpdW]
      exact pairingPass_nodup _ hnd4 u
    by_cases hcge : cGet pd Layer.W u = []
    · rw [hcge]
      simp
    · obtain ⟨v₀, hv₀⟩ := List.exists_mem_of_ne_nil _ hcge
      obtain ⟨wp₀, hwp₀, hu₀, _, _⟩ := hall v₀ hv₀
      have hsubwp : ∀ v ∈ cGet pd Layer.W u, v ∈ wp₀.erase u := by
        intro v hv
        obtain ⟨wp, hwpm, hum, hvm, hne⟩ := hall v hv
        have heq : wp = wp₀ := hdisj wp hwpm wp₀ hwp₀ ⟨u, hum, hu₀⟩
        rw [List.mem_erase_of_ne hne]
        exact heq ▸ hvm
      have hle := List.Subperm.length_le (List.Nodup.subperm hndf hsubwp)
      rw [List.length_erase_of_mem hu₀, h5 wp₀ hwp₀] at hle
      omega

/-!
## Pool accounting for the workplace assignment (C2, C6, C7)

Every member a workplace acquires is popped off one of the per-age uid
pools, so the assigned uids and the remaining pools together form a
permutation of the original pools.
-/

theorem perm_pull (x A C : List Nat) :
    (x ++ (A ++ C)).Perm (A ++ (x ++ C)) := by
  have h2 : ((x ++ A) ++ C).Perm ((A ++ x) ++ C) :=
    List.perm_append_comm.append_right _
  rw [← List.append_assoc, ← List.append_assoc]
  exact h2

theorem flatten_set_decomp (l : List (List Nat)) (a : Nat) (y : List Nat)
    (h : a < l.length) :
    ∃ A B, l.flatten = A ++ l.getD a [] ++ B ∧
      (l.set a y).flatten = A ++ y ++ B := by
  induction l generalizing a with
  | nil => exact absurd h (by simp)
  | cons x t ih =>
    cases a with
    | zero => exact ⟨[], t.flatten, by simp, by simp⟩
    | succ a =>
      obtain ⟨A, B, h1, h2⟩ := ih a (by simpa using h)
      refine ⟨x ++ A, B, ?_, ?_⟩
      · show x ++ t.flatten = (x ++ A) ++ t.getD a [] ++ B
        rw [h1]
        simp [List.append_assoc]
      · show x ++ (t.set a y).flatten = (x ++ A) ++ y ++ B
        rw [h2]
        simp [List.append_assoc]

theorem popAge_perm (pools : List (List Nat)) (counts : List Nat) (a : Nat)
    (uid : Nat) (pools' : List (List Nat)) (counts' : List Nat)
    (h : popAge pools counts a = some (uid, pools', counts')) :
    (uid :: pools'.flatten).Perm pools.flatten := by
  unfold popAge at h
  cases hpl : pools.getD a [] with
  | nil => rw [hpl] at h; exact absurd h (by simp)
  | cons c cs =>
    rw [hpl] at h
    simp only [List.head?_cons, Option.some.injEq, Prod.mk.injEq] at h
    obtain ⟨h1, h2, h3⟩ := h
    subst h1
    have ha : a < pools.length := by
      by_contra hcon
      rw [List.getD_eq_default _ _ (le_of_not_lt hcon)] at hpl
      exact absurd hpl (by simp)
    obtain ⟨A, B, hA, hB⟩ := flatten_set_decomp pools a cs ha
    rw [hpl] at hA
    simp only [List.tail_cons] at h2
    have hpf : pools'.flatten = A ++ cs ++ B := by rw [← h2, hB]
    rw [hpf, hA]
    simp only [List.append_assoc, List.cons_append]
    exact List.perm_middle.symm

theorem drainGo_perm (ages : List Nat) (pools : List (List Nat))
    (counts : List Nat) (ags uds : List Nat) (p' : List (List Nat))
    (c' : List Nat) (h : drainGo ages pools counts = some (ags, uds, p', c')) :
    (uds ++ p'.flatten).Perm pools.flatten := by
  induction ages generalizing pools counts ags uds with
  | nil =>
    unfold drainGo at h
    simp only [Option.some.injEq, Prod.mk.injEq] at h
    obtain ⟨-, h2, h3, -⟩ := h
    subst h2
    subst h3
    simp
  | cons a rest ih =>
    unfold drainGo at h
    by_cases hk : counts.getD a 0 ≤ (pools.getD a []).length
    · rw [if_pos hk] at h
      cases hrec : drainGo rest
          (pools.set a ((pools.getD a []).drop (counts.getD a 0)))
          (counts.set a 0) with
      | none => rw [hrec] at h; exact absurd h (by simp)
      | some r =>
        obtain ⟨ags0, uds0, p0, c0⟩ := r
        rw [hrec] at h
        simp only [Option.some.injEq, Prod.mk.injEq] at h
        obtain ⟨h1, h2, h3, h4⟩ := h
        subst h1
        subst h2
        subst h3
        subst h4
        have ihp := ih _ _ _ _ hrec
        by_cases ha : a < pools.length
        · obtain ⟨A, B, hA, hB⟩ := flatten_set_decomp pools a
            ((pools.getD a []).drop (counts.getD a 0)) ha
          rw [hB] at ihp
          rw [hA]
          have hperm2 : ((pools.getD a []).take (counts.getD a 0) ++
              (uds0 ++ p0.flatten)).Perm
              ((pools.getD a []).take (counts.getD a 0) ++
                (A ++ ((pools.getD a []).drop (counts.getD a 0) ++ B))) :=
            List.Perm.append_left _ (by simpa [List.append_assoc] using ihp)
          have hperm3 := hperm2.trans (perm_pull _ A _)
          have heq : A ++ ((pools.getD a []).take (counts.getD a 0) ++
              ((pools.getD a []).drop (counts.getD a 0) ++ B)) =
              A ++ (pools.getD a [] ++ B) := by
            rw [← List.append_assoc ((pools.getD a []).take (counts.getD a 0))
              ((pools.getD a []).drop (counts.getD a 0)) B,
              List.take_append_drop]
          rw [heq] at hperm3
          simpa [List.append_assoc] using hperm3
        · have hd : pools.getD a [] = [] :=
            List.getD_eq_default _ _ (le_of_not_lt ha)
          have hset : pools.set a ((pools.getD a []).drop (counts.getD a 0))
              = pools := List.set_eq_of_length_le (le_of_not_lt ha)
          rw [hset] at ihp
          have htk : (pools.getD a []).take (counts.getD a 0) = [] := by
            rw [hd]
            exact List.take_nil
          rw [htk]
          simpa using ihp
    · rw [if_neg hk] at h
      exact absurd h (by simp)

theorem getD_set_zero_le (l : List Nat) (a x : Nat) :
    (l.set a 0).getD x 0 ≤ l.getD x 0 := by
  induction l generalizing a x with
  | nil => simp
  | cons c t ih =>
    cases a with
    | zero =>
      cases x with
      | zero => simp
      | succ x => simp
    | succ a =>
      cases x with
      | zero => simp
      | succ x => simpa using ih a x

theorem drainGo_len_le (ages : List Nat) (pools : List (List Nat))
    (counts : List Nat) (ags uds : List Nat) (p' : List (List Nat))
    (c' : List Nat) (h : drainGo ages pools counts = some (ags, uds, p', c')) :
    uds.length ≤ (ages.map (fun a => counts.getD a 0)).sum := by
  induction ages generalizing pools counts ags uds with
  | nil =>
    unfold drainGo at h
    simp only [Option.some.injEq, Prod.mk.injEq] at h
    obtain ⟨-, h2, -, -⟩ := h
    subst h2
    simp
  | cons a rest ih =>
    unfold drainGo at h
    by_cases hk : counts.getD a 0 ≤ (pools.getD a []).length
    · rw [if_pos hk] at h
      cases hrec : drainGo rest
          (pools.set a ((pools.getD a []).drop (counts.getD a 0)))
          (counts.set a 0) with
      | none => rw [hrec] at h; exact absurd h (by simp)
      | some r =>
        obtain ⟨ags0, uds0, p0, c0⟩ := r
        rw [hrec] at h
        simp only [Option.some.injEq, Prod.mk.injEq] at h
        obtain ⟨h1, h2, h3, h4⟩ := h
        subst h1
        subst h2
        subst h3
        subst h4
        have hih := ih _ _ _ _ hrec
        have hmono : (rest.map (fun x => (counts.set a 0).getD x 0)).sum ≤
            (rest.map (fun x => counts.getD x 0)).sum :=
          List.sum_le_sum (fun x _ => getD_set_zero_le counts a x)
        have htake : ((pools.getD a []).take (counts.getD a 0)).length ≤
            counts.getD a 0 := by
          rw [List.length_take]
          exact min_le_left _ _
        simp only [List.map_cons, List.sum_cons, List.length_append]
        omega
    · rw [if_neg hk] at h
      exact absurd h (by simp)

theorem map_getD_range (l : List Nat) :
    (List.range l.length).map (fun a => l.getD a 0) = l := by
  apply List.ext_getElem
  · simp
  · intro i h1 h2
    simp [List.getElem?_eq_getElem h2]

theorem slotStep_poolPerm (ageBrackets : List (List Nat)) (bindex : Nat)
    (bProb : List Rat) (st : AState) (added : Option (Nat × Nat))
    (bp' : List Rat) (st' : AState)
    (h : slotStep ageBrackets bindex bProb st = some (added, bp', st')) :
    ((added.elim [] (fun au => [au.2])) ++ st'.pools.flatten).Perm
      st.pools.flatten := by
  unfold slotStep at h
  simp only [] at h
  by_cases hbp : bProb.sum ≠ 0
  · rw [if_pos hbp] at h
    cases hwf : whileFallback ageBrackets st.pools st.counts
        (bProb.length + 2) bProb (fastChoice bProb st.g).1
        (fastChoice bProb st.g).2 with
    | none => rw [hwf] at h; exact absurd h (by simp)
    | some p =>
      obtain ⟨bi, g2⟩ := p
      rw [hwf] at h
      simp only [] at h
      cases hpop : popAge st.pools st.counts
          ((ageBrackets.getD bi []).getD (fastChoice ((ageBrackets.getD bi
            []).map (fun a => ((st.counts.getD a 0 : Nat) : Rat))) g2).1 0) with
      | none => rw [hpop] at h; exact absurd h (by simp)
      | some q =>
        obtain ⟨uid, pools1, counts1⟩ := q
        rw [hpop] at h
        simp only [] at h
        have hperm := popAge_perm _ _ _ _ _ _ hpop
        by_cases hz : ((ageBrackets.getD bi []).map
            (fun a => counts1.getD a 0)).sum = 0
        · rw [if_pos hz] at h
          simp only [Option.some.injEq, Prod.mk.injEq] at h
          obtain ⟨h1, -, h3⟩ := h
          subst h1
          rw [← h3]
          simpa using hperm
        · rw [if_neg hz] at h
          simp only [Option.some.injEq, Prod.mk.injEq] at h
          obtain ⟨h1, -, h3⟩ := h
          subst h1
          rw [← h3]
          simpa using hperm
  · rw [if_neg hbp] at h
    simp only [] at h
    by_cases hz : ((ageBrackets.getD (fastChoice bProb st.g).1 []).map
        (fun a => st.counts.getD a 0)).sum = 0
    · rw [if_pos hz] at h
      simp only [Option.some.injEq, Prod.mk.injEq] at h
      obtain ⟨h1, -, h3⟩ := h
      subst h1
      rw [← h3]
      simp
    · rw [if_neg hz] at h
      simp only [Option.some.injEq, Prod.mk.injEq] at h
      obtain ⟨h1, -, h3⟩ := h
      subst h1
      rw [← h3]
      simp

theorem innerLoop_spec (ageBrackets : List (List Nat)) (bindex : Nat)
    (k : Nat) :
    ∀ (bp : List Rat) (st : AState) (ags uds : List Nat) (bp'' : List Rat)
      (st'' : AState),
      innerLoop ageBrackets bindex k bp st = some (ags, uds, bp'', st'') →
      (uds ++ st''.pools.flatten).Perm st.pools.flatten ∧ uds.length ≤ k := by
  induction k with
  | zero =>
    intro bp st ags uds bp'' st'' h
    unfold innerLoop at h
    simp only [Option.some.injEq, Prod.mk.injEq] at h
    obtain ⟨-, h2, -, h4⟩ := h
    subst h2
    subst h4
    simp
  | succ k ih =>
    intro bp st ags uds bp'' st'' h
    unfold innerLoop at h
    cases hs : slotStep ageBrackets bindex bp st with
    | none => rw [hs] at h; exact absurd h (by simp)
    | some r =>
      obtain ⟨added, bp1, st1⟩ := r
      rw [hs] at h
      simp only [] at h
      cases hrec : innerLoop ageBrackets bindex k bp1 st1 with
      | none => rw [hrec] at h; exact absurd h (by simp)
      | some r2 =>
        obtain ⟨ags0, uds0, bp2, st2⟩ := r2
        rw [hrec] at h
        simp only [] at h
        obtain ⟨hperm0, hlen0⟩ := ih _ _ _ _ _ _ hrec
        have hstep := slotStep_poolPerm _ _ _ _ _ _ _ hs
        cases added with
        | none =>
          simp only [Option.some.injEq, Prod.mk.injEq] at h
          obtain ⟨-, h2, -, h4⟩ := h
          subst h2
          subst h4
          simp only [Option.elim, List.nil_append] at hstep
          exact ⟨hperm0.trans hstep, le_trans hlen0 (Nat.le_succ _)⟩
        | some au =>
          simp only [Option.some.injEq, Prod.mk.injEq] at h
          obtain ⟨-, h2, -, h4⟩ := h
          subst h2
          subst h4
          simp only [Option.elim, List.singleton_append] at hstep
          refine ⟨?_, by simpa using Nat.succ_le_succ hlen0⟩
          show (au.2 :: (uds0 ++ st2.pools.flatten)).Perm st.pools.flatten
          exact (List.Perm.cons _ hperm0).trans hstep

theorem clampSize_le (size P wlc : Int) : clampSize size P wlc ≤ size := by
  unfold clampSize
  simp only []
  split_ifs <;> omega

theorem groupStep_spec (ageBrackets : List (List Nat))
    (ageToBracket : Nat → Nat) (size : Int) (st : AState)
    (ags uds : List Nat) (st' : AState)
    (h : groupStep ageBrackets ageToBracket size st = some (ags, uds, st')) :
    (uds ++ st'.pools.flatten).Perm st.pools.flatten ∧
    (1 ≤ size → uds.length ≤ size.toNat + 1) := by
  unfold groupStep at h
  simp only [] at h
  cases hnp : npChoiceWeighted (List.range st.counts.length)
      ((List.range st.counts.length).map
        (fun a => ((st.counts.getD a 0 : Nat) : Rat))) st.g with
  | none => rw [hnp] at h; exact absurd h (by simp)
  | some p =>
    obtain ⟨aindex, g1⟩ := p
    rw [hnp] at h
    simp only [] at h
    cases hpop : popAge st.pools st.counts aindex with
    | none => rw [hpop] at h; exact absurd h (by simp)
    | some q =>
      obtain ⟨uid, pools1, counts1⟩ := q
      rw [hpop] at h
      simp only [] at h
      have hanchor := popAge_perm _ _ _ _ _ _ hpop
      have hcs := clampSize_le size (pools1.flatten.length : Int)
        (counts1.sum : Int)
      by_cases hcond : (pools1.flatten.length : Int) ≤
          clampSize size (pools1.flatten.length : Int) (counts1.sum : Int) ∨
          (counts1.sum : Int) ≤
          clampSize size (pools1.flatten.length : Int) (counts1.sum : Int)
      · rw [if_pos hcond] at h
        cases hdr : drainGo (List.range counts1.length) pools1 counts1 with
        | none => rw [hdr] at h; exact absurd h (by simp)
        | some r =>
          obtain ⟨ags0, uds0, pools2, counts2⟩ := r
          rw [hdr] at h
          simp only [] at h
          simp only [Option.some.injEq, Prod.mk.injEq] at h
          obtain ⟨-, h2, h3⟩ := h
          subst h2
          have hdp := drainGo_perm _ _ _ _ _ _ _ hdr
          have hdl := drainGo_len_le _ _ _ _ _ _ _ hdr
          rw [map_getD_range] at hdl
          have hst : st'.pools = pools2 := by rw [← h3]
          constructor
          · rw [hst]
            show (uid :: (uds0 ++ pools2.flatten)).Perm st.pools.flatten
            exact (List.Perm.cons _ hdp).trans hanchor
          · intro hsz
            have hdP : uds0.length + pools2.flatten.length =
                pools1.flatten.length := by
              have := hdp.length_eq
              simpa using this
            simp only [List.length_cons]
            omega
      · rw [if_neg hcond] at h
        cases hil : innerLoop ageBrackets
            (min (ageToBracket aindex) (st.W.length - 1))
            ((clampSize size (pools1.flatten.length : Int)
              (counts1.sum : Int)) - 1).toNat
            (if 0 < (st.W.getD (min (ageToBracket aindex)
                (st.W.length - 1)) []).sum then
              (st.W.getD (min (ageToBracket aindex) (st.W.length - 1)) []).map
                (fun w => w / (st.W.getD (min (ageToBracket aindex)
                  (st.W.length - 1)) []).sum)
            else st.W.getD (min (ageToBracket aindex) (st.W.length - 1)) [])
            ⟨pools1, counts1, st.W, g1⟩ with
        | none => rw [hil] at h; exact absurd h (by simp)
        | some r =>
          obtain ⟨ags0, uds0, bp2, st2⟩ := r
          rw [hil] at h
          simp only [] at h
          simp only [Option.some.injEq, Prod.mk.injEq] at h
          obtain ⟨-, h2, h3⟩ := h
          subst h2
          subst h3
          obtain ⟨hperm0, hlen0⟩ := innerLoop_spec _ _ _ _ _ _ _ _ _ hil
          constructor
          · show (uid :: (uds0 ++ st2.pools.flatten)).Perm st.pools.flatten
            exact (List.Perm.cons _ hperm0).trans hanchor
          · intro hsz
            simp only [List.length_cons]
            omega

theorem assignLoop_perm (ageBrackets : List (List Nat))
    (ageToBracket : Nat → Nat) (sizes : List Int) :
    ∀ (st : AState) (was wus : List (List Nat)) (st'' : AState),
      assignLoop ageBrackets ageToBracket sizes st = some (was, wus, st'') →
      (wus.flatten ++ st''.pools.flatten).Perm st.pools.flatten := by
  induction sizes with
  | nil =>
    intro st was wus st'' h
    unfold assignLoop at h
    simp only [Option.some.injEq, Prod.mk.injEq] at h
    obtain ⟨-, h2, h3⟩ := h
    subst h2
    subst h3
    simp
  | cons size rest ih =>
    intro st was wus st'' h
    unfold assignLoop at h
    by_cases hb1 : (normDic (st.counts.map (fun c => (c : Rat)))).sum = 0
    · rw [if_pos hb1] at h
      simp only [Option.some.injEq, Prod.mk.injEq] at h
      obtain ⟨-, h2, h3⟩ := h
      subst h2
      subst h3
      simp
    · rw [if_neg hb1] at h
      by_cases hb2 : st.pools.flatten.isEmpty
      · rw [if_pos hb2] at h
        simp only [Option.some.injEq, Prod.mk.injEq] at h
        obtain ⟨-, h2, h3⟩ := h
        subst h2
        subst h3
        simp
      · rw [if_neg hb2] at h
        cases hg : groupStep ageBrackets ageToBracket size st with
        | none => rw [hg] at h; exact absurd h (by simp)
        | some r =>
          obtain ⟨ags, uds, st1⟩ := r
          rw [hg] at h
          simp only [] at h
          cases hrec : assignLoop ageBrackets ageToBracket rest st1 with
          | none => rw [hrec] at h; exact absurd h (by simp)
          | some r2 =>
            obtain ⟨was0, wus0, st2⟩ := r2
            rw [hrec] at h
            simp only [] at h
            simp only [Option.some.injEq, Prod.mk.injEq] at h
            obtain ⟨-, h2, h3⟩ := h
            subst h2
            subst h3
            have hstep := (groupStep_spec _ _ _ _ _ _ _ hg).1
            have hih := ih _ _ _ _ hrec
            show ((uds :: wus0).flatten ++ st2.pools.flatten).Perm
              st.pools.flatten
            rw [List.flatten_cons, List.append_assoc]
            exact (List.Perm.append_left _ hih).trans hstep

theorem assignLoop_bound (ageBrackets : List (List Nat))
    (ageToBracket : Nat → Nat) (sizes : List Int) :
    ∀ (st : AState) (was wus : List (List Nat)) (st'' : AState),
      assignLoop ageBrackets ageToBracket sizes st = some (was, wus, st'') →
      (∀ s ∈ sizes, 1 ≤ s) →
      ∀ i, i < wus.length →
        (wus.getD i []).length ≤ (sizes.getD i 0).toNat + 1 := by
  induction sizes with
  | nil =>
    intro st was wus st'' h _ i hi
    unfold assignLoop at h
    simp only [Option.some.injEq, Prod.mk.injEq] at h
    obtain ⟨-, h2, -⟩ := h
    subst h2
    exact absurd hi (by simp)
  | cons size rest ih =>
    intro st was wus st'' h hpos i hi
    unfold assignLoop at h
    by_cases hb1 : (normDic (st.counts.map (fun c => (c : Rat)))).sum = 0
    · rw [if_pos hb1] at h
      simp only [Option.some.injEq, Prod.mk.injEq] at h
      obtain ⟨-, h2, -⟩ := h
      subst h2
      exact absurd hi (by simp)
    · rw [if_neg hb1] at h
      by_cases hb2 : st.pools.flatten.isEmpty
      · rw [if_pos hb2] at h
        simp only [Option.some.injEq, Prod.mk.injEq] at h
        obtain ⟨-, h2, -⟩ := h
        subst h2
        exact absurd hi (by simp)
      · rw [if_neg hb2] at h
        cases hg : groupStep ageBrackets ageToBracket size st with
        | none => rw [hg] at h; exact absurd h (by simp)
        | some r =>
          obtain ⟨ags, uds, st1⟩ := r
          rw [hg] at h
          simp only [] at h
          cases hrec : assignLoop ageBrackets ageToBracket rest st1 with
          | none => rw [hrec] at h; exact absurd h (by simp)
          | some r2 =>
            obtain ⟨was0, wus0, st2⟩ := r2
            rw [hrec] at h
            simp only [] at h
            simp only [Option.some.injEq, Prod.mk.injEq] at h
            obtain ⟨-, h2, -⟩ := h
            subst h2
            cases i with
            | zero =>
              have := (groupStep_spec _ _ _ _ _ _ _ hg).2
                (hpos size (List.mem_cons_self _ _))
              simpa using this
            | succ i =>
              have := ih _ _ _ _ hrec
                (fun s hs => hpos s (List.mem_cons_of_mem _ hs)) i
                (by simpa using hi)
              simpa using this

section

/- The rational operations are `@[irreducible]` for the elaborator; the
concrete runs below are evaluated by `decide`, which needs to reduce
them. -/
attribute [local semireducible] Rat.add Rat.mul Rat.sub Rat.inv

/-- C2 counterexample: a successful run of `assign_rest_of_workers` (one
workplace of target size 1, pooled workers 7 and 8 with assign count 2)
that assigns only uid 7 and leaves pooled uid 8 in no workplace at all —
the returned memberships are not a partition of the input pool. -/
theorem workplace_partition_cex :
    assign_rest_of_workers [[0]] (fun _ => 0) [1] [[7, 8]] [2] [[1]]
        (seedRng 0) = some ([[0]], [[7]], ⟨[[8]], [1], [[1]], ⟨12345⟩⟩) ∧
    8 ∈ ([[7, 8]] : List (List Nat)).flatten ∧
    ∀ w ∈ ([[7]] : List (List Nat)), 8 ∉ w := by
  refine ⟨by decide, by decide, by decide⟩

/-- C2 (amended): the uids `assign_rest_of_workers` assigns, together
with the uids still sitting in the final pools, are a permutation of the
input pools — every assigned uid comes from the pool and, when the pool
is duplicate-free, no uid occurs in two workplaces or twice within one.
The original claim's "no pooled uid is left unassigned" is refuted by the
counterexample: the final pools may be non-empty after a successful run. -/
theorem workplace_partition_amended (ageBrackets : List (List Nat))
    (ageToBracket : Nat → Nat) (sizes : List Int) (pools : List (List Nat))
    (counts : List Nat) (W : List (List Rat)) (g : Rng)
    (was wus : List (List Nat)) (stf : AState)
    (hnd : pools.flatten.Nodup)
    (h : assign_rest_of_workers ageBrackets ageToBracket sizes pools counts
      W g = some (was, wus, stf)) :
    (wus.flatten ++ stf.pools.flatten).Perm pools.flatten ∧
    wus.flatten.Nodup := by
  unfold assign_rest_of_workers at h
  have hp := assignLoop_perm ageBrackets ageToBracket sizes _ _ _ _ h
  exact ⟨hp, ((hp.nodup_iff).mpr hnd).of_append_left⟩

theorem workplace_partition_amended_witness :
    (([[7]] : List (List Nat)).flatten ++
        ([[8]] : List (List Nat)).flatten).Perm
      ([[7, 8]] : List (List Nat)).flatten ∧
    ([[7]] : List (List Nat)).flatten.Nodup :=
  workplace_partition_amended [[0]] (fun _ => 0) [1] [[7, 8]] [2] [[1]]
    (seedRng 0) [[0]] [[7]] ⟨[[8]], [1], [[1]], ⟨12345⟩⟩ (by decide)
    (by decide)

/-- C7 counterexample: a successful run with one workplace of target size
1 and three pooled workers of one age with assign count 2: the drain
branch fires (remaining count 1 ≤ clamped size 1) and the built group has
2 members — more than its target size from the `workplace_sizes` list. -/
theorem group_size_cex :
    assign_rest_of_workers [[0]] (fun _ => 0) [1] [[7, 8, 9]] [2] [[1]]
        (seedRng 0) =
      some ([[0, 0]], [[7, 8]], ⟨[[9]], [0], [[1]], ⟨12345⟩⟩) ∧
    ¬ (([[7, 8]] : List (List Nat)).getD 0 []).length ≤
        (([1] : List Int).getD 0 0).toNat := by
  refine ⟨by decide, by decide⟩

/-- C7 (amended): a group built by `assign_rest_of_workers` can exceed
its target size by one (the drain branch of the last workplace places one
more worker than the clamped size, see the counterexample), so the
correct per-group bound is target + 1; and the assigned uids never exceed
the pools — the total placed plus the total left over is exactly the
input pool, so no group ever takes more than what remained at the moment
it was started. -/
theorem group_size_bound (ageBrackets : List (List Nat))
    (ageToBracket : Nat → Nat) (sizes : List Int) (pools : List (List Nat))
    (counts : List Nat) (W : List (List Rat)) (g : Rng)
    (was wus : List (List Nat)) (stf : AState)
    (hpos : ∀ s ∈ sizes, 1 ≤ s)
    (h : assign_rest_of_workers ageBrackets ageToBracket sizes pools counts
      W g = some (was, wus, stf)) :
    (∀ i, i < wus.length →
      (wus.getD i []).length ≤ (sizes.getD i 0).toNat + 1) ∧
    wus.flatten.length + stf.pools.flatten.length = pools.flatten.length := by
  unfold assign_rest_of_workers at h
  refine ⟨assignLoop_bound ageBrackets ageToBracket sizes _ _ _ _ h hpos, ?_⟩
  have hp := assignLoop_perm ageBrackets ageToBracket sizes _ _ _ _ h
  have := hp.length_eq
  simpa using this

theorem group_size_bound_witness :
    (∀ i, i < ([[7, 8]] : List (List Nat)).length →
      (([[7, 8]] : List (List Nat)).getD i []).length ≤
        (([1] : List Int).getD i 0).toNat + 1) ∧
    ([[7, 8]] : List (List Nat)).flatten.length +
        ([[9]] : List (List Nat)).flatten.length =
      ([[7, 8, 9]] : List (List Nat)).flatten.length :=
  group_size_bound [[0]] (fun _ => 0) [1] [[7, 8, 9]] [2] [[1]] (seedRng 0)
    [[0, 0]] [[7, 8]] ⟨[[9]], [0], [[1]], ⟨12345⟩⟩ (by decide) (by decide)

/-- C6 counterexample: a successful run in which the anchor's contact
matrix row sums to zero while nine pooled workers remain: the group's
remaining slot is skipped — the group ends with 1 member though its
target size is 2 and the pools are non-empty, so there is no uniform
fallback filling the slot. -/
theorem zero_row_no_fallback_cex :
    assign_rest_of_workers [[0]] (fun _ => 0) [2]
        [[1, 2, 3, 4, 5, 6, 7, 8, 9, 10]] [5] [[0]] (seedRng 0) =
      some ([[0]], [[1]],
        ⟨[[2, 3, 4, 5, 6, 7, 8, 9, 10]], [4], [[0]], ⟨12345⟩⟩) ∧
    (([[1]] : List (List Nat)).getD 0 []).length < 2 ∧
    ([[2, 3, 4, 5, 6, 7, 8, 9, 10]] : List (List Nat)).flatten ≠ [] := by
  refine ⟨by decide, by decide, by decide⟩

/-- C6 (amended/corrected): contrary to the spec there is no uniform
fallback for a zero-sum row.  When the anchor's row distribution sums to
zero, a member-loop iteration (`slotStep`, the body of
`for i in range(1, size)` in `assign_rest_of_workers`) skips the slot: it
assigns nobody and leaves the pools and the remaining counts untouched.
The re-draw fallback exists only inside the positive-mass branch: with
positive row mass, a successful iteration assigns exactly one member,
popped from the pools. -/
theorem zero_row_slot_skipped (ageBrackets : List (List Nat)) (bindex : Nat)
    (bProb : List Rat) (st : AState) :
    (bProb.sum = 0 →
      ∃ bp' st',
        slotStep ageBrackets bindex bProb st = some (none, bp', st') ∧
        st'.pools = st.pools ∧ st'.counts = st.counts) ∧
    (bProb.sum ≠ 0 →
      ∀ added bp' st',
        slotStep ageBrackets bindex bProb st = some (added, bp', st') →
        ∃ a u, added = some (a, u) ∧ u ∈ st.pools.flatten ∧
          st'.pools.flatten.length + 1 = st.pools.flatten.length) := by
  constructor
  · intro h0
    unfold slotStep
    simp only []
    rw [if_neg (fun hne => hne h0)]
    simp only []
    by_cases hz : ((ageBrackets.getD (fastChoice bProb st.g).1 []).map
        (fun a => st.counts.getD a 0)).sum = 0
    · rw [if_pos hz]
      exact ⟨_, _, rfl, rfl, rfl⟩
    · rw [if_neg hz]
      exact ⟨_, _, rfl, rfl, rfl⟩
  · intro hbp added bp' st' h
    unfold slotStep at h
    simp only [] at h
    rw [if_pos hbp] at h
    cases hwf : whileFallback ageBrackets st.pools st.counts
        (bProb.length + 2) bProb (fastChoice bProb st.g).1
        (fastChoice bProb st.g).2 with
    | none => rw [hwf] at h; exact absurd h (by simp)
    | some p =>
      obtain ⟨bi, g2⟩ := p
      rw [hwf] at h
      simp only [] at h
      cases hpop : popAge st.pools st.counts
          ((ageBrackets.getD bi []).getD (fastChoice ((ageBrackets.getD bi
            []).map (fun a => ((st.counts.getD a 0 : Nat) : Rat))) g2).1
            0) with
      | none => rw [hpop] at h; exact absurd h (by simp)
      | some q =>
        obtain ⟨uid, pools1, counts1⟩ := q
        rw [hpop] at h
        simp only [] at h
        have hperm := popAge_perm _ _ _ _ _ _ hpop
        have hmem : uid ∈ st.pools.flatten :=
          hperm.subset (List.mem_cons_self _ _)
        have hlen : pools1.flatten.length + 1 = st.pools.flatten.length := by
          have := hperm.length_eq
          simpa using this
        by_cases hz : ((ageBrackets.getD bi []).map
            (fun a => counts1.getD a 0)).sum = 0
        · rw [if_pos hz] at h
          simp only [Option.some.injEq, Prod.mk.injEq] at h
          obtain ⟨h1, -, h3⟩ := h
          refine ⟨_, _, h1.symm, hmem, ?_⟩
          rw [← h3]
          exact hlen
        · rw [if_neg hz] at h
          simp only [Option.some.injEq, Prod.mk.injEq] at h
          obtain ⟨h1, -, h3⟩ := h
          refine ⟨_, _, h1.symm, hmem, ?_⟩
          rw [← h3]
          exact hlen

theorem zero_row_slot_skipped_witness :
    ∃ bp' st',
      slotStep [[0]] 0 [(0 : Rat)] (⟨[[1, 2]], [1], [[0]], ⟨0⟩⟩ : AState) =
        some (none, bp', st') ∧
      st'.pools = [[1, 2]] ∧ st'.counts = [1] :=
  (zero_row_slot_skipped [[0]] 0 [(0 : Rat)]
    (⟨[[1, 2]], [1], [[0]], ⟨0⟩⟩ : AState)).1 (by decide)

end

section

attribute [local semireducible] Rat.add Rat.mul Rat.sub Rat.inv

theorem pipeline_deterministic_witness :
    PipelineRun ⟨[], [], [], fun _ => 0, [], [], [], [], [], [], [], none,
      none, [], false, 0, none⟩ 0 ([], []) ∧
    (([], []) : List (List Nat) × Popdict) = ([], []) :=
  have hrun : PipelineRun ⟨[], [], [], fun _ => 0, [], [], [], [], [], [],
      [], none, none, [], false, 0, none⟩ 0 ([], []) :=
    PipelineRun.mk [] (seedRng 0) [] [] ⟨[], [], [], seedRng 0⟩ [] (seedRng 0)
      (GenSizesRun.mk (seedRng 0) [] _ (seedRng 0) [] [] (seedRng 0)
        (SizesLoopRun.exit _ _ le_rfl) (by simp) rfl)
      rfl rfl
  ⟨hrun, pipeline_deterministic _ 0 ([], []) ([], []) hrun hrun⟩

theorem generate_workplace_sizes_spec_witness :
    ∃ out g' raw nf graw,
      generate_workplace_sizes [1] [[2]] [3] (seedRng 0) = some (out, g') ∧
      out.sum = (([3] : List Nat).sum : Int) ∧
      (([3] : List Nat).sum = 0 → out = []) ∧
      sizesLoop [[2]] (normDic [1]) (([3] : List Nat).sum + 1)
        (([3] : List Nat).sum : Int) (seedRng 0) = some (raw, nf, graw) ∧
      (let corrected :=
        if nf < 0 then raw.dropLast ++ [raw.getLast?.getD 0 + nf] else raw
       corrected.dropLast = raw.dropLast ∧
       corrected.sum = (([3] : List Nat).sum : Int) ∧ out.Perm corrected) :=
  generate_workplace_sizes_spec [1] [[2]] [3] (seedRng 0) (by decide)
    (by norm_num) (by decide) (by decide)

theorem create_reduced_error_characterization_witness :
    ((∃ msg pdE, create_reduced_contacts_with_group_types
        [(1, initPerson 20 0 false), (2, initPerson 25 1 false)]
        [1] [2] Layer.H 2 none (seedRng 0) = CRResult.raised msg pdE) ↔
      (([1] : List Nat) = [] ∨ ([2] : List Nat) = [] ∨ 2 < 2)) ∧
    (∀ msg pdE, create_reduced_contacts_with_group_types
        [(1, initPerson 20 0 false), (2, initPerson 25 1 false)]
        [1] [2] Layer.H 2 none (seedRng 0) = CRResult.raised msg pdE →
      pdE = [(1, initPerson 20 0 false), (2, initPerson 25 1 false)]) ∧
    ((([1] : List Nat) = [] ∨ ([2] : List Nat) = [] ∨ 2 < 2) ∨
      ∃ pdO gO, create_reduced_contacts_with_group_types
        [(1, initPerson 20 0 false), (2, initPerson 25 1 false)]
        [1] [2] Layer.H 2 none (seedRng 0) = CRResult.ok pdO gO) :=
  create_reduced_error_characterization
    [(1, initPerson 20 0 false), (2, initPerson 25 1 false)]
    [1] [2] Layer.H 2 none (seedRng 0)
    (by intro u hu; fin_cases hu <;> exact ⟨_, rfl⟩)

theorem create_reduced_complete_graph_witness :
    ∃ pd' g',
      create_reduced_contacts_with_group_types
          [(1, initPerson 20 0 false), (2, initPerson 30 0 false),
            (3, initPerson 40 0 false)] [1] [2, 3] Layer.S 3 none
          (seedRng 0) = CRResult.ok pd' g' ∧
      ∀ u ∈ ([1] : List Nat) ++ [2, 3], ∀ v ∈ ([1] : List Nat) ++ [2, 3],
        v ≠ u → v ∈ cGet pd' Layer.S u :=
  create_reduced_complete_graph
    [(1, initPerson 20 0 false), (2, initPerson 30 0 false),
      (3, initPerson 40 0 false)] [1] [2, 3] Layer.S 3 none (seedRng 0)
    (by simp) (by simp) (by norm_num) (by decide)
    (by intro u hu; fin_cases hu <;> exact ⟨_, rfl⟩)

theorem no_self_contacts_witness :
    (∀ u k, u ∉ cGet ([] : Popdict) k u) ∧
    (∀ u k, u ∉ cGet ([] : Popdict) k u) :=
  no_self_contacts [] [] [] [] none [] none [] false 0 none (seedRng 0)
    [] (seedRng 0) [] [1] [2] Layer.S 2 none (seedRng 0) [] (seedRng 0)
    (by simp) (by simp) (by decide) (by decide)
    (fun u k h => absurd h (List.not_mem_nil u)) (by decide)

theorem community_layer_always_empty_witness :
    (Person.mk 30 1 none none none none none none none none none
      ⟨some [], some [], some [], some [], none⟩).contacts.get Layer.C =
      some [] :=
  community_layer_always_empty [(5, 30)] [] [] [] none [] none [] false 0
    none (seedRng 0)
    [(5, Person.mk 30 1 none none none none none none none none none
      ⟨some [], some [], some [], some [], none⟩)]
    ⟨12345⟩ (by decide) 5
    (Person.mk 30 1 none none none none none none none none none
      ⟨some [], some [], some [], some [], none⟩) (by decide)

theorem workplace_cap_symmetric_repair_witness :
    ((∃ pdW, ([] : Popdict) = pairingPass pdW ∧
      (∀ z, (cGet pdW Layer.W z).length ≤ 4 / 2) ∧
      (∀ x v, v ∈ cGet ([] : Popdict) Layer.W x ↔
        (v ∈ cGet pdW Layer.W x ∨
          (v ∈ pdW.map Prod.fst ∧ x ∈ cGet pdW Layer.W v)))) ∧
    (∀ u v, v ∈ cGet ([] : Popdict) Layer.W u ↔
      u ∈ cGet ([] : Popdict) Layer.W v) ∧
    (4 = 4 → (∀ wp ∈ ([] : List (List Nat)), wp.length = 5) →
      ∀ u, (cGet ([] : Popdict) Layer.W u).length ≤ 4)) :=
  workplace_cap_symmetric_repair [] [] [] [] none [] none [] false 0 4
    (seedRng 0) [] (seedRng 0) (by simp) (by simp) (by decide)

end

end SynthPops
